import Mathlib

/-!
fwcontrol: the fan control engine.

A shallow embedding of `src/fwcontrol.c` (the curve evaluator `calc_pwm`, the
control cycle `control_fan_speed`, the drive functions `get_hdd_status` and
`get_hdd_temp`, and the parts of `read_mem_conf` and `read_fan_conf` that count
sources and curve points) together with theorems about it.

Conventions of the embedding.

* `short`, `char` and `time_t` values are `Int`; `unsigned char` values are `Nat`
  (a value stored in an `unsigned char` is below 256, which theorems that depend on
  it state as a hypothesis); counters that the program only ever counts up from 0
  are `Nat`.
* The `float` and `double` values of `calc_pwm` are the rational numbers they
  denote; every conversion to `float` and every operation on them is followed by
  the rounding of IEEE 754 binary32 or binary64 (to nearest, ties to even), one
  operation at a time as the source writes them (`FLT_EVAL_METHOD` 0, no fused
  multiply-add), and then by the C conversion to `unsigned char`.
* The arrays `x[2]` indexed by `enum {SYS, HDD}` are values of `Two`.
* The outside world (sensor files, drives, the clock) is an oracle `World`; every
  call that reaches the outside world is recorded in an event log, newest event
  first.  `syslog` output is not modelled.
* A local variable that the source reads without having initialised it is a
  parameter of the function: its value is whatever the memory held.
* Bytes and bit patterns are `Nat`, with `% 2 ^ w` at the width `w` of the C type.
-/

namespace Fwcontrol

/-! ## Data model -/

/-- The constant `MAX_STEP`: the number of curve points allocated per fan and kind. -/
def MAX_STEP : Nat := 10

/-- The source kinds, `enum {SYS, HDD}`. -/
inductive Kind where
  | SYS
  | HDD
deriving DecidableEq, Repr

/-- A two element C array indexed by `enum {SYS, HDD}`. -/
structure Two (α : Type) where
  sys : α
  hdd : α
deriving DecidableEq, Repr

/-- Array read `p[t]`. -/
def Two.get {α : Type} (p : Two α) : Kind → α
  | Kind.SYS => p.sys
  | Kind.HDD => p.hdd

/-- Array write `p[t] = v`. -/
def Two.set {α : Type} (p : Two α) (t : Kind) (v : α) : Two α :=
  match t with
  | Kind.SYS => { p with sys := v }
  | Kind.HDD => { p with hdd := v }

/-- The record `struct s_fan`: configuration and run-time state of one fan. -/
structure s_fan where
  name : String
  control : Two Int
  pwm_enable : String
  pwm_write : String
  stop_delay : Int
  decr_delay : Int
  interval : Two Int
  interpolate : Two Int
  hyst : Two Int
  count_scan : Two Nat
  count_step : Two Nat
  next_check : Two Int
  loglevel : Int
  temp : Two Int
  pwm : Two Nat
  actual_pwm : Nat
  idle_pwm : Nat
  error_pwm : Two Nat
  min_decr_time : Int
  min_stop_time : Int
deriving DecidableEq, Repr

/-- The record `struct s_temp_pwm`: one curve point. -/
structure s_temp_pwm where
  temp : Int
  pwm : Nat
deriving DecidableEq, Repr

instance : Inhabited s_temp_pwm := ⟨⟨0, 0⟩⟩

/-- The record `struct s_temp`: one entry of the sensor cache `temp_buf`. -/
structure s_temp where
  name : String
  temp : Int
deriving DecidableEq, Repr

/-- What the program does to the outside world, and two ghost records.
`sys_read n`, `hdd_probe n`, `hdd_read n` are the calls `get_sys_temp(n)`,
`get_hdd_status(n)`, `get_hdd_temp(n)`; `write n v` is `write_fan(n, v)`;
`sample n v b` records, once per iteration of the source loop, the value `v` of
`dev_temp` at line 478 for the source `n` and whether it came from `temp_buf`. -/
inductive Event where
  | sys_read (name : String)
  | hdd_probe (name : String)
  | hdd_read (name : String)
  | sample (name : String) (dev_temp : Int) (sw_buffered : Bool)
  | write (name : String) (value : Nat)
deriving DecidableEq, Repr

/-- The outside world as seen by `control_fan_speed`.  Every answer may depend on
everything that happened before (the event log, newest first).
`stat_blk` is `stat(n, &device) == 0 && (device.st_mode & S_IFMT) == S_IFBLK`. -/
structure World where
  stat_blk : List Event → String → Bool
  get_hdd_status : List Event → String → Int
  get_hdd_temp : List Event → String → Int
  get_sys_temp : List Event → String → Int

/-! ## Floating-point arithmetic -/

/-- Rounding of a rational number to the nearest integer, a half to the even
neighbour. -/
def round_even (q : ℚ) : Int :=
  if q - ⌊q⌋ < 1 / 2 then ⌊q⌋
  else if 1 / 2 < q - ⌊q⌋ then ⌊q⌋ + 1
  else if ⌊q⌋ % 2 = 0 then ⌊q⌋ else ⌊q⌋ + 1

/-- Rounding of `x` to the nearest number of the binary floating-point format with
`p` significand bits and least normal exponent `emin`, a tie to the even
significand (the default rounding of IEEE 754); the subnormal numbers are
included.  The unit in the last place of the result is
`2 ^ (max ⌊log2 |x|⌋ emin - (p - 1))`.  The format is read without a largest
number: what `calc_pwm` computes is below `2 ^ 25` in magnitude. -/
def fl (p : Nat) (emin : Int) (x : ℚ) : ℚ :=
  (if 0 ≤ x then 1 else -1) *
    (round_even (|x| / 2 ^ (max (Int.log 2 |x|) emin - ((p : Int) - 1))) : ℚ) *
    2 ^ (max (Int.log 2 |x|) emin - ((p : Int) - 1))

/-- Rounding to `float` (binary32): conversion of an integer to `float`, or the
result of an operation on `float` operands. -/
def to_float (x : ℚ) : ℚ := fl 24 (-126) x

/-- Rounding to `double` (binary64). -/
def to_double (x : ℚ) : ℚ := fl 53 (-1022) x

/-! ## `calc_pwm` -/

/-- The `while` loop of `calc_pwm` (lines 414-418), entered with the current values
of `j` and `pwm`; returns the final `(j, pwm)`. -/
def calc_pwm_loop (data : List s_temp_pwm) (count_step : Nat) (temp : Int)
    (j : Nat) (pwm : Nat) : Nat × Nat :=
  if temp ≥ (data.getD j default).temp then
    if j + 1 ≥ count_step then (j + 1, (data.getD j default).pwm)
    else calc_pwm_loop data count_step temp (j + 1) (data.getD j default).pwm
  else (j, pwm)
termination_by count_step - j
decreasing_by omega

/-- Conversion of a floating value to `unsigned char`: truncation toward zero,
then the low eight bits. -/
def to_uchar (q : ℚ) : Nat :=
  ((if 0 ≤ q then ⌊q⌋ else ⌈q⌉) % 256).toNat

/-- The value of the right-hand side of lines 421-423 before its conversion to
`unsigned char`.  The cast makes `data[j].pwm` a `float`, so every integer operand
up to `+ data[j-1].pwm` is converted to `float` and every operation is rounded to
`float`, in the order in which the source writes them: the difference of the
duties, its quotient by the difference of the thresholds, the product with
`temp - data[j-1].temp`, the sum with `data[j-1].pwm`.  The constant `0.5` is a
`double`, so the last sum is rounded to `double`. -/
def interpolation (data : List s_temp_pwm) (j : Nat) (temp : Int) : ℚ :=
  to_double
    (to_float
        (to_float
            (to_float
                (to_float
                    (to_float (data.getD j default).pwm -
                      to_float (data.getD (j - 1) default).pwm) /
                  to_float
                    (((data.getD j default).temp - (data.getD (j - 1) default).temp : Int) : ℚ)) *
              to_float ((temp - (data.getD (j - 1) default).temp : Int) : ℚ)) +
          to_float (data.getD (j - 1) default).pwm) +
      1 / 2)

/-- The function `calc_pwm(t, i, temp)`, with `data = data_pwm[t][i]`,
`count_step = fan[i].count_step[t]` and `interpolate = fan[i].interpolate[t]`. -/
def calc_pwm (data : List s_temp_pwm) (count_step : Nat) (interpolate : Int)
    (temp : Int) : Nat :=
  let r := calc_pwm_loop data count_step temp 0 0
  if interpolate = 1 ∧ r.1 > 0 ∧ r.1 < count_step then
    to_uchar (interpolation data r.1 temp)
  else r.2

/-! ## `control_fan_speed` -/

/-- The lookup loop over `temp_buf` (lines 447-454): the temperature of the first
entry whose name is `name`, if there is one. -/
def buffered : List s_temp → String → Option Int
  | [], _ => none
  | e :: es, name => if e.name = name then some e.temp else buffered es name

/-- The local variables of `control_fan_speed` that live across the source loop,
together with the event log. -/
structure Scan where
  temp : Int
  sw_error : Bool
  temp_buf : List s_temp
  log : List Event

/-- The physical acquisition of one source (lines 457-464): the new `dev_temp`
and the extended event log. -/
def acquire (w : World) (type : Kind) (name : String) (log : List Event) :
    Int × List Event :=
  match type with
  | Kind.HDD =>
    if w.stat_blk log name = true then
      if w.get_hdd_status log name = 1 then
        (w.get_hdd_temp (Event.hdd_probe name :: log) name,
          Event.hdd_read name :: Event.hdd_probe name :: log)
      else (0, Event.hdd_probe name :: log)
    else (0, log)
  | Kind.SYS => (w.get_sys_temp log name, Event.sys_read name :: log)

/-- One iteration of the source loop (lines 443-479) for the source `name`. -/
def scan_source (w : World) (type : Kind) (s : Scan) (name : String) : Scan :=
  match buffered s.temp_buf name with
  | some dev_temp =>
    { s with
      temp := if dev_temp > s.temp then dev_temp else s.temp
      log := Event.sample name dev_temp true :: s.log }
  | none =>
    let r := acquire w type name s.log
    { temp := if r.1 > s.temp then r.1 else s.temp
      sw_error := if r.1 < 0 then true else s.sw_error
      temp_buf := s.temp_buf ++ [⟨name, r.1⟩]
      log := Event.sample name r.1 false :: r.2 }

/-- The names `scan[0] .. scan[count_scan - 1]` visited by the source loop. -/
def scan_names (scan : List String) (count_scan : Nat) : List String :=
  (List.range count_scan).map (fun j => scan.getD j "")

/-- The source loop (lines 440-480), started with `temp = 0` and `sw_error = 0`. -/
def scan_sources (w : World) (type : Kind) (names : List String)
    (temp_buf : List s_temp) (log : List Event) : Scan :=
  names.foldl (scan_source w type) ⟨0, false, temp_buf, log⟩

/-- The update of `fan[i].pwm[type]` and `fan[i].temp[type]` (lines 482-490). -/
def update_type (data : List s_temp_pwm) (now first_check : Int) (type : Kind)
    (temp : Int) (sw_error : Bool) (f : s_fan) : s_fan :=
  if sw_error = true ∧
      calc_pwm data (f.count_step.get type) (f.interpolate.get type) temp <
        f.error_pwm.get type then
    { f with pwm := f.pwm.set type (f.error_pwm.get type) }
  else if ¬ (temp < f.temp.get type ∧
        (f.hyst.get type > f.temp.get type - temp ∨ now < f.min_decr_time)) ∧
      (f.temp.get type ≠ temp ∨ first_check = 1) then
    { f with
      pwm := f.pwm.set type
        (calc_pwm data (f.count_step.get type) (f.interpolate.get type) temp)
      temp := f.temp.set type temp }
  else f

/-- The loop `while ((next_check += interval) <= now);` (lines 492-493) run for at
most `fuel` additions: `none` when the loop has not ended by then. -/
def advance_next_check (interval now : Int) : Nat → Int → Option Int
  | 0, _ => none
  | fuel + 1, next_check =>
    if next_check + interval ≤ now then
      advance_next_check interval now fuel (next_check + interval)
    else some (next_check + interval)

/-- The global and local variables of `control_fan_speed` that live across the
fan loop, together with the event log. -/
structure Cycle where
  next_check : Int
  temp_buf : List s_temp
  log : List Event

/-- The body of the loop over `type` (lines 439-499) for one source kind; the
Boolean is `sw_checked`. -/
def check_type (w : World) (fuel : Nat) (now first_check : Int)
    (data : List s_temp_pwm) (scan : List String) (type : Kind)
    (x : s_fan × Cycle × Bool) : Option (s_fan × Cycle × Bool) :=
  let f := x.1
  let c := x.2.1
  let r : Option (s_fan × Cycle × Bool) :=
    if f.control.get type = 1 ∧ now ≥ f.next_check.get type then
      let s := scan_sources w type (scan_names scan (f.count_scan.get type))
        c.temp_buf c.log
      let f1 := update_type data now first_check type s.temp s.sw_error f
      match advance_next_check (f.interval.get type) now fuel
          (f1.next_check.get type) with
      | none => none
      | some n =>
        some ({ f1 with next_check := f1.next_check.set type n },
          { c with temp_buf := s.temp_buf, log := s.log }, true)
    else some x
  match r with
  | none => none
  | some (f2, c2, sw_checked) =>
    if f2.control.get type = 1 ∧
        (c2.next_check = 0 ∨ c2.next_check > f2.next_check.get type) then
      some (f2, { c2 with next_check := f2.next_check.get type }, sw_checked)
    else some (f2, c2, sw_checked)

/-- Lines 526-545: write `new_pwm` to the fan, arm the delay windows and record
`new_pwm` as the actual speed. -/
def set_fan_speed (now : Int) (f : s_fan) (new_pwm : Nat) (log : List Event) :
    s_fan × List Event :=
  ({ f with
      min_decr_time :=
        if f.actual_pwm < new_pwm then now + f.decr_delay else f.min_decr_time
      min_stop_time :=
        if f.actual_pwm = 0 ∧ new_pwm ≠ 0 then now + f.stop_delay else f.min_stop_time
      actual_pwm := new_pwm },
    Event.write f.pwm_write new_pwm :: log)

/-- The combined duty `new_pwm` of lines 505-508. -/
def combined_pwm (f : s_fan) : Nat :=
  if f.pwm.get Kind.SYS > f.pwm.get Kind.HDD then f.pwm.get Kind.SYS
  else f.pwm.get Kind.HDD

/-- Lines 505-545: decide whether the combined duty is set, and set it.  Each
`continue` of the source leaves the fan and the log as they are. -/
def commit (now first_check : Int) (f : s_fan) (log : List Event) :
    s_fan × List Event :=
  let new_pwm := combined_pwm f
  if new_pwm = f.actual_pwm ∧ first_check ≠ 1 then (f, log)
  else if new_pwm < f.actual_pwm then
    if now < f.min_decr_time then (f, log)
    else if new_pwm = 0 then
      if now < f.min_stop_time then
        if f.idle_pwm ≠ 0 ∧ f.idle_pwm ≠ f.actual_pwm then
          set_fan_speed now f f.idle_pwm log
        else (f, log)
      else set_fan_speed now f new_pwm log
    else set_fan_speed now f new_pwm log
  else set_fan_speed now f new_pwm log

/-- The body of the loop over the fans (lines 437-545) for the fan `f = fan[i]`
with `data = data_pwm[.][i]`, `scan_sys = scan_sys[i]`, `scan_hdd = scan_hdd[i]`. -/
def check_fan (w : World) (fuel : Nat) (now first_check : Int)
    (data : Two (List s_temp_pwm)) (scan_sys scan_hdd : List String)
    (f : s_fan) (c : Cycle) : Option (s_fan × Cycle) :=
  match check_type w fuel now first_check data.sys scan_sys Kind.SYS
      (f, c, false) with
  | none => none
  | some x1 =>
    match check_type w fuel now first_check data.hdd scan_hdd Kind.HDD x1 with
    | none => none
    | some (f2, c2, sw_checked) =>
      if sw_checked = false then some (f2, c2)
      else
        let r := commit now first_check f2 c2.log
        some (r.1, { c2 with log := r.2 })

/-- The global variables of the program that `control_fan_speed` uses;
`count_fans` is the length of `fan`. -/
structure Globals where
  fan : List s_fan
  data_pwm : Two (List (List s_temp_pwm))
  scan_sys : List (List String)
  scan_hdd : List (List String)
  first_check : Int
  now : Int
  next_check : Int

/-- The loop over the fans (line 436), from the fan with index `i` on; `fans` are
the fans `fan[i], fan[i+1], ...` still to be visited. -/
def fan_loop (w : World) (fuel : Nat) (g : Globals) (now : Int) :
    Nat → List s_fan → Cycle → Option (List s_fan × Cycle)
  | _, [], c => some ([], c)
  | i, f :: fans, c =>
    match check_fan w fuel now g.first_check
        ⟨g.data_pwm.sys.getD i [], g.data_pwm.hdd.getD i []⟩
        (g.scan_sys.getD i []) (g.scan_hdd.getD i []) f c with
    | none => none
    | some (f1, c1) =>
      match fan_loop w fuel g now (i + 1) fans c1 with
      | none => none
      | some (fans1, c2) => some (f1 :: fans1, c2)

/-- The function `control_fan_speed()`, called when `time(NULL)` is `now`, in
the world `w` with the event log `log`.  The result is `none` when one of the
`next_check` loops does not end within `fuel` additions. -/
def control_fan_speed (w : World) (fuel : Nat) (now : Int) (g : Globals)
    (log : List Event) : Option (Globals × List Event) :=
  match fan_loop w fuel g now 0 g.fan ⟨0, [], log⟩ with
  | none => none
  | some (fans, c) =>
    some ({ g with
      fan := fans
      now := now
      next_check := c.next_check
      first_check := if g.first_check = 1 then 0 else g.first_check }, c.log)

/-! ## The invariant of the sensor cache -/

/-- The invariant that ties the sensor cache `temp_buf` to the events `evs` of the
current cycle: the cache holds exactly the values of the unbuffered samples, a
source that is not in the cache has not been acquired, every source has been
acquired at most once, and every buffered sample repeats an earlier unbuffered
sample of the same source. -/
def CacheInv (temp_buf : List s_temp) (evs : List Event) : Prop :=
  (∀ name v, buffered temp_buf name = some v ↔ Event.sample name v false ∈ evs) ∧
  (∀ name, buffered temp_buf name = none →
    evs.count (Event.sys_read name) = 0 ∧ evs.count (Event.hdd_probe name) = 0) ∧
  (∀ name, evs.count (Event.sys_read name) + evs.count (Event.hdd_probe name) ≤ 1 ∧
    evs.count (Event.hdd_read name) ≤ evs.count (Event.hdd_probe name)) ∧
  (∀ l1 l2 name v, evs = l1 ++ Event.sample name v true :: l2 →
    Event.sample name v false ∈ l2)

/-- The invariant `CacheInv` for the events that a cycle has added to the event
log `log0` it started with. -/
def CacheOK (log0 : List Event) (temp_buf : List s_temp) (log : List Event) : Prop :=
  ∃ evs, log = evs ++ log0 ∧ CacheInv temp_buf evs

/-! ## Termination of a cycle -/

/-- The `next_check` loops that a cycle at time `now` runs for the fan `f` end
within `fuel` additions: every kind that is enabled and due has an interval of at
least 1, and `fuel` covers the additions its loop makes. -/
def loops_end (fuel : Nat) (now : Int) (f : s_fan) : Prop :=
  ∀ type : Kind, f.control.get type = 1 → f.next_check.get type ≤ now →
    1 ≤ f.interval.get type ∧
      ((now - f.next_check.get type) / f.interval.get type + 1).toNat ≤ fuel

/-! ## Example configurations -/

/-- A fan with every field zero or empty, as `calloc` leaves it. -/
def fan_zero : s_fan where
  name := ""
  control := ⟨0, 0⟩
  pwm_enable := ""
  pwm_write := ""
  stop_delay := 0
  decr_delay := 0
  interval := ⟨0, 0⟩
  interpolate := ⟨0, 0⟩
  hyst := ⟨0, 0⟩
  count_scan := ⟨0, 0⟩
  count_step := ⟨0, 0⟩
  next_check := ⟨0, 0⟩
  loglevel := 0
  temp := ⟨0, 0⟩
  pwm := ⟨0, 0⟩
  actual_pwm := 0
  idle_pwm := 0
  error_pwm := ⟨0, 0⟩
  min_decr_time := 0
  min_stop_time := 0

/-- Example: a fan running at 100 whose last increase was at time 0 with
`decrease_delay = 60`; its system sensor reads 45 degrees as before, for which the
recorded duty is 50. -/
def fan_decrease : s_fan :=
  { fan_zero with
    name := "fan1", pwm_write := "pwm1", control := ⟨1, 0⟩, interval := ⟨10, 0⟩,
    count_scan := ⟨1, 0⟩, count_step := ⟨1, 0⟩, error_pwm := ⟨255, 255⟩,
    decr_delay := 60, stop_delay := 120, temp := ⟨45, 0⟩, pwm := ⟨50, 0⟩,
    actual_pwm := 100, min_decr_time := 60, min_stop_time := 120 }

/-- Example: a fan running at 80 that was started at time 0 with
`stop_delay = 120` and `decrease_delay = 5`, has `idle_pwm = 30`; its system sensor
reads 45 degrees as before, for which the recorded duty is 0. -/
def fan_stop : s_fan :=
  { fan_zero with
    name := "fan1", pwm_write := "pwm1", control := ⟨1, 0⟩, interval := ⟨10, 0⟩,
    count_scan := ⟨1, 0⟩, count_step := ⟨1, 0⟩, error_pwm := ⟨255, 255⟩,
    decr_delay := 5, stop_delay := 120, idle_pwm := 30, temp := ⟨45, 0⟩,
    pwm := ⟨0, 0⟩, actual_pwm := 80, min_decr_time := 5, min_stop_time := 120 }

/-- Example: a world in which every drive is a running block device at 40
degrees and every system sensor reads 45 degrees. -/
def world_example : World where
  stat_blk := fun _ _ => true
  get_hdd_status := fun _ _ => 1
  get_hdd_temp := fun _ _ => 40
  get_sys_temp := fun _ _ => 45

/-- Example: a fan controlled by one system sensor every 10 seconds, whose check
was due at time 100. -/
def fan_due : s_fan :=
  { fan_zero with
    name := "fan1", pwm_write := "pwm1", control := ⟨1, 0⟩, interval := ⟨10, 0⟩,
    count_scan := ⟨1, 0⟩, count_step := ⟨1, 0⟩, next_check := ⟨100, 0⟩,
    error_pwm := ⟨255, 255⟩ }

/-- Example: a fan controlled by the drive `/dev/sda` every 10 seconds, as
`read_fan_conf` leaves it at time 0. -/
def fan_drive : s_fan :=
  { fan_zero with
    name := "fan1", pwm_write := "pwm1", control := ⟨0, 1⟩, interval := ⟨0, 10⟩,
    count_scan := ⟨0, 1⟩, count_step := ⟨0, 1⟩, error_pwm := ⟨0, 255⟩ }

/-- Example: two fans that both list the drive `/dev/sda`, before the first
cycle. -/
def globals_shared_drive : Globals where
  fan := [fan_drive, { fan_drive with name := "fan2", pwm_write := "pwm2" }]
  data_pwm := ⟨[[], []], [[⟨30, 100⟩], [⟨30, 100⟩]]⟩
  scan_sys := [[], []]
  scan_hdd := [["/dev/sda"], ["/dev/sda"]]
  first_check := 1
  now := 0
  next_check := 0

/-- Example: a world in which reading any system sensor fails. -/
def world_sys_fails : World where
  stat_blk := fun _ _ => false
  get_hdd_status := fun _ _ => 0
  get_hdd_temp := fun _ _ => 0
  get_sys_temp := fun _ _ => -1

/-- Example: a fan controlled by the system sensor `temp1` every 10 seconds with
`error_pwm = 200`, as `read_fan_conf` leaves it at time 0. -/
def fan_sensor : s_fan :=
  { fan_zero with
    name := "fan1", pwm_write := "pwm1", control := ⟨1, 0⟩, interval := ⟨10, 0⟩,
    count_scan := ⟨1, 0⟩, count_step := ⟨1, 0⟩, error_pwm := ⟨200, 0⟩ }

/-- Example: two fans that both list the system sensor `temp1` and have the
curve `[(0,120)]`, before the first cycle. -/
def globals_shared_sensor : Globals where
  fan := [fan_sensor, { fan_sensor with name := "fan2", pwm_write := "pwm2" }]
  data_pwm := ⟨[[⟨0, 120⟩], [⟨0, 120⟩]], [[], []]⟩
  scan_sys := [["temp1"], ["temp1"]]
  scan_hdd := [[], []]
  first_check := 1
  now := 0
  next_check := 0

/-- Example: a fan whose system kind last recorded 47 degrees and duty 150, with
a hysteresis margin of 5 degrees and a decrease-delay window that ended at time
60; its check is due at time 100. -/
def fan_hyst : s_fan :=
  { fan_zero with
    name := "fan1", pwm_write := "pwm1", control := ⟨1, 0⟩, interval := ⟨10, 0⟩,
    count_scan := ⟨1, 0⟩, count_step := ⟨3, 0⟩, hyst := ⟨5, 0⟩, temp := ⟨47, 0⟩,
    pwm := ⟨150, 0⟩, actual_pwm := 150, decr_delay := 60, min_decr_time := 60,
    next_check := ⟨100, 0⟩, error_pwm := ⟨255, 255⟩ }

/-! ## Configuration lines -/

/-- Conversion of an `int` to `char` (signed, 8 bits). -/
def to_char (v : Int) : Int := (v + 128) % 256 - 128

/-- The effect of a configuration line `control_by_sys=value` or
`control_by_hdd=value` on `fan[i]` in `read_fan_conf` (lines 230-233), read when
`time(NULL)` was `now`; `value` is what `atoi` makes of the text. -/
def read_control_by (now : Int) (t : Kind) (value : Int) (f : s_fan) : s_fan :=
  { f with
    control := f.control.set t (to_char value)
    next_check := f.next_check.set t now
    error_pwm := f.error_pwm.set t 255 }

/-- Example: one fan as `calloc` and the single line `control_by_sys=1`, read at
time 0, leave it: enabled, due, and with no interval. -/
def globals_no_interval : Globals where
  fan := [read_control_by 0 Kind.SYS 1 fan_zero]
  data_pwm := ⟨[[]], [[]]⟩
  scan_sys := [[]]
  scan_hdd := [[]]
  first_check := 1
  now := 0
  next_check := 0

/-- Example: a fan that `read_fan_conf` has left enabled for the system sensor
`temp1` every 10 seconds, with a curve whose duty at the sensor's 45 degrees is 0:
on the first cycle the combined duty 0 equals the initial `actual_pwm`. -/
def fan_first : s_fan :=
  { fan_zero with
    name := "fan1", pwm_write := "pwm1", control := ⟨1, 0⟩, interval := ⟨10, 0⟩,
    count_scan := ⟨1, 0⟩, count_step := ⟨1, 0⟩, error_pwm := ⟨255, 0⟩ }

/-- Example: the fan `fan_first` with its curve `[(50,100)]`, before the first
cycle. -/
def globals_first : Globals where
  fan := [fan_first]
  data_pwm := ⟨[[⟨50, 100⟩]], [[]]⟩
  scan_sys := [["temp1"]]
  scan_hdd := [[]]
  first_check := 1
  now := 0
  next_check := 0

/-! ## The invariant of the next wake -/

/-- The invariant of the global `next_check` during a cycle at time `now`, where `P`
holds of the `next_check` values of the enabled kinds visited so far: these values
are all later than `now`; the global `m` is still 0 or is one of them; and once
there is such a value, `m` is not 0 and is at most that value. -/
def WakeInv (now m : Int) (P : Int → Prop) : Prop :=
  (∀ s, P s → now < s) ∧ (m = 0 ∨ P m) ∧ (∀ s, P s → m ≠ 0 ∧ m ≤ s)

/-- Example: a fan controlled by the system sensor `temp1` every 10 seconds and by
the drive `/dev/sda` every 4 seconds, as `read_fan_conf` leaves it at time 0. -/
def fan_both : s_fan :=
  { fan_zero with
    name := "fan1", pwm_write := "pwm1", control := ⟨1, 1⟩, interval := ⟨10, 4⟩,
    count_scan := ⟨1, 1⟩, count_step := ⟨1, 1⟩, error_pwm := ⟨255, 255⟩ }

/-- Example: the fan `fan_both` with the curves `[(50,100)]` and `[(30,100)]`,
before the first cycle. -/
def globals_both : Globals where
  fan := [fan_both]
  data_pwm := ⟨[[⟨50, 100⟩]], [[⟨30, 100⟩]]⟩
  scan_sys := [["temp1"]]
  scan_hdd := [["/dev/sda"]]
  first_check := 1
  now := 0
  next_check := 0

/-! ## The drive functions -/

/-- Conversion of an integer to `short` (signed, 16 bits). -/
def to_short (v : Int) : Int := (v + 32768) % 65536 - 32768

/-- The operand of `& 0xFF` at lines 381-386 for the record whose id byte is at
offset `i`, as the bit pattern of the `long long`.  The first four bytes are
combined as an `int` (32 bits), which the `|` with a `long long` converts with
sign extension; the last two are shifted as `long long` (64 bits). -/
def smart_raw (buffer : List Nat) (i : Nat) : Nat :=
  let low := (buffer.getD (i + 5) 0 ||| (buffer.getD (i + 6) 0 <<< 8) |||
    (buffer.getD (i + 7) 0 <<< 16) ||| (buffer.getD (i + 8) 0 <<< 24)) % 2 ^ 32
  let wide := if low < 2 ^ 31 then low else low + (2 ^ 64 - 2 ^ 32)
  wide ||| ((buffer.getD (i + 9) 0 <<< 32) % 2 ^ 64) |||
    ((buffer.getD (i + 10) 0 <<< 40) % 2 ^ 64)

/-- The `for` loop of `get_hdd_temp` (lines 379-388) from the offset `i` on.
`hdd_temp` is the value of the local variable `hdd_temp`, which the function does
not initialise; the result is its value after the loop. -/
def get_hdd_temp_loop (buffer : List Nat) (hdd_temp : Int) (i : Nat) : Int :=
  if i < 361 then
    if buffer.getD i 0 = 194 then to_short ((smart_raw buffer i &&& 0xFF : Nat) : Int)
    else get_hdd_temp_loop buffer hdd_temp (i + 12)
  else hdd_temp
termination_by 361 - i
decreasing_by omega

/-- The function `get_hdd_temp(name)`: `open_ok` and `ioctl_ok` say whether `open`
and `ioctl` succeed, `buffer` is what the transfer leaves in the 512 bytes of
`buffer`, and `hdd_temp` is the value that the uninitialised local variable
`hdd_temp` happens to hold. -/
def get_hdd_temp (open_ok ioctl_ok : Bool) (buffer : List Nat) (hdd_temp : Int) : Int :=
  if open_ok = false then -1
  else if ioctl_ok = false then -1
  else get_hdd_temp_loop buffer hdd_temp 2

/-- Example: an attribute log whose first record has the identifier 1 and whose
second record, at offset 14, has the identifier 194 and the raw bytes
`40, 1, 2, 128, 3, 4`. -/
def smart_log_example : List Nat :=
  [0, 0, 1, 0, 0, 0, 0, 33, 0, 0, 0, 0, 0, 0, 194, 0, 0, 0, 0, 40, 1, 2, 128, 3, 4] ++
    List.replicate 487 0

/-- Example: a world like `world_example` in which the attribute log of every
drive is 512 zero bytes, and the local variable `hdd_temp` of `get_hdd_temp` holds
0 on entry. -/
def world_no_attribute : World :=
  { world_example with
    get_hdd_temp := fun _ _ => get_hdd_temp true true (List.replicate 512 0) 0 }

/-! ## The power state of a drive -/

/-- The opcode `ATA_OP_CHECKPOWERMODE1`. -/
def ATA_OP_CHECKPOWERMODE1 : Nat := 0xe5

/-- The opcode `ATA_OP_CHECKPOWERMODE2`. -/
def ATA_OP_CHECKPOWERMODE2 : Nat := 0x98

/-- The status bit `ATA_STAT_DRQ`. -/
def ATA_STAT_DRQ : Nat := 1 <<< 3

/-- The status bit `ATA_STAT_ERR`. -/
def ATA_STAT_ERR : Nat := 1 <<< 0

/-- What a drive does with one `SG_IO` call of `sgio_send`: whether `ioctl` returns
-1, and the bytes `desc[13]` (the ATA status) and `desc[5]` that the call leaves in
the sense buffer. -/
structure SgReply where
  ioctl_fails : Bool
  status : Nat
  count : Nat

/-- The function `sgio_send(fd, cmd, rv)` on a drive that answers the command
`cmd` with `dev cmd`, for `rv` not null: the result, and `*rv` after the call,
which was `rv` before it. -/
def sgio_send (dev : Nat → SgReply) (cmd : Nat) (rv : Nat) : Int × Nat :=
  if (dev cmd).ioctl_fails = true then (-1, rv)
  else if (dev cmd).status &&& (ATA_STAT_ERR ||| ATA_STAT_DRQ) ≠ 0 then
    (-1, (dev cmd).count)
  else (0, (dev cmd).count)

/-- A run of `get_hdd_status`: the value returned, the local variable `ret` at the
`return` (if it was assigned), and the opcodes sent, in order. -/
structure HddStatus where
  result : Int
  ret : Option Int
  sent : List Nat
deriving DecidableEq, Repr

/-- The function `get_hdd_status(name)` (lines 329-345): `open_ok` says whether
`open` succeeds, `dev` is the drive, and `state` is the value that the
uninitialised local variable `state` happens to hold.  The second `sgio_send` is
called only if the first did not return 0. -/
def get_hdd_status (open_ok : Bool) (dev : Nat → SgReply) (state : Nat) : HddStatus :=
  if open_ok = false then { result := -1, ret := none, sent := [] }
  else
    let r1 := sgio_send dev ATA_OP_CHECKPOWERMODE1 state
    if r1.1 ≠ 0 then
      let r2 := sgio_send dev ATA_OP_CHECKPOWERMODE2 r1.2
      { result := if r2.2 = 0 then 0 else 1
        ret := some (if r2.1 ≠ 0 then 0 else 1)
        sent := [ATA_OP_CHECKPOWERMODE1, ATA_OP_CHECKPOWERMODE2] }
    else
      { result := if r1.2 = 0 then 0 else 1
        ret := some 1
        sent := [ATA_OP_CHECKPOWERMODE1] }

/-- Example: a drive that aborts both power-mode commands: the ATA status is
`0x51` (`ERR` set) and the byte `desc[5]` is `0xff`. -/
def drive_aborts : Nat → SgReply := fun _ => ⟨false, 0x51, 0xff⟩

/-- Example: a drive on which every `ioctl` fails. -/
def drive_no_ioctl : Nat → SgReply := fun _ => ⟨true, 0, 0⟩

/-- Example: a world like `world_example` in which every drive aborts both
power-mode commands. -/
def world_probe_fails : World :=
  { world_example with
    get_hdd_status := fun _ _ => (get_hdd_status true drive_aborts 0).result }

/-! ## The curve lines of the configuration -/

/-- Conversion of an `int` to `unsigned char`: the low eight bits. -/
def int_to_uchar (v : Int) : Nat := (v % 256).toNat

/-- The loop `while (value != NULL && ++j <= MAX_STEP)` of `read_fan_conf` (lines
268-274) over the tokens that `strtok` still yields, given by the numbers that
`atoi` makes of them, entered with the current `j` and curve array `data`; the
result is the final `j` and array.  The `++j` is evaluated, and `j` incremented,
also when it ends the loop.  The result is `none` when the temperature of a point is
the last token, as then `atoi` is called with `NULL`. -/
def read_temp_pwm_loop : List Int → Nat → List s_temp_pwm → Option (Nat × List s_temp_pwm)
  | [], j, data => some (j, data)
  | [_], j, data => if j + 1 ≤ MAX_STEP then none else some (j + 1, data)
  | v :: p :: rest, j, data =>
    if j + 1 ≤ MAX_STEP then
      read_temp_pwm_loop rest (j + 1) (data.set j ⟨to_short v, int_to_uchar p⟩)
    else some (j + 1, data)

/-- The branch of `read_fan_conf` for a line `temp_pwm_sys=...` or
`temp_pwm_hdd=...` (lines 266-276) on the fan `f = fan[i]` and the curve array
`data = data_pwm[t][i]`. -/
def read_temp_pwm (t : Kind) (tokens : List Int) (f : s_fan) (data : List s_temp_pwm) :
    Option (s_fan × List s_temp_pwm) :=
  match read_temp_pwm_loop tokens 0 data with
  | none => none
  | some (j, data1) => some ({ f with count_step := f.count_step.set t j }, data1)

/-- The tokens of a line that lists the pairs `ps` of a temperature and a duty. -/
def pair_tokens : List (Int × Int) → List Int
  | [] => []
  | (a, b) :: ps => a :: b :: pair_tokens ps

/-- Example: the tokens of a line with the eleven pairs
`0,0,10,10,...,100,100`. -/
def tokens_eleven : List Int :=
  [0, 0, 10, 10, 20, 20, 30, 30, 40, 40, 50, 50, 60, 60, 70, 70, 80, 80, 90, 90, 100, 100]

/-! ## Counting the sources -/

/-- Whether the string `s` starts with the string `p`. -/
def starts_with : List Char → List Char → Bool
  | _, [] => true
  | [], _ :: _ => false
  | c :: s, d :: p => c == d && starts_with s p

/-- Whether `strstr(haystack, needle)` is not `NULL`: `needle` occurs in
`haystack` at some position. -/
def strstr : List Char → List Char → Bool
  | [], needle => needle.isEmpty
  | c :: hs, needle => starts_with (c :: hs) needle || strstr hs needle

/-- The body of the loop over the names of a `sys_input` or `scan_hdd` line in
`read_mem_conf` (lines 172-187) for the name `value`, on the pair of `total[t]`
and `count_total[t]`. -/
def read_mem_value (s : List Char × Nat) (value : String) : List Char × Nat :=
  let value_w_comma := value.toList ++ [',']
  if s.2 = 0 then (value_w_comma, s.2 + 1)
  else if strstr s.1 value_w_comma = false then (s.1 ++ value_w_comma, s.2 + 1)
  else s

/-- The value of `count_total[t]` after `read_mem_conf`, where `values` are the
names of kind `t` that the configuration lists for all fans, in order. -/
def read_mem_conf_count (values : List String) : Nat :=
  (values.foldl read_mem_value ([], 0)).2

/-- Example: a world in which only `/dev/sda` is a block device, a running drive
at 40 degrees. -/
def world_one_drive : World where
  stat_blk := fun _ name => name == "/dev/sda"
  get_hdd_status := fun _ _ => 1
  get_hdd_temp := fun _ _ => 40
  get_sys_temp := fun _ _ => 45

/-- Example: two fans, the first with `scan_hdd=/dev/sda` and the second with
`scan_hdd=sda`, before the first cycle. -/
def globals_two_names : Globals where
  fan := [fan_drive, { fan_drive with name := "fan2", pwm_write := "pwm2" }]
  data_pwm := ⟨[[], []], [[⟨30, 100⟩], [⟨30, 100⟩]]⟩
  scan_sys := [[], []]
  scan_hdd := [["/dev/sda"], ["sda"]]
  first_check := 1
  now := 0
  next_check := 0

/-! ## Lemmas on `calc_pwm` -/

/-- What the loop of `calc_pwm` returns when entered with `j < count_step`. -/
theorem calc_pwm_loop_spec (data : List s_temp_pwm) (n : Nat) (temp : Int) :
    ∀ (k j pwm : Nat), n - j = k → j < n →
      j ≤ (calc_pwm_loop data n temp j pwm).1 ∧
      (calc_pwm_loop data n temp j pwm).1 ≤ n ∧
      (∀ i, j ≤ i → i < (calc_pwm_loop data n temp j pwm).1 →
        (data.getD i default).temp ≤ temp) ∧
      ((calc_pwm_loop data n temp j pwm).1 < n →
        temp < (data.getD (calc_pwm_loop data n temp j pwm).1 default).temp) ∧
      (calc_pwm_loop data n temp j pwm).2 =
        if (calc_pwm_loop data n temp j pwm).1 = j then pwm
        else (data.getD ((calc_pwm_loop data n temp j pwm).1 - 1) default).pwm := by
  intro k
  induction k with
  | zero => intro j pwm h1 h2; omega
  | succ k ih =>
    intro j pwm hk hj
    rw [calc_pwm_loop]
    by_cases hc : temp ≥ (data.getD j default).temp
    · by_cases hb : j + 1 ≥ n
      · have hn : n = j + 1 := by omega
        simp only [hc, hb, if_true]
        refine ⟨by omega, by omega, ?_, by omega, ?_⟩
        · intro i h1 h2
          have : i = j := by omega
          subst this; exact hc
        · simp
      · simp only [hc, hb, if_true, if_false]
        have ih2 := ih (j + 1) (data.getD j default).pwm (by omega) (by omega)
        obtain ⟨a1, a2, a3, a4, a5⟩ := ih2
        refine ⟨by omega, a2, ?_, a4, ?_⟩
        · intro i h1 h2
          by_cases hij : i = j
          · subst hij; exact hc
          · exact a3 i (by omega) h2
        · rw [a5]
          by_cases he : (calc_pwm_loop data n temp (j + 1) (data.getD j default).pwm).1 = j + 1
          · rw [if_pos he, if_neg (by omega), he]; rfl
          · rw [if_neg he, if_neg (by omega)]
    · simp only [hc, if_false]
      refine ⟨le_refl _, by omega, ?_, ?_, by simp⟩
      · intro i h1 h2; omega
      · intro _; exact lt_of_not_ge hc

theorem to_uchar_floor (q : ℚ) (h0 : 0 ≤ q) (h1 : q < 256) :
    ((to_uchar q : Nat) : Int) = ⌊q⌋ := by
  unfold to_uchar
  rw [if_pos h0]
  have hf0 : 0 ≤ ⌊q⌋ := Int.floor_nonneg.mpr h0
  have hf1 : ⌊q⌋ < 256 := by
    apply Int.floor_lt.mpr
    exact_mod_cast h1
  rw [Int.emod_eq_of_lt hf0 hf1, Int.toNat_of_nonneg hf0]

/-! ## Lemmas on the floating-point rounding -/

/-- The two possible results of `round_even` and when each is taken. -/
theorem round_even_cases (q : ℚ) :
    (round_even q = ⌊q⌋ ∧ q - ⌊q⌋ ≤ 1 / 2 ∧ (q - ⌊q⌋ = 1 / 2 → ⌊q⌋ % 2 = 0)) ∨
      (round_even q = ⌊q⌋ + 1 ∧ 1 / 2 ≤ q - ⌊q⌋ ∧ (q - ⌊q⌋ = 1 / 2 → ⌊q⌋ % 2 ≠ 0)) := by
  unfold round_even
  split_ifs with h1 h2 h3
  · exact Or.inl ⟨rfl, h1.le, fun h => by linarith⟩
  · exact Or.inr ⟨rfl, h2.le, fun h => by linarith⟩
  · exact Or.inl ⟨rfl, by linarith, fun _ => h3⟩
  · exact Or.inr ⟨rfl, by linarith, fun _ => h3⟩

/-- Rounding to an integer moves a number by at most one half. -/
theorem round_even_err (q : ℚ) : |(round_even q : ℚ) - q| ≤ 1 / 2 := by
  have h0 := Int.floor_le q
  have h1 := Int.lt_floor_add_one q
  rw [abs_le]
  rcases round_even_cases q with ⟨e, h, _⟩ | ⟨e, h, _⟩ <;> rw [e] <;> push_cast <;>
    constructor <;> linarith

/-- Rounding to an integer is monotone. -/
theorem round_even_mono (q1 q2 : ℚ) (h : q1 ≤ q2) : round_even q1 ≤ round_even q2 := by
  have hf : ⌊q1⌋ ≤ ⌊q2⌋ := Int.floor_mono h
  rcases round_even_cases q1 with ⟨e1, a1, b1⟩ | ⟨e1, a1, b1⟩ <;>
    rcases round_even_cases q2 with ⟨e2, a2, b2⟩ | ⟨e2, a2, b2⟩ <;> rw [e1, e2]
  · exact hf
  · omega
  · rcases lt_or_eq_of_le hf with hlt | heq
    · omega
    · exfalso
      rw [heq] at a1 b1
      have h3 : q2 - ⌊q2⌋ = 1 / 2 := by linarith
      have h4 : q1 - ⌊q2⌋ = 1 / 2 := by linarith
      exact b1 h4 (b2 h3)
  · omega

/-- An integer is not changed by the rounding to an integer. -/
theorem round_even_int (n : Int) : round_even (n : ℚ) = n := by
  unfold round_even
  rw [Int.floor_intCast]
  simp

/-- Powers of two are positive. -/
theorem two_zpow_pos (e : Int) : (0 : ℚ) < 2 ^ e := zpow_pos (by norm_num) e

/-- Zero is not changed by the rounding. -/
theorem fl_zero (p : Nat) (emin : Int) : fl p emin 0 = 0 := by
  unfold fl
  simp [round_even]

/-- The rounding of a non-negative number. -/
theorem fl_nonneg_eq (p : Nat) (emin : Int) (x : ℚ) (h : 0 ≤ x) :
    fl p emin x = (round_even (x / 2 ^ (max (Int.log 2 x) emin - ((p : Int) - 1))) : ℚ) *
      2 ^ (max (Int.log 2 x) emin - ((p : Int) - 1)) := by
  unfold fl
  rw [if_pos h, abs_of_nonneg h, one_mul]

/-- The rounding is symmetric about zero. -/
theorem fl_neg (p : Nat) (emin : Int) (x : ℚ) : fl p emin (-x) = -fl p emin x := by
  rcases lt_trichotomy x 0 with h | h | h
  · unfold fl
    rw [if_pos (by linarith), if_neg (by linarith), abs_neg]
    ring
  · subst h
    simp [fl_zero]
  · unfold fl
    rw [if_neg (by linarith), if_pos (by linarith), abs_neg]
    ring

/-- The rounding error is at most half a unit in the last place. -/
theorem fl_err (p : Nat) (emin : Int) (x : ℚ) :
    |fl p emin x - x| ≤ 2 ^ (max (Int.log 2 |x|) emin - ((p : Int) - 1)) / 2 := by
  have key : ∀ y : ℚ, 0 ≤ y →
      |fl p emin y - y| ≤ 2 ^ (max (Int.log 2 |y|) emin - ((p : Int) - 1)) / 2 := by
    intro y hy
    rw [fl_nonneg_eq p emin y hy, abs_of_nonneg hy]
    generalize max (Int.log 2 y) emin - ((p : Int) - 1) = e
    have hq := two_zpow_pos e
    have h1 := round_even_err (y / 2 ^ e)
    have h2 : (round_even (y / 2 ^ e) : ℚ) * 2 ^ e - y =
        ((round_even (y / 2 ^ e) : ℚ) - y / 2 ^ e) * 2 ^ e := by
      field_simp
    rw [h2, abs_mul, abs_of_pos hq]
    calc |(round_even (y / 2 ^ e) : ℚ) - y / 2 ^ e| * 2 ^ e ≤ 1 / 2 * 2 ^ e :=
          mul_le_mul_of_nonneg_right h1 hq.le
      _ = 2 ^ e / 2 := by ring
  rcases le_or_lt 0 x with h | h
  · exact key x h
  · have := key (-x) (by linarith)
    rw [fl_neg, abs_neg] at this
    have e : -fl p emin x - -x = -(fl p emin x - x) := by ring
    rw [e, abs_neg] at this
    exact this

/-- The binade of a number between two consecutive powers of two. -/
theorem log_eq_of (x : ℚ) (k : Int) (h1 : 2 ^ k ≤ x) (h2 : x < 2 ^ (k + 1)) :
    Int.log 2 x = k := by
  have hx : 0 < x := lt_of_lt_of_le (two_zpow_pos k) h1
  have a : k ≤ Int.log 2 x :=
    (Int.zpow_le_iff_le_log (by norm_num) hx).mp (by exact_mod_cast h1)
  have b : Int.log 2 x < k + 1 :=
    (Int.lt_zpow_iff_log_lt (by norm_num) hx).mp (by exact_mod_cast h2)
  omega

/-- The binade of a positive number below `2 ^ k`. -/
theorem log_lt_of (x : ℚ) (k : Int) (hx : 0 < x) (h2 : x < 2 ^ k) : Int.log 2 x < k :=
  (Int.lt_zpow_iff_log_lt (by norm_num) hx).mp (by exact_mod_cast h2)

/-- The binade of a number that is at least `2 ^ k`. -/
theorem le_log_of (x : ℚ) (k : Int) (h1 : 2 ^ k ≤ x) : k ≤ Int.log 2 x :=
  (Int.zpow_le_iff_le_log (by norm_num) (lt_of_lt_of_le (two_zpow_pos k) h1)).mp
    (by exact_mod_cast h1)

/-- A positive number is at least the power of two of its binade. -/
theorem two_zpow_log_le (x : ℚ) (hx : 0 < x) : (2 : ℚ) ^ Int.log 2 x ≤ x := by
  have := Int.zpow_log_le_self (b := 2) (by norm_num) hx
  exact_mod_cast this

/-- Powers of two grow with the exponent. -/
theorem two_zpow_mono (a b : Int) (h : a ≤ b) : (2 : ℚ) ^ a ≤ 2 ^ b :=
  zpow_le_zpow_right₀ (by norm_num) h

/-- The relative rounding error in the normal range. -/
theorem fl_rel_err (p : Nat) (emin : Int) (x : ℚ) (h : 2 ^ emin ≤ |x|) :
    |fl p emin x - x| ≤ |x| / 2 ^ p := by
  have hx : 0 < |x| := lt_of_lt_of_le (two_zpow_pos emin) h
  have h1 := fl_err p emin x
  have hl : emin ≤ Int.log 2 |x| := le_log_of _ _ h
  rw [max_eq_left hl] at h1
  have h2 := two_zpow_log_le |x| hx
  have e : (2 : ℚ) ^ (Int.log 2 |x| - ((p : Int) - 1)) / 2 = 2 ^ Int.log 2 |x| / 2 ^ p := by
    rw [zpow_sub₀ (by norm_num), zpow_sub₀ (by norm_num), zpow_natCast, zpow_one]
    field_simp
    ring
  rw [e] at h1
  have hp : (0 : ℚ) < 2 ^ p := pow_pos (by norm_num) p
  exact le_trans h1 (div_le_div_of_nonneg_right h2 hp.le)

/-- The absolute rounding error of a value below `2 ^ k`. -/
theorem fl_abs_err (p : Nat) (emin k : Int) (x : ℚ) (h : |x| < 2 ^ k) (hk : emin < k) :
    |fl p emin x - x| ≤ 2 ^ (k - 1 - (p : Int)) := by
  rcases eq_or_ne x 0 with h0 | h0
  · subst h0
    rw [fl_zero]
    simp only [sub_zero, abs_zero]
    exact (two_zpow_pos _).le
  · have hx : 0 < |x| := abs_pos.mpr h0
    have h1 := fl_err p emin x
    have hl : Int.log 2 |x| < k := log_lt_of _ _ hx h
    have hm : max (Int.log 2 |x|) emin ≤ k - 1 := by
      apply max_le <;> omega
    have e : (2 : ℚ) ^ (max (Int.log 2 |x|) emin - ((p : Int) - 1)) / 2 =
        2 ^ (max (Int.log 2 |x|) emin - (p : Int)) := by
      rw [zpow_sub₀ (by norm_num), zpow_sub₀ (by norm_num), zpow_sub₀ (by norm_num), zpow_one]
      field_simp
      ring
    rw [e] at h1
    exact le_trans h1 (two_zpow_mono _ _ (by omega))

/-- A number with a significand of at most `p` bits is not changed. -/
theorem fl_repr (p : Nat) (emin : Int) (n e : Int) (hn : |(n : ℚ)| < 2 ^ p)
    (he : emin - ((p : Int) - 1) ≤ e) :
    fl p emin ((n : ℚ) * 2 ^ e) = (n : ℚ) * 2 ^ e := by
  have key : ∀ m : Int, 0 ≤ m → (m : ℚ) < 2 ^ p →
      fl p emin ((m : ℚ) * 2 ^ e) = (m : ℚ) * 2 ^ e := by
    intro m hm0 hm
    rcases eq_or_lt_of_le hm0 with h0 | hpos
    · rw [← h0]
      simp [fl_zero]
    have hmq : (0 : ℚ) < m := by exact_mod_cast hpos
    have hx : (0 : ℚ) < (m : ℚ) * 2 ^ e := mul_pos hmq (two_zpow_pos e)
    rw [fl_nonneg_eq p emin _ hx.le]
    have hlt : (m : ℚ) * 2 ^ e < 2 ^ ((p : Int) + e) := by
      rw [zpow_add₀ (by norm_num), zpow_natCast]
      exact mul_lt_mul_of_pos_right hm (two_zpow_pos e)
    have hl := log_lt_of _ _ hx hlt
    have hE : max (Int.log 2 ((m : ℚ) * 2 ^ e)) emin - ((p : Int) - 1) ≤ e := by
      have : max (Int.log 2 ((m : ℚ) * 2 ^ e)) emin ≤ e + ((p : Int) - 1) := by
        apply max_le <;> omega
      omega
    generalize max (Int.log 2 ((m : ℚ) * 2 ^ e)) emin - ((p : Int) - 1) = e' at hE
    obtain ⟨d, hd⟩ : ∃ d : Nat, e = e' + d := ⟨(e - e').toNat, by omega⟩
    have hdiv : (m : ℚ) * 2 ^ e / 2 ^ e' = ((m * 2 ^ d : Int) : ℚ) := by
      rw [hd, zpow_add₀ (by norm_num), zpow_natCast]
      have := (two_zpow_pos e').ne'
      push_cast
      field_simp
      ring
    rw [hdiv, round_even_int, hd, zpow_add₀ (by norm_num), zpow_natCast]
    push_cast
    ring
  rcases le_or_lt 0 n with h | h
  · apply key n h
    rwa [abs_of_nonneg (by exact_mod_cast h)] at hn
  · have hneg : ((-n : Int) : ℚ) < 2 ^ p := by
      have : |(n : ℚ)| = -(n : ℚ) := abs_of_neg (by exact_mod_cast h)
      rw [this] at hn
      push_cast
      exact hn
    have := key (-n) (by omega) hneg
    have e1 : ((-n : Int) : ℚ) * 2 ^ e = -((n : ℚ) * 2 ^ e) := by push_cast; ring
    rw [e1, fl_neg] at this
    linarith

/-- An integer below `2 ^ p` in absolute value is not changed. -/
theorem fl_int (p : Nat) (emin : Int) (n : Int) (hn : |(n : ℚ)| < 2 ^ p)
    (he : emin ≤ (p : Int) - 1) : fl p emin (n : ℚ) = n := by
  have := fl_repr p emin n 0 hn (by omega)
  simpa using this

/-- The rounding of a non-negative number is not negative. -/
theorem fl_nonneg (p : Nat) (emin : Int) (x : ℚ) (h : 0 ≤ x) : 0 ≤ fl p emin x := by
  rw [fl_nonneg_eq p emin x h]
  apply mul_nonneg _ (two_zpow_pos _).le
  have := round_even_mono 0 _ (div_nonneg h (two_zpow_pos
    (max (Int.log 2 x) emin - ((p : Int) - 1))).le)
  have h0 : round_even 0 = 0 := by simpa using round_even_int 0
  rw [h0] at this
  exact_mod_cast this

/-- Rounding is monotone on the non-negative numbers. -/
theorem fl_mono (p : Nat) (emin : Int) (x y : ℚ) (hp : 1 ≤ p) (hx : 0 ≤ x) (hxy : x ≤ y) :
    fl p emin x ≤ fl p emin y := by
  rcases eq_or_lt_of_le hx with h0 | hpos
  · rw [← h0, fl_zero]
    exact fl_nonneg p emin y (le_trans hx hxy)
  have hy : 0 < y := lt_of_lt_of_le hpos hxy
  have hlog : Int.log 2 x ≤ Int.log 2 y := Int.log_mono_right hpos hxy
  rw [fl_nonneg_eq p emin x hx, fl_nonneg_eq p emin y hy.le]
  have hE : max (Int.log 2 x) emin ≤ max (Int.log 2 y) emin := max_le_max hlog (le_refl _)
  rcases eq_or_lt_of_le hE with heq | hlt
  · rw [heq]
    apply mul_le_mul_of_nonneg_right _ (two_zpow_pos _).le
    have := round_even_mono _ _ (div_le_div_of_nonneg_right hxy
      (two_zpow_pos (max (Int.log 2 y) emin - ((p : Int) - 1))).le)
    exact_mod_cast this
  · -- the binade of `y` is higher: a power of two lies between the two results
    have hEy : max (Int.log 2 y) emin = Int.log 2 y := by
      apply max_eq_left
      by_contra hc
      have : max (Int.log 2 y) emin = emin := max_eq_right (by omega)
      have h2 : emin ≤ max (Int.log 2 x) emin := le_max_right _ _
      omega
    rw [hEy] at hlt ⊢
    generalize hEx : max (Int.log 2 x) emin = Ex at hlt
    have hxlt : x < 2 ^ (Ex + 1) := by
      have h1 : x < 2 ^ (Int.log 2 x + 1) := by
        have := Int.lt_zpow_succ_log_self (b := 2) (by norm_num) x
        exact_mod_cast this
      have h2 : Int.log 2 x + 1 ≤ Ex + 1 := by
        have := le_max_left (Int.log 2 x) emin
        omega
      exact lt_of_lt_of_le h1 (two_zpow_mono _ _ h2)
    -- the result for `x` is at most `2 ^ (Ex + 1)`
    have hux : (round_even (x / 2 ^ (Ex - ((p : Int) - 1))) : ℚ) * 2 ^ (Ex - ((p : Int) - 1)) ≤
        2 ^ (Ex + 1) := by
      have hq := two_zpow_pos (Ex - ((p : Int) - 1))
      have hdiv : x / 2 ^ (Ex - ((p : Int) - 1)) ≤ (((2 : Int) ^ p : Int) : ℚ) := by
        rw [div_le_iff₀ hq]
        push_cast
        rw [← zpow_natCast, ← zpow_add₀ (by norm_num)]
        have : (p : Int) + (Ex - ((p : Int) - 1)) = Ex + 1 := by ring
        rw [this]
        exact hxlt.le
      have := round_even_mono _ _ hdiv
      rw [round_even_int] at this
      have h3 : (round_even (x / 2 ^ (Ex - ((p : Int) - 1))) : ℚ) ≤ (((2 : Int) ^ p : Int) : ℚ) := by
        exact_mod_cast this
      calc (round_even (x / 2 ^ (Ex - ((p : Int) - 1))) : ℚ) * 2 ^ (Ex - ((p : Int) - 1))
          ≤ (((2 : Int) ^ p : Int) : ℚ) * 2 ^ (Ex - ((p : Int) - 1)) :=
            mul_le_mul_of_nonneg_right h3 hq.le
        _ = 2 ^ (Ex + 1) := by
            push_cast
            rw [← zpow_natCast, ← zpow_add₀ (by norm_num)]
            congr 1
            ring
    -- the result for `y` is at least `2 ^ log y`
    have hly : (2 : ℚ) ^ Int.log 2 y ≤
        (round_even (y / 2 ^ (Int.log 2 y - ((p : Int) - 1))) : ℚ) *
          2 ^ (Int.log 2 y - ((p : Int) - 1)) := by
      have hq := two_zpow_pos (Int.log 2 y - ((p : Int) - 1))
      have hp1 : 0 < p := hp
      have hdiv : (((2 : Int) ^ (p - 1) : Int) : ℚ) ≤ y / 2 ^ (Int.log 2 y - ((p : Int) - 1)) := by
        rw [le_div_iff₀ hq]
        push_cast
        rw [← zpow_natCast, ← zpow_add₀ (by norm_num)]
        have : ((p - 1 : Nat) : Int) + (Int.log 2 y - ((p : Int) - 1)) = Int.log 2 y := by
          have : ((p - 1 : Nat) : Int) = (p : Int) - 1 := by omega
          rw [this]; ring
        rw [this]
        exact two_zpow_log_le y hy
      have := round_even_mono _ _ hdiv
      rw [round_even_int] at this
      have h3 : (((2 : Int) ^ (p - 1) : Int) : ℚ) ≤
          (round_even (y / 2 ^ (Int.log 2 y - ((p : Int) - 1))) : ℚ) := by
        exact_mod_cast this
      calc (2 : ℚ) ^ Int.log 2 y
          = (((2 : Int) ^ (p - 1) : Int) : ℚ) * 2 ^ (Int.log 2 y - ((p : Int) - 1)) := by
            push_cast
            rw [← zpow_natCast, ← zpow_add₀ (by norm_num)]
            congr 1
            have : ((p - 1 : Nat) : Int) = (p : Int) - 1 := by omega
            rw [this]; ring
        _ ≤ _ := mul_le_mul_of_nonneg_right h3 hq.le
    calc _ ≤ (2 : ℚ) ^ (Ex + 1) := hux
      _ ≤ 2 ^ Int.log 2 y := two_zpow_mono _ _ (by omega)
      _ ≤ _ := hly

/-- The rounding to an integer of a number less than one half away from `n`. -/
theorem round_even_eq (y : ℚ) (n : Int) (h1 : (n : ℚ) - 1 / 2 < y) (h2 : y < (n : ℚ) + 1 / 2) :
    round_even y = n := by
  have a := round_even_err y
  rw [abs_le] at a
  have b1 : ((round_even y : Int) : ℚ) < ((n + 1 : Int) : ℚ) := by push_cast; linarith [a.2]
  have b2 : ((n - 1 : Int) : ℚ) < ((round_even y : Int) : ℚ) := by push_cast; linarith [a.1]
  have c1 : round_even y < n + 1 := by exact_mod_cast b1
  have c2 : n - 1 < round_even y := by exact_mod_cast b2
  omega

/-- Rounding of a positive number in the binade `[2 ^ k, 2 ^ (k + 1))` that is not
half way between two neighbours. -/
theorem fl_eval (p : Nat) (emin : Int) (x : ℚ) (k n : Int) (h1 : 2 ^ k ≤ x)
    (h2 : x < 2 ^ (k + 1)) (hk : emin ≤ k)
    (hlo : (n : ℚ) - 1 / 2 < x / 2 ^ (k - ((p : Int) - 1)))
    (hhi : x / 2 ^ (k - ((p : Int) - 1)) < (n : ℚ) + 1 / 2) :
    fl p emin x = (n : ℚ) * 2 ^ (k - ((p : Int) - 1)) := by
  have hx : 0 < x := lt_of_lt_of_le (two_zpow_pos k) h1
  rw [fl_nonneg_eq p emin x hx.le, log_eq_of x k h1 h2, max_eq_left hk,
    round_even_eq _ n hlo hhi]

/-- A number `n * 2 ^ e` with `|n| < 2 ^ 24` is a `float`. -/
theorem to_float_repr (x : ℚ) (n e : Int) (hx : x = (n : ℚ) * 2 ^ e)
    (hn : |(n : ℚ)| < 16777216) (he : -149 ≤ e) : to_float x = x := by
  rw [hx]
  exact fl_repr 24 (-126) n e (by norm_num; exact hn) (by norm_num; exact he)

/-- A number `n * 2 ^ e` with `|n| < 2 ^ 53` is a `double`. -/
theorem to_double_repr (x : ℚ) (n e : Int) (hx : x = (n : ℚ) * 2 ^ e)
    (hn : |(n : ℚ)| < 9007199254740992) (he : -1074 ≤ e) : to_double x = x := by
  rw [hx]
  exact fl_repr 53 (-1022) n e (by norm_num; exact hn) (by norm_num; exact he)

/-- An integer below `2 ^ 24` in absolute value is a `float`. -/
theorem to_float_int (n : Int) (h : |(n : ℚ)| < 16777216) : to_float (n : ℚ) = n :=
  fl_int 24 (-126) n (by norm_num; exact h) (by norm_num)

/-- A duty is a `float`. -/
theorem to_float_nat (n : Nat) (h : n < 256) : to_float (n : ℚ) = n := by
  have h1 : |(((n : Int)) : ℚ)| < 16777216 := by
    rw [abs_of_nonneg (by positivity)]
    have : (n : ℚ) < 256 := by exact_mod_cast h
    push_cast
    linarith
  have := to_float_int (n : Int) h1
  simpa using this

/-- The absolute error of the rounding to `float` of a value below `2 ^ k`. -/
theorem to_float_abs_err (k : Int) (x : ℚ) (h : |x| < 2 ^ k) (hk : -126 < k) :
    |to_float x - x| ≤ 2 ^ (k - 25) := by
  have := fl_abs_err 24 (-126) k x h hk
  have e : k - 1 - ((24 : Nat) : Int) = k - 25 := by norm_num; ring
  rw [e] at this
  exact this

/-- The absolute error of the rounding to `double` of a value below `2 ^ k`. -/
theorem to_double_abs_err (k : Int) (x : ℚ) (h : |x| < 2 ^ k) (hk : -1022 < k) :
    |to_double x - x| ≤ 2 ^ (k - 54) := by
  have := fl_abs_err 53 (-1022) k x h hk
  have e : k - 1 - ((53 : Nat) : Int) = k - 54 := by norm_num; ring
  rw [e] at this
  exact this

/-- The relative error of the rounding to `float` of zero or of a value of at
least `1 / 65535` in absolute value. -/
theorem to_float_rel_err (x : ℚ) (h : x = 0 ∨ 1 / 65535 ≤ |x|) :
    |to_float x - x| ≤ |x| / 16777216 := by
  rcases h with h | h
  · subst h
    unfold to_float
    rw [fl_zero]
    simp
  · have h2 : (2 : ℚ) ^ (-126 : Int) ≤ |x| := by
      have : (2 : ℚ) ^ (-126 : Int) ≤ 2 ^ (-16 : Int) := two_zpow_mono _ _ (by norm_num)
      have e : (2 : ℚ) ^ (-16 : Int) = 1 / 65536 := by norm_num [zpow_neg]
      rw [e] at this
      have h3 : (1 : ℚ) / 65536 ≤ 1 / 65535 := by norm_num
      exact le_trans (le_trans this h3) h
    have := fl_rel_err 24 (-126) x h2
    norm_num at this
    unfold to_float
    exact this

/-- The error of the floating-point evaluation of the line through `(0, p0)` and
`(dt, p1)` at `x`, for duties below 256 and `0 ≤ x < dt ≤ 65535`. -/
theorem line_err (p0 p1 : Nat) (dt x : Int) (hp0 : p0 < 256) (hp1 : p1 < 256)
    (hdt : dt ≤ 65535) (hx0 : 0 ≤ x) (hx : x < dt) :
    |to_double
        (to_float
            (to_float
                (to_float
                    (to_float (to_float (p1 : ℚ) - to_float (p0 : ℚ)) / to_float (dt : ℚ)) *
                  to_float (x : ℚ)) +
              to_float (p0 : ℚ)) +
          1 / 2) -
      ((p0 : ℚ) + (x : ℚ) * ((p1 : ℚ) - (p0 : ℚ)) / (dt : ℚ) + 1 / 2)| ≤ 1 / 16384 := by
  have b0 : (p0 : ℚ) < 256 := by exact_mod_cast hp0
  have b1 : (p1 : ℚ) < 256 := by exact_mod_cast hp1
  have n0 : (0 : ℚ) ≤ p0 := Nat.cast_nonneg p0
  have n1 : (0 : ℚ) ≤ p1 := Nat.cast_nonneg p1
  have c0 : (p0 : ℚ) ≤ 255 := by
    have : p0 ≤ 255 := by omega
    exact_mod_cast this
  have c1 : (p1 : ℚ) ≤ 255 := by
    have : p1 ≤ 255 := by omega
    exact_mod_cast this
  have hdtq : (dt : ℚ) ≤ 65535 := by exact_mod_cast hdt
  have hxq0 : (0 : ℚ) ≤ x := by exact_mod_cast hx0
  have hxq : (x : ℚ) < dt := by exact_mod_cast hx
  have hdt1 : (1 : ℚ) ≤ dt := by
    have : 1 ≤ dt := by omega
    exact_mod_cast this
  have hdtpos : (0 : ℚ) < dt := by linarith
  rw [to_float_nat p0 hp0, to_float_nat p1 hp1]
  have edp : to_float ((p1 : ℚ) - (p0 : ℚ)) = (p1 : ℚ) - (p0 : ℚ) := by
    have e : (p1 : ℚ) - (p0 : ℚ) = (((p1 : Int) - (p0 : Int) : Int) : ℚ) := by push_cast; rfl
    rw [e]
    apply to_float_int
    rw [← e, abs_lt]
    constructor <;> linarith
  have edt : to_float (dt : ℚ) = dt := by
    apply to_float_int
    rw [abs_of_pos hdtpos]
    linarith
  have ex : to_float (x : ℚ) = x := by
    apply to_float_int
    rw [abs_of_nonneg hxq0]
    linarith
  rw [edp, edt, ex]
  -- the quotient
  have hDalt : ((p1 : ℚ) - (p0 : ℚ)) / (dt : ℚ) = 0 ∨
      1 / 65535 ≤ |((p1 : ℚ) - (p0 : ℚ)) / (dt : ℚ)| := by
    rcases Nat.lt_trichotomy p0 p1 with h | h | h
    · right
      have : (p0 : ℚ) + 1 ≤ p1 := by exact_mod_cast h
      rw [abs_of_nonneg (div_nonneg (by linarith) hdtpos.le), div_le_div_iff₀ (by norm_num) hdtpos]
      nlinarith
    · left
      rw [h]
      simp
    · right
      have : (p1 : ℚ) + 1 ≤ p0 := by exact_mod_cast h
      rw [abs_of_nonpos (div_nonpos_of_nonpos_of_nonneg (by linarith) hdtpos.le), ← neg_div,
        div_le_div_iff₀ (by norm_num) hdtpos]
      nlinarith
  have hq := to_float_rel_err _ hDalt
  generalize hD : ((p1 : ℚ) - (p0 : ℚ)) / (dt : ℚ) = D at hq
  generalize to_float D = q at hq
  have hc : (x : ℚ) * ((p1 : ℚ) - (p0 : ℚ)) / (dt : ℚ) = D * x := by
    rw [← hD]
    field_simp
    ring
  rw [hc]
  have hDx : |D * x| ≤ 255 := by
    rw [← hD, div_mul_eq_mul_div, abs_le]
    constructor
    · rw [le_div_iff₀ hdtpos]
      nlinarith
    · rw [div_le_iff₀ hdtpos]
      nlinarith
  have hqx : |q * x - D * x| ≤ 255 / 16777216 := by
    have e : q * x - D * x = (q - D) * x := by ring
    rw [e, abs_mul, abs_of_nonneg hxq0]
    have h1 : |q - D| * x ≤ |D| / 16777216 * x := mul_le_mul_of_nonneg_right hq hxq0
    have h2 : |D| / 16777216 * x = |D * x| / 16777216 := by
      rw [abs_mul, abs_of_nonneg hxq0]
      ring
    rw [h2] at h1
    linarith
  -- the product
  have hqxb : |q * x| < 2 ^ (8 : Int) := by
    norm_num
    rw [abs_le] at hqx hDx
    rw [abs_lt]
    constructor <;> linarith [hqx.1, hqx.2, hDx.1, hDx.2]
  have hm := to_float_abs_err 8 (q * x) hqxb (by norm_num)
  norm_num at hm
  generalize to_float (q * x) = m at hm
  -- the sum
  have hmb : |m + p0| < 2 ^ (9 : Int) := by
    norm_num
    rw [abs_le] at hqx hDx hm
    rw [abs_lt]
    constructor <;> linarith [hqx.1, hqx.2, hDx.1, hDx.2, hm.1, hm.2]
  have hs := to_float_abs_err 9 (m + p0) hmb (by norm_num)
  norm_num at hs
  generalize to_float (m + p0) = s at hs
  -- the addition of 0.5 in `double`
  have hsb : |s + 1 / 2| < 2 ^ (10 : Int) := by
    norm_num
    rw [abs_le] at hqx hDx hm hs
    rw [abs_lt]
    constructor <;> linarith [hqx.1, hqx.2, hDx.1, hDx.2, hm.1, hm.2, hs.1, hs.2]
  have hr := to_double_abs_err 10 (s + 1 / 2) hsb (by norm_num)
  norm_num at hr
  generalize to_double (s + 1 / 2) = r at hr
  rw [abs_le] at hqx hm hs hr ⊢
  constructor <;> linarith [hqx.1, hqx.2, hm.1, hm.2, hs.1, hs.2, hr.1, hr.2]

/-- Rounding to `float` of a positive number in the binade `[2 ^ k, 2 ^ (k + 1))`
that is not half way between two neighbours. -/
theorem to_float_eval (x : ℚ) (k n : Int) (h1 : 2 ^ k ≤ x) (h2 : x < 2 ^ (k + 1))
    (hk : -126 ≤ k) (hlo : (n : ℚ) - 1 / 2 < x / 2 ^ (k - 23))
    (hhi : x / 2 ^ (k - 23) < (n : ℚ) + 1 / 2) : to_float x = (n : ℚ) * 2 ^ (k - 23) := by
  have e : k - (((24 : Nat) : Int) - 1) = k - 23 := by norm_num
  have := fl_eval 24 (-126) x k n h1 h2 hk (by rw [e]; exact hlo) (by rw [e]; exact hhi)
  rw [e] at this
  exact this

/-! ## Lemmas on the interpolation -/

/-- The interpolation fraction lies in `[0, 1)` when `data[j-1].temp ≤ temp < data[j].temp`. -/
theorem fraction_bounds (a b t : Int) (h1 : a ≤ t) (h2 : t < b) :
    (0 : ℚ) ≤ ((t - a : Int) : ℚ) / ((b - a : Int) : ℚ) ∧
      ((t - a : Int) : ℚ) / ((b - a : Int) : ℚ) < 1 := by
  have hd : (0 : ℚ) < ((b - a : Int) : ℚ) := by
    have : (0 : Int) < b - a := by omega
    exact_mod_cast this
  have hn : (0 : ℚ) ≤ ((t - a : Int) : ℚ) := by
    have : (0 : Int) ≤ t - a := by omega
    exact_mod_cast this
  have hlt : ((t - a : Int) : ℚ) < ((b - a : Int) : ℚ) := by
    have : t - a < b - a := by omega
    exact_mod_cast this
  exact ⟨div_nonneg hn hd.le, (div_lt_one hd).mpr hlt⟩

/-- The exact line through `(a, A)` and `(b, B)` stays between `A` and `B` on
`[a, b)`. -/
theorem line_bounds (A B : ℚ) (a b t : Int) (h1 : a ≤ t) (h2 : t < b) :
    min A B ≤ A + ((t - a : Int) : ℚ) * (B - A) / ((b - a : Int) : ℚ) ∧
      A + ((t - a : Int) : ℚ) * (B - A) / ((b - a : Int) : ℚ) ≤ max A B := by
  obtain ⟨f0, f1⟩ := fraction_bounds a b t h1 h2
  have e : A + ((t - a : Int) : ℚ) * (B - A) / ((b - a : Int) : ℚ) =
      A + (B - A) * (((t - a : Int) : ℚ) / ((b - a : Int) : ℚ)) := by ring
  rw [e]
  generalize ((t - a : Int) : ℚ) / ((b - a : Int) : ℚ) = lam at f0 f1
  constructor
  · rcases le_total A B with h | h
    · rw [min_eq_left h]; nlinarith
    · rw [min_eq_right h]; nlinarith
  · rcases le_total A B with h | h
    · rw [max_eq_right h]; nlinarith
    · rw [max_eq_left h]; nlinarith

/-- The value that `calc_pwm` interpolates is within `2 ^ (-14)` of the exact line
value plus one half, for duties below 256 and thresholds at most 65535 apart. -/
theorem interpolation_err (data : List s_temp_pwm) (j : Nat) (temp : Int)
    (hu0 : (data.getD (j - 1) default).pwm < 256) (hu1 : (data.getD j default).pwm < 256)
    (hdt : (data.getD j default).temp - (data.getD (j - 1) default).temp ≤ 65535)
    (h1 : (data.getD (j - 1) default).temp ≤ temp)
    (h2 : temp < (data.getD j default).temp) :
    |interpolation data j temp -
        (((data.getD (j - 1) default).pwm : ℚ) +
          ((temp - (data.getD (j - 1) default).temp : Int) : ℚ) *
            (((data.getD j default).pwm : ℚ) - ((data.getD (j - 1) default).pwm : ℚ)) /
            (((data.getD j default).temp - (data.getD (j - 1) default).temp : Int) : ℚ) +
          1 / 2)| ≤ 1 / 16384 := by
  unfold interpolation
  exact line_err (data.getD (j - 1) default).pwm (data.getD j default).pwm
    ((data.getD j default).temp - (data.getD (j - 1) default).temp)
    (temp - (data.getD (j - 1) default).temp) hu0 hu1 hdt (by omega) (by omega)

/-- Between two points of which the second has the higher duty (or the same), the
value that `calc_pwm` interpolates grows with the temperature: every rounding is
monotone. -/
theorem interpolation_mono (data : List s_temp_pwm) (j : Nat) (t1 t2 : Int)
    (hP : (data.getD (j - 1) default).pwm ≤ (data.getD j default).pwm)
    (h1 : (data.getD (j - 1) default).temp ≤ t1) (h12 : t1 ≤ t2)
    (h2 : t2 < (data.getD j default).temp) :
    interpolation data j t1 ≤ interpolation data j t2 := by
  unfold interpolation to_float to_double
  have hPq : ((data.getD (j - 1) default).pwm : ℚ) ≤ ((data.getD j default).pwm : ℚ) := by
    exact_mod_cast hP
  have n0 : (0 : ℚ) ≤ ((data.getD (j - 1) default).pwm : ℚ) := Nat.cast_nonneg _
  have hp0 := fl_nonneg 24 (-126) _ n0
  have hn : 0 ≤ fl 24 (-126) ((data.getD j default).pwm : ℚ) -
      fl 24 (-126) ((data.getD (j - 1) default).pwm : ℚ) :=
    sub_nonneg.mpr (fl_mono 24 (-126) _ _ (by norm_num) n0 hPq)
  have hN := fl_nonneg 24 (-126) _ hn
  have hdt : (0 : ℚ) ≤
      (((data.getD j default).temp - (data.getD (j - 1) default).temp : Int) : ℚ) := by
    have : (0 : Int) ≤ (data.getD j default).temp - (data.getD (j - 1) default).temp := by
      omega
    exact_mod_cast this
  have hD := fl_nonneg 24 (-126) _ hdt
  have hQ := fl_nonneg 24 (-126) _ (div_nonneg hN hD)
  have hx1 : (0 : ℚ) ≤ ((t1 - (data.getD (j - 1) default).temp : Int) : ℚ) := by
    have : (0 : Int) ≤ t1 - (data.getD (j - 1) default).temp := by omega
    exact_mod_cast this
  have hx12 : ((t1 - (data.getD (j - 1) default).temp : Int) : ℚ) ≤
      ((t2 - (data.getD (j - 1) default).temp : Int) : ℚ) := by
    have : t1 - (data.getD (j - 1) default).temp ≤ t2 - (data.getD (j - 1) default).temp := by
      omega
    exact_mod_cast this
  have hX1 := fl_nonneg 24 (-126) _ hx1
  have hX := fl_mono 24 (-126) _ _ (by norm_num) hx1 hx12
  have hM := fl_mono 24 (-126) _ _ (by norm_num) (mul_nonneg hQ hX1)
    (mul_le_mul_of_nonneg_left hX hQ)
  have hM1 := fl_nonneg 24 (-126) _ (mul_nonneg hQ hX1)
  have hS := fl_mono 24 (-126) _ _ (by norm_num) (add_nonneg hM1 hp0)
    (add_le_add_right hM _)
  have hS1 := fl_nonneg 24 (-126) _ (add_nonneg hM1 hp0)
  exact fl_mono 53 (-1022) _ _ (by norm_num) (add_nonneg hS1 (by norm_num))
    (add_le_add_right hS _)

/-- The example of the specification: every intermediate value is a `float`, and
the value before the conversion is exactly 203. -/
theorem interpolation_example :
    interpolation [⟨30, 50⟩, ⟨50, 150⟩, ⟨70, 255⟩] 2 60 = 203 := by
  show to_double (to_float (to_float (to_float (to_float (to_float ((255 : Nat) : ℚ) -
    to_float ((150 : Nat) : ℚ)) / to_float (((70 - 50 : Int)) : ℚ)) *
    to_float (((60 - 50 : Int)) : ℚ)) + to_float ((150 : Nat) : ℚ)) + 1 / 2) = 203
  rw [to_float_nat 255 (by norm_num), to_float_nat 150 (by norm_num),
    to_float_repr (((255 : Nat) : ℚ) - ((150 : Nat) : ℚ)) 105 0 (by norm_num) (by norm_num)
      (by norm_num),
    to_float_repr (((70 - 50 : Int)) : ℚ) 20 0 (by norm_num) (by norm_num) (by norm_num),
    to_float_repr (((60 - 50 : Int)) : ℚ) 10 0 (by norm_num) (by norm_num) (by norm_num),
    to_float_repr ((((255 : Nat) : ℚ) - ((150 : Nat) : ℚ)) / (((70 - 50 : Int)) : ℚ)) 21 (-2)
      (by norm_num) (by norm_num) (by norm_num),
    to_float_repr ((((255 : Nat) : ℚ) - ((150 : Nat) : ℚ)) / (((70 - 50 : Int)) : ℚ) *
      (((60 - 50 : Int)) : ℚ)) 105 (-1) (by norm_num) (by norm_num) (by norm_num),
    to_float_repr ((((255 : Nat) : ℚ) - ((150 : Nat) : ℚ)) / (((70 - 50 : Int)) : ℚ) *
      (((60 - 50 : Int)) : ℚ) + ((150 : Nat) : ℚ)) 405 (-1) (by norm_num) (by norm_num)
      (by norm_num),
    to_double_repr _ 203 0 (by norm_num) (by norm_num) (by norm_num)]
  norm_num

/-- The value before the conversion for the points `[(-32768,7),(25427,240)]` at
the temperature 5321: the quotient `233 / 58195` is rounded to
`8598053 / 2 ^ 31`, its product with 38089 is rounded up to 152.5, and the result
is exactly 160. -/
theorem interpolation_rounded_up :
    interpolation [⟨-32768, 7⟩, ⟨25427, 240⟩] 1 5321 = 160 := by
  show to_double (to_float (to_float (to_float (to_float (to_float ((240 : Nat) : ℚ) -
    to_float ((7 : Nat) : ℚ)) / to_float (((25427 - (-32768) : Int)) : ℚ)) *
    to_float (((5321 - (-32768) : Int)) : ℚ)) + to_float ((7 : Nat) : ℚ)) + 1 / 2) = 160
  have e1 : ((240 : Nat) : ℚ) - ((7 : Nat) : ℚ) = 233 := by norm_num
  have e2 : (((25427 - (-32768) : Int)) : ℚ) = 58195 := by norm_num
  have e3 : (((5321 - (-32768) : Int)) : ℚ) = 38089 := by norm_num
  have e4 : ((7 : Nat) : ℚ) = 7 := by norm_num
  have a1 : to_float (233 : ℚ) = 233 :=
    to_float_repr _ 233 0 (by norm_num) (by norm_num) (by norm_num)
  have a2 : to_float (58195 : ℚ) = 58195 :=
    to_float_repr _ 58195 0 (by norm_num) (by norm_num) (by norm_num)
  have a3 : to_float (38089 : ℚ) = 38089 :=
    to_float_repr _ 38089 0 (by norm_num) (by norm_num) (by norm_num)
  have hq : to_float ((233 : ℚ) / 58195) = 8598053 / 2147483648 := by
    rw [to_float_eval _ (-8) 8598053 (by norm_num) (by norm_num) (by norm_num)
      (by norm_num) (by norm_num)]
    norm_num
  have hm : to_float ((8598053 : ℚ) / 2147483648 * 38089) = 305 / 2 := by
    rw [to_float_eval _ 7 9994240 (by norm_num) (by norm_num) (by norm_num)
      (by norm_num) (by norm_num)]
    norm_num
  have hs : to_float ((305 : ℚ) / 2 + 7) = 319 / 2 := by
    rw [to_float_repr _ 319 (-1) (by norm_num) (by norm_num) (by norm_num)]
    norm_num
  have hr : to_double ((319 : ℚ) / 2 + 1 / 2) = 160 := by
    rw [to_double_repr _ 160 0 (by norm_num) (by norm_num) (by norm_num)]
    norm_num
  rw [to_float_nat 240 (by norm_num), to_float_nat 7 (by norm_num), e1, e2, e3, e4, a1, a2,
    a3, hq, hm, hs, hr]

/-- The value before the conversion for the points `[(0,0),(14,31)]` at the
temperature 7, where the exact line value is 15.5: the quotient `31 / 14` is
rounded down, and the result is below 16. -/
theorem interpolation_rounded_down :
    interpolation [⟨0, 0⟩, ⟨14, 31⟩] 1 7 = 16777215 / 1048576 := by
  show to_double (to_float (to_float (to_float (to_float (to_float ((31 : Nat) : ℚ) -
    to_float ((0 : Nat) : ℚ)) / to_float (((14 - 0 : Int)) : ℚ)) *
    to_float (((7 - 0 : Int)) : ℚ)) + to_float ((0 : Nat) : ℚ)) + 1 / 2) =
    16777215 / 1048576
  have e1 : ((31 : Nat) : ℚ) - ((0 : Nat) : ℚ) = 31 := by norm_num
  have e2 : (((14 - 0 : Int)) : ℚ) = 14 := by norm_num
  have e3 : (((7 - 0 : Int)) : ℚ) = 7 := by norm_num
  have e4 : ((0 : Nat) : ℚ) = 0 := by norm_num
  have a1 : to_float (31 : ℚ) = 31 :=
    to_float_repr _ 31 0 (by norm_num) (by norm_num) (by norm_num)
  have a2 : to_float (14 : ℚ) = 14 :=
    to_float_repr _ 14 0 (by norm_num) (by norm_num) (by norm_num)
  have a3 : to_float (7 : ℚ) = 7 :=
    to_float_repr _ 7 0 (by norm_num) (by norm_num) (by norm_num)
  have hq : to_float ((31 : ℚ) / 14) = 9287387 / 4194304 := by
    rw [to_float_eval _ 1 9287387 (by norm_num) (by norm_num) (by norm_num)
      (by norm_num) (by norm_num)]
    norm_num
  have hm : to_float ((9287387 : ℚ) / 4194304 * 7) = 16252927 / 1048576 := by
    rw [to_float_eval _ 3 16252927 (by norm_num) (by norm_num) (by norm_num)
      (by norm_num) (by norm_num)]
    norm_num
  have hs : to_float ((16252927 : ℚ) / 1048576 + 0) = 16252927 / 1048576 := by
    rw [to_float_repr _ 16252927 (-20) (by norm_num) (by norm_num) (by norm_num)]
    norm_num
  have hr : to_double ((16252927 : ℚ) / 1048576 + 1 / 2) = 16777215 / 1048576 := by
    rw [to_double_repr _ 16777215 (-20) (by norm_num) (by norm_num) (by norm_num)]
    norm_num
  rw [to_float_nat 31 (by norm_num), to_float_nat 0 (by norm_num), e1, e2, e3, e4, a1, a2,
    a3, hq, hm, hs, hr]

/-- Index form of a pairwise relation on the first `n` entries of an array. -/
theorem take_pairwise_getD {R : s_temp_pwm → s_temp_pwm → Prop} (data : List s_temp_pwm)
    (n : Nat) (hn : n ≤ data.length) (h : (data.take n).Pairwise R) (i k : Nat)
    (hik : i < k) (hk : k < n) : R (data.getD i default) (data.getD k default) := by
  have hl : (data.take n).length = n := by simp [hn]
  have hi' : i < (data.take n).length := by omega
  have hk' : k < (data.take n).length := by omega
  have := (List.pairwise_iff_getElem.mp h) i k hi' hk' hik
  rw [List.getElem_take, List.getElem_take] at this
  rw [List.getD_eq_getElem data default (by omega), List.getD_eq_getElem data default (by omega)]
  exact this

theorem take_forall_getD {P : s_temp_pwm → Prop} (data : List s_temp_pwm)
    (n : Nat) (hn : n ≤ data.length) (h : ∀ p ∈ data.take n, P p) (i : Nat)
    (hi : i < n) : P (data.getD i default) := by
  rw [List.getD_eq_getElem data default (by omega)]
  apply h
  rw [List.mem_take_iff_getElem]
  exact ⟨i, by simp [hi]; omega, rfl⟩

/-- What the loop of `calc_pwm` returns when started as in `calc_pwm`. -/
theorem calc_pwm_index (data : List s_temp_pwm) (n : Nat) (temp : Int) (hn : 1 ≤ n) :
    (calc_pwm_loop data n temp 0 0).1 ≤ n ∧
      (∀ i, i < (calc_pwm_loop data n temp 0 0).1 → (data.getD i default).temp ≤ temp) ∧
      ((calc_pwm_loop data n temp 0 0).1 < n →
        temp < (data.getD (calc_pwm_loop data n temp 0 0).1 default).temp) ∧
      (calc_pwm_loop data n temp 0 0).2 =
        if (calc_pwm_loop data n temp 0 0).1 = 0 then 0
        else (data.getD ((calc_pwm_loop data n temp 0 0).1 - 1) default).pwm := by
  obtain ⟨_, a2, a3, a4, a5⟩ := calc_pwm_loop_spec data n temp n 0 0 (by omega) (by omega)
  exact ⟨a2, fun i hi => a3 i (Nat.zero_le i) hi, a4, a5⟩

/-- With ascending thresholds the loop stops right after the last point whose
threshold is at most `temp`. -/
theorem calc_pwm_index_eq (data : List s_temp_pwm) (n : Nat) (temp : Int)
    (hs : ∀ i k, i < k → k < n → (data.getD i default).temp ≤ (data.getD k default).temp)
    (k : Nat) (hk : k < n) (h1 : (data.getD k default).temp ≤ temp)
    (h2 : k + 1 < n → temp < (data.getD (k + 1) default).temp) :
    (calc_pwm_loop data n temp 0 0).1 = k + 1 := by
  obtain ⟨a2, a3, a4, _⟩ := calc_pwm_index data n temp (by omega)
  rcases Nat.lt_trichotomy (calc_pwm_loop data n temp 0 0).1 (k + 1) with h | h | h
  · exfalso
    have h4 := a4 (by omega)
    rcases Nat.lt_or_ge (calc_pwm_loop data n temp 0 0).1 k with h5 | h5
    · have := hs _ k h5 hk
      omega
    · have : (calc_pwm_loop data n temp 0 0).1 = k := by omega
      rw [this] at h4
      omega
  · exact h
  · exfalso
    have := a3 (k + 1) h
    have := h2 (by omega)
    omega

/-- With ascending thresholds the stopping index of the loop grows with `temp`. -/
theorem calc_pwm_index_mono (data : List s_temp_pwm) (n : Nat) (t1 t2 : Int) (hn : 1 ≤ n)
    (ht : t1 ≤ t2) :
    (calc_pwm_loop data n t1 0 0).1 ≤ (calc_pwm_loop data n t2 0 0).1 := by
  obtain ⟨_, a3, _, _⟩ := calc_pwm_index data n t1 hn
  obtain ⟨b2, _, b4, _⟩ := calc_pwm_index data n t2 hn
  by_contra hlt
  have hlt : (calc_pwm_loop data n t2 0 0).1 < (calc_pwm_loop data n t1 0 0).1 := by omega
  have := a3 _ hlt
  obtain ⟨c2, _, _, _⟩ := calc_pwm_index data n t1 hn
  have := b4 (by omega)
  omega

/-- The value of `calc_pwm` in terms of the stopping index of its loop. -/
theorem calc_pwm_eq (data : List s_temp_pwm) (n : Nat) (interpolate temp : Int)
    (hn : 1 ≤ n) :
    calc_pwm data n interpolate temp =
      if interpolate = 1 ∧ (calc_pwm_loop data n temp 0 0).1 > 0 ∧
          (calc_pwm_loop data n temp 0 0).1 < n then
        to_uchar (interpolation data (calc_pwm_loop data n temp 0 0).1 temp)
      else if (calc_pwm_loop data n temp 0 0).1 = 0 then 0
      else (data.getD ((calc_pwm_loop data n temp 0 0).1 - 1) default).pwm := by
  obtain ⟨_, _, _, a5⟩ := calc_pwm_index data n temp hn
  unfold calc_pwm
  simp only []
  rw [a5]

/-- The interpolated result between the points `j - 1` and `j`, for duties below
256 and thresholds that are `short`s: it is the integer part of the value computed
in floating point, which is within `2 ^ (-14)` of the exact line value plus one
half, and it lies between the two duties. -/
theorem interp_bounds (data : List s_temp_pwm) (j : Nat) (temp : Int)
    (hu0 : (data.getD (j - 1) default).pwm < 256) (hu1 : (data.getD j default).pwm < 256)
    (hs0 : -32768 ≤ (data.getD (j - 1) default).temp)
    (hs1 : (data.getD j default).temp ≤ 32767)
    (h1 : (data.getD (j - 1) default).temp ≤ temp)
    (h2 : temp < (data.getD j default).temp) :
    min (data.getD (j - 1) default).pwm (data.getD j default).pwm ≤
        to_uchar (interpolation data j temp) ∧
      to_uchar (interpolation data j temp) ≤
        max (data.getD (j - 1) default).pwm (data.getD j default).pwm ∧
      ((to_uchar (interpolation data j temp) : Nat) : Int) = ⌊interpolation data j temp⌋ ∧
      |interpolation data j temp -
        (((data.getD (j - 1) default).pwm : ℚ) +
          ((temp - (data.getD (j - 1) default).temp : Int) : ℚ) *
            (((data.getD j default).pwm : ℚ) - ((data.getD (j - 1) default).pwm : ℚ)) /
            (((data.getD j default).temp - (data.getD (j - 1) default).temp : Int) : ℚ) +
          1 / 2)| ≤ 1 / 16384 := by
  have herr := interpolation_err data j temp hu0 hu1 (by omega) h1 h2
  have hb := line_bounds ((data.getD (j - 1) default).pwm : ℚ) ((data.getD j default).pwm : ℚ)
    (data.getD (j - 1) default).temp (data.getD j default).temp temp h1 h2
  generalize interpolation data j temp = I at herr ⊢
  generalize ((data.getD (j - 1) default).pwm : ℚ) +
    ((temp - (data.getD (j - 1) default).temp : Int) : ℚ) *
      (((data.getD j default).pwm : ℚ) - ((data.getD (j - 1) default).pwm : ℚ)) /
      (((data.getD j default).temp - (data.getD (j - 1) default).temp : Int) : ℚ) = L
    at herr hb
  have hmin : ((min (data.getD (j - 1) default).pwm (data.getD j default).pwm : Nat) : ℚ) =
      min ((data.getD (j - 1) default).pwm : ℚ) ((data.getD j default).pwm : ℚ) :=
    Nat.cast_min _ _
  have hmax : ((max (data.getD (j - 1) default).pwm (data.getD j default).pwm : Nat) : ℚ) =
      max ((data.getD (j - 1) default).pwm : ℚ) ((data.getD j default).pwm : ℚ) :=
    Nat.cast_max _ _
  have hmaxlt : max (data.getD (j - 1) default).pwm (data.getD j default).pwm < 256 :=
    max_lt hu0 hu1
  have hmaxq : ((max (data.getD (j - 1) default).pwm (data.getD j default).pwm : Nat) : ℚ) ≤
      255 := by
    have : max (data.getD (j - 1) default).pwm (data.getD j default).pwm ≤ 255 := by omega
    exact_mod_cast this
  have hminq : (0 : ℚ) ≤
      ((min (data.getD (j - 1) default).pwm (data.getD j default).pwm : Nat) : ℚ) :=
    Nat.cast_nonneg _
  rw [← hmin, ← hmax] at hb
  generalize min (data.getD (j - 1) default).pwm (data.getD j default).pwm = lo at *
  generalize max (data.getD (j - 1) default).pwm (data.getD j default).pwm = hi at *
  rw [abs_le] at herr
  have hI0 : 0 ≤ I := by linarith [herr.1, hb.1]
  have hI1 : I < 256 := by linarith [herr.2, hb.2]
  have hfl := to_uchar_floor I hI0 hI1
  refine ⟨?_, ?_, hfl, abs_le.mpr herr⟩
  · have : ((lo : Nat) : Int) ≤ ⌊I⌋ := by
      apply Int.le_floor.mpr
      push_cast
      linarith [herr.1, hb.1]
    rw [← hfl] at this
    exact_mod_cast this
  · have : ⌊I⌋ < ((hi : Nat) : Int) + 1 := by
      apply Int.floor_lt.mpr
      push_cast
      linarith [herr.2, hb.2]
    rw [← hfl] at this
    have h3 : ((to_uchar I : Nat) : Int) ≤ hi := by omega
    exact_mod_cast h3

/-- In the interpolation branch the result lies between the two neighbouring
duties and is the integer part of the value computed in floating point. -/
theorem calc_pwm_interp_bounds (data : List s_temp_pwm) (n : Nat) (temp : Int)
    (hn : 1 ≤ n) (hu : ∀ i, i < n → (data.getD i default).pwm < 256)
    (hr : ∀ i, i < n → -32768 ≤ (data.getD i default).temp ∧
      (data.getD i default).temp ≤ 32767)
    (h0 : 0 < (calc_pwm_loop data n temp 0 0).1)
    (h1 : (calc_pwm_loop data n temp 0 0).1 < n) :
    min (data.getD ((calc_pwm_loop data n temp 0 0).1 - 1) default).pwm
        (data.getD (calc_pwm_loop data n temp 0 0).1 default).pwm ≤
      to_uchar (interpolation data (calc_pwm_loop data n temp 0 0).1 temp) ∧
    to_uchar (interpolation data (calc_pwm_loop data n temp 0 0).1 temp) ≤
      max (data.getD ((calc_pwm_loop data n temp 0 0).1 - 1) default).pwm
        (data.getD (calc_pwm_loop data n temp 0 0).1 default).pwm ∧
    ((to_uchar (interpolation data (calc_pwm_loop data n temp 0 0).1 temp) : Nat) : Int)
      = ⌊interpolation data (calc_pwm_loop data n temp 0 0).1 temp⌋ := by
  obtain ⟨_, a3, a4, _⟩ := calc_pwm_index data n temp hn
  have := interp_bounds data (calc_pwm_loop data n temp 0 0).1 temp (hu _ (by omega))
    (hu _ h1) (hr _ (by omega)).1 (hr _ h1).2 (a3 _ (by omega)) (a4 h1)
  exact ⟨this.1, this.2.1, this.2.2.1⟩

/-- Monotonicity of `calc_pwm` in index form. -/
theorem calc_pwm_mono_index (data : List s_temp_pwm) (n : Nat) (interpolate : Int)
    (t1 t2 : Int) (hn : 1 ≤ n)
    (hp : ∀ i k, i < k → k < n → (data.getD i default).pwm ≤ (data.getD k default).pwm)
    (hu : ∀ i, i < n → (data.getD i default).pwm < 256)
    (hr : ∀ i, i < n → -32768 ≤ (data.getD i default).temp ∧
      (data.getD i default).temp ≤ 32767) (ht : t1 ≤ t2) :
    calc_pwm data n interpolate t1 ≤ calc_pwm data n interpolate t2 := by
  have hp' : ∀ i k, i ≤ k → k < n →
      (data.getD i default).pwm ≤ (data.getD k default).pwm := by
    intro i k hik hk
    rcases Nat.lt_or_ge i k with h | h
    · exact hp i k h hk
    · have : i = k := by omega
      rw [this]
  have hj := calc_pwm_index_mono data n t1 t2 hn ht
  obtain ⟨a2, a3, a4, _⟩ := calc_pwm_index data n t1 hn
  obtain ⟨b2, b3, b4, _⟩ := calc_pwm_index data n t2 hn
  rw [calc_pwm_eq data n interpolate t1 hn, calc_pwm_eq data n interpolate t2 hn]
  generalize hJ1 : (calc_pwm_loop data n t1 0 0).1 = j1 at *
  generalize hJ2 : (calc_pwm_loop data n t2 0 0).1 = j2 at *
  -- an upper bound for the value at `t1` and a lower bound for the value at `t2`
  have up : j1 < j2 →
      (if interpolate = 1 ∧ j1 > 0 ∧ j1 < n then
        to_uchar (interpolation data j1 t1)
      else if j1 = 0 then 0 else (data.getD (j1 - 1) default).pwm) ≤
        (data.getD (j2 - 1) default).pwm := by
    intro hlt
    split_ifs with c1 c2
    · have hb := calc_pwm_interp_bounds data n t1 hn hu hr (by rw [hJ1]; exact c1.2.1)
        (by rw [hJ1]; exact c1.2.2)
      rw [hJ1] at hb
      have h1 := hp' (j1 - 1) j1 (by omega) c1.2.2
      rw [max_eq_right h1] at hb
      exact le_trans hb.2.1 (hp' j1 (j2 - 1) (by omega) (by omega))
    · exact Nat.zero_le _
    · exact hp' (j1 - 1) (j2 - 1) (by omega) (by omega)
  have lo : 0 < j2 →
      (data.getD (j2 - 1) default).pwm ≤
      (if interpolate = 1 ∧ j2 > 0 ∧ j2 < n then
        to_uchar (interpolation data j2 t2)
      else if j2 = 0 then 0 else (data.getD (j2 - 1) default).pwm) := by
    intro hpos
    split_ifs with c1 c2
    · have hb := calc_pwm_interp_bounds data n t2 hn hu hr (by rw [hJ2]; exact c1.2.1)
        (by rw [hJ2]; exact c1.2.2)
      rw [hJ2] at hb
      have h1 := hp' (j2 - 1) j2 (by omega) c1.2.2
      rw [min_eq_left h1] at hb
      exact hb.1
    · omega
    · exact le_refl _
  rcases Nat.lt_or_ge j1 j2 with hlt | hge
  · exact le_trans (up hlt) (lo (by omega))
  · have hEq : j1 = j2 := by omega
    subst hEq
    split_ifs with c1 c2
    · -- same segment: every rounding is monotone
      have hb1 := calc_pwm_interp_bounds data n t1 hn hu hr (by rw [hJ1]; exact c1.2.1)
        (by rw [hJ1]; exact c1.2.2)
      have hb2 := calc_pwm_interp_bounds data n t2 hn hu hr (by rw [hJ2]; exact c1.2.1)
        (by rw [hJ2]; exact c1.2.2)
      rw [hJ1] at hb1
      rw [hJ2] at hb2
      have hle : interpolation data j1 t1 ≤ interpolation data j1 t2 :=
        interpolation_mono data j1 t1 t2 (hp' (j1 - 1) j1 (by omega) c1.2.2)
          (a3 (j1 - 1) (by omega)) ht (b4 c1.2.2)
      have hfl : ⌊interpolation data j1 t1⌋ ≤ ⌊interpolation data j1 t2⌋ :=
        Int.floor_mono hle
      rw [← hb1.2.2, ← hb2.2.2] at hfl
      exact_mod_cast hfl
    · exact le_refl _
    · exact le_refl _

/-! ## Theorems on `calc_pwm` -/

/-- C5, as stated, fails: thresholds sorted ascending do not make `calc_pwm`
monotone.  For the points `[(30,100),(50,50)]` without interpolation the duty at 30
is 100 and the duty at 50 is 50. -/
theorem calc_pwm_mono_counterexample :
    ¬ (∀ (pts : List s_temp_pwm) (interpolate t1 t2 : Int),
        1 ≤ pts.length → pts.length ≤ MAX_STEP →
        pts.Pairwise (fun a b => a.temp ≤ b.temp) → t1 ≤ t2 →
        calc_pwm pts pts.length interpolate t1 ≤ calc_pwm pts pts.length interpolate t2) := by
  intro h
  have h1 := h [⟨30, 100⟩, ⟨50, 50⟩] 0 30 50 (by decide) (by decide) (by decide) (by decide)
  revert h1
  simp [calc_pwm, calc_pwm_loop]

/-- C5 (amended): for curve points sorted ascending by threshold whose duties
are non-decreasing along the list as well, `calc_pwm` is monotonically
non-decreasing in the temperature, for every value of the interpolation flag.  The
interpolated values are those of the `float` arithmetic of the source, with every
operation rounded; the duties are `unsigned char`s and the thresholds `short`s. -/
theorem calc_pwm_mono (data : List s_temp_pwm) (count_step : Nat) (interpolate : Int)
    (t1 t2 : Int) (h1 : 1 ≤ count_step) (h2 : count_step ≤ data.length)
    (_hT : (data.take count_step).Pairwise (fun a b => a.temp ≤ b.temp))
    (hP : (data.take count_step).Pairwise (fun a b => a.pwm ≤ b.pwm))
    (hU : ∀ p ∈ data.take count_step, p.pwm < 256)
    (hS : ∀ p ∈ data.take count_step, -32768 ≤ p.temp ∧ p.temp ≤ 32767) (ht : t1 ≤ t2) :
    calc_pwm data count_step interpolate t1 ≤ calc_pwm data count_step interpolate t2 :=
  calc_pwm_mono_index data count_step interpolate t1 t2 h1
    (fun i k hik hk => take_pairwise_getD data count_step h2 hP i k hik hk)
    (fun i hi => take_forall_getD data count_step h2 hU i hi)
    (fun i hi => take_forall_getD data count_step h2 hS i hi) ht

/-- C5 (amended), witness: the points `[(30,50),(50,150),(70,255)]` with
interpolation on, at the temperatures 49 and 60. -/
theorem calc_pwm_mono_witness :
    calc_pwm [⟨30, 50⟩, ⟨50, 150⟩, ⟨70, 255⟩] 3 1 49 ≤
      calc_pwm [⟨30, 50⟩, ⟨50, 150⟩, ⟨70, 255⟩] 3 1 60 :=
  calc_pwm_mono [⟨30, 50⟩, ⟨50, 150⟩, ⟨70, 255⟩] 3 1 49 60 (by decide) (by decide)
    (by decide) (by decide) (by decide) (by decide) (by decide)

/-- C6, as stated, fails: the duty at 60 is not 202. -/
theorem calc_pwm_example_counterexample :
    calc_pwm [⟨30, 50⟩, ⟨50, 150⟩, ⟨70, 255⟩] 3 1 60 ≠ 202 := by
  simp [calc_pwm, calc_pwm_loop, interpolation_example, to_uchar]

/-- C6 (amended): for the curve points `[(30,50),(50,150),(70,255)]` with
interpolation on, `calc_pwm` at temperature 60 returns 203: the line value is
202.5 and adding 0.5 before the truncation rounds halves up. -/
theorem calc_pwm_example :
    calc_pwm [⟨30, 50⟩, ⟨50, 150⟩, ⟨70, 255⟩] 3 1 60 = 203 := by
  simp [calc_pwm, calc_pwm_loop, interpolation_example, to_uchar]

/-- C7, as stated, fails: the result is not always within one half of the exact
line value.  For the points `[(-32768,7),(25427,240)]` at the temperature 5321 the
exact line value is `9282102 / 58195`, a little below 159.5, and `calc_pwm` returns
160: the product of the rounded quotient and `temp - data[k].temp` is rounded up to
152.5.  For the points `[(0,0),(14,31)]` at the temperature 7 the exact line value
is 15.5 and `calc_pwm` returns 15, not the 16 that truncating the exact value plus
one half gives. -/
theorem calc_pwm_on_line_counterexample :
    ¬ (∀ (pts : List s_temp_pwm) (temp : Int) (k : Nat),
        pts.Pairwise (fun a b => a.temp < b.temp) →
        (∀ p ∈ pts, p.pwm < 256 ∧ -32768 ≤ p.temp ∧ p.temp ≤ 32767) →
        k + 1 < pts.length →
        (pts.getD k default).temp ≤ temp → temp < (pts.getD (k + 1) default).temp →
        |((calc_pwm pts pts.length 1 temp : Nat) : ℚ) -
          (((pts.getD k default).pwm : ℚ) +
            ((temp : ℚ) - ((pts.getD k default).temp : ℚ)) *
              (((pts.getD (k + 1) default).pwm : ℚ) - ((pts.getD k default).pwm : ℚ)) /
              (((pts.getD (k + 1) default).temp : ℚ) - ((pts.getD k default).temp : ℚ)))| ≤
          1 / 2) ∧
      calc_pwm [⟨-32768, 7⟩, ⟨25427, 240⟩] 2 1 5321 = 160 ∧
      (7 : ℚ) + ((5321 : ℚ) - (-32768)) * (240 - 7) / (25427 - (-32768)) = 9282102 / 58195 ∧
      calc_pwm [⟨0, 0⟩, ⟨14, 31⟩] 2 1 7 = 15 ∧
      ⌊(0 : ℚ) + ((7 : ℚ) - 0) * (31 - 0) / (14 - 0) + 1 / 2⌋ = 16 := by
  have e : calc_pwm [⟨-32768, 7⟩, ⟨25427, 240⟩] 2 1 5321 = 160 := by
    simp [calc_pwm, calc_pwm_loop, interpolation_rounded_up, to_uchar]
  refine ⟨?_, e, by norm_num, ?_, ?_⟩
  · intro h
    have h1 := h [⟨-32768, 7⟩, ⟨25427, 240⟩] 5321 0 (by decide) (by decide) (by decide)
      (by decide) (by decide)
    have e' : calc_pwm [⟨-32768, 7⟩, ⟨25427, 240⟩]
        ([⟨-32768, 7⟩, ⟨25427, 240⟩] : List s_temp_pwm).length 1 5321 = 160 := e
    rw [e'] at h1
    revert h1
    simp
    norm_num
    rw [abs_of_pos (by norm_num)]
    norm_num
  · simp [calc_pwm, calc_pwm_loop, interpolation_rounded_down, to_uchar]
    norm_num
    rfl
  · norm_num

/-- C7 (amended): with interpolation on, for points with strictly ascending
thresholds (`short`s) and duties below 256, and a temperature `temp` with
`data[k].temp ≤ temp < data[k+1].temp`, let `v` be the exact line value
`data[k].pwm + (temp - data[k].temp) * (data[k+1].pwm - data[k].pwm) /
(data[k+1].temp - data[k].temp)`.  The result of `calc_pwm`, computed in `float`
arithmetic, lies between the integer parts of `v + 1/2 - 2^(-14)` and of
`v + 1/2 + 2^(-14)`: it is `v` rounded to the nearest integer, unless `v` is
within `2^(-14)` of a half, where it can be either neighbour.  It differs from `v`
by at most `1/2 + 2^(-14)` and lies between the two endpoint duties. -/
theorem calc_pwm_on_line (data : List s_temp_pwm) (count_step : Nat) (temp : Int)
    (k : Nat) (h2 : count_step ≤ data.length)
    (hT : (data.take count_step).Pairwise (fun a b => a.temp < b.temp))
    (hU : ∀ p ∈ data.take count_step, p.pwm < 256)
    (hS : ∀ p ∈ data.take count_step, -32768 ≤ p.temp ∧ p.temp ≤ 32767)
    (hk : k + 1 < count_step)
    (hlo : (data.getD k default).temp ≤ temp)
    (hhi : temp < (data.getD (k + 1) default).temp) :
    ⌊((data.getD k default).pwm : ℚ) +
          ((temp : ℚ) - ((data.getD k default).temp : ℚ)) *
            (((data.getD (k + 1) default).pwm : ℚ) - ((data.getD k default).pwm : ℚ)) /
            (((data.getD (k + 1) default).temp : ℚ) - ((data.getD k default).temp : ℚ)) +
          1 / 2 - 1 / 16384⌋ ≤ ((calc_pwm data count_step 1 temp : Nat) : Int) ∧
      ((calc_pwm data count_step 1 temp : Nat) : Int) ≤
        ⌊((data.getD k default).pwm : ℚ) +
          ((temp : ℚ) - ((data.getD k default).temp : ℚ)) *
            (((data.getD (k + 1) default).pwm : ℚ) - ((data.getD k default).pwm : ℚ)) /
            (((data.getD (k + 1) default).temp : ℚ) - ((data.getD k default).temp : ℚ)) +
          1 / 2 + 1 / 16384⌋ ∧
      |((calc_pwm data count_step 1 temp : Nat) : ℚ) -
          (((data.getD k default).pwm : ℚ) +
            ((temp : ℚ) - ((data.getD k default).temp : ℚ)) *
              (((data.getD (k + 1) default).pwm : ℚ) - ((data.getD k default).pwm : ℚ)) /
              (((data.getD (k + 1) default).temp : ℚ) - ((data.getD k default).temp : ℚ)))| ≤
        1 / 2 + 1 / 16384 ∧
      min (data.getD k default).pwm (data.getD (k + 1) default).pwm ≤
        calc_pwm data count_step 1 temp ∧
      calc_pwm data count_step 1 temp ≤
        max (data.getD k default).pwm (data.getD (k + 1) default).pwm := by
  have hn : 1 ≤ count_step := by omega
  have hs : ∀ i j, i < j → j < count_step →
      (data.getD i default).temp ≤ (data.getD j default).temp := fun i j hij hj =>
    le_of_lt (take_pairwise_getD data count_step h2 hT i j hij hj)
  have hu : ∀ i, i < count_step → (data.getD i default).pwm < 256 := fun i hi =>
    take_forall_getD data count_step h2 hU i hi
  have hr : ∀ i, i < count_step → -32768 ≤ (data.getD i default).temp ∧
      (data.getD i default).temp ≤ 32767 := fun i hi =>
    take_forall_getD data count_step h2 hS i hi
  have hJ := calc_pwm_index_eq data count_step temp hs k (by omega) hlo (fun _ => hhi)
  have hv : calc_pwm data count_step 1 temp = to_uchar (interpolation data (k + 1) temp) := by
    rw [calc_pwm_eq data count_step 1 temp hn, hJ, if_pos ⟨rfl, by omega, hk⟩]
  have hb := interp_bounds data (k + 1) temp (by simpa using hu k (by omega)) (hu (k + 1) hk)
    (by simpa using (hr k (by omega)).1) (hr (k + 1) hk).2 (by simpa using hlo) hhi
  simp only [Nat.add_sub_cancel] at hb
  have hline : ((data.getD k default).pwm : ℚ) +
        ((temp - (data.getD k default).temp : Int) : ℚ) *
          (((data.getD (k + 1) default).pwm : ℚ) - ((data.getD k default).pwm : ℚ)) /
          (((data.getD (k + 1) default).temp - (data.getD k default).temp : Int) : ℚ) =
      ((data.getD k default).pwm : ℚ) +
          ((temp : ℚ) - ((data.getD k default).temp : ℚ)) *
            (((data.getD (k + 1) default).pwm : ℚ) - ((data.getD k default).pwm : ℚ)) /
            (((data.getD (k + 1) default).temp : ℚ) - ((data.getD k default).temp : ℚ)) := by
    push_cast
    ring
  rw [hline] at hb
  rw [hv]
  obtain ⟨b1, b2, b3, b4⟩ := hb
  generalize interpolation data (k + 1) temp = I at b1 b2 b3 b4 ⊢
  generalize ((data.getD k default).pwm : ℚ) +
    ((temp : ℚ) - ((data.getD k default).temp : ℚ)) *
      (((data.getD (k + 1) default).pwm : ℚ) - ((data.getD k default).pwm : ℚ)) /
      (((data.getD (k + 1) default).temp : ℚ) - ((data.getD k default).temp : ℚ)) = L
    at b4 ⊢
  rw [abs_le] at b4
  have h4 := Int.floor_le I
  have h5 := Int.lt_floor_add_one I
  have h6 : (((to_uchar I : Nat) : Int) : ℚ) = ((to_uchar I : Nat) : ℚ) := by
    push_cast; rfl
  refine ⟨?_, ?_, ?_, b1, b2⟩
  · rw [b3]
    exact Int.floor_mono (by linarith [b4.1])
  · rw [b3]
    exact Int.floor_mono (by linarith [b4.2])
  · rw [← b3] at h4 h5
    rw [h6] at h4 h5
    rw [abs_le]
    constructor <;> linarith [b4.1, b4.2]

/-- C7 (amended), witness: the points `[(30,50),(50,150),(70,255)]` at
temperature 57, between the second and the third point, where the exact line value
is 186.75: the result is 187. -/
theorem calc_pwm_on_line_witness :
    ((calc_pwm [⟨30, 50⟩, ⟨50, 150⟩, ⟨70, 255⟩] 3 1 57 : Nat) : Int) = 187 := by
  obtain ⟨h1, h2, _⟩ := calc_pwm_on_line [⟨30, 50⟩, ⟨50, 150⟩, ⟨70, 255⟩] 3 57 1 (by decide)
    (by decide) (by decide) (by decide) (by decide) (by decide) (by decide)
  have e1 : ⌊(((([⟨30, 50⟩, ⟨50, 150⟩, ⟨70, 255⟩] : List s_temp_pwm).getD 1 default).pwm : Nat) : ℚ) +
      (((57 : Int) : ℚ) -
        ((([⟨30, 50⟩, ⟨50, 150⟩, ⟨70, 255⟩] : List s_temp_pwm).getD 1 default).temp : ℚ)) *
      ((((([⟨30, 50⟩, ⟨50, 150⟩, ⟨70, 255⟩] : List s_temp_pwm).getD (1 + 1) default).pwm : Nat) : ℚ) -
        (((([⟨30, 50⟩, ⟨50, 150⟩, ⟨70, 255⟩] : List s_temp_pwm).getD 1 default).pwm : Nat) : ℚ)) /
      (((([⟨30, 50⟩, ⟨50, 150⟩, ⟨70, 255⟩] : List s_temp_pwm).getD (1 + 1) default).temp : ℚ) -
        ((([⟨30, 50⟩, ⟨50, 150⟩, ⟨70, 255⟩] : List s_temp_pwm).getD 1 default).temp : ℚ)) +
      1 / 2 - 1 / 16384⌋ = 187 := by
    rw [Int.floor_eq_iff]
    simp
    norm_num
  have e2 : ⌊(((([⟨30, 50⟩, ⟨50, 150⟩, ⟨70, 255⟩] : List s_temp_pwm).getD 1 default).pwm : Nat) : ℚ) +
      (((57 : Int) : ℚ) -
        ((([⟨30, 50⟩, ⟨50, 150⟩, ⟨70, 255⟩] : List s_temp_pwm).getD 1 default).temp : ℚ)) *
      ((((([⟨30, 50⟩, ⟨50, 150⟩, ⟨70, 255⟩] : List s_temp_pwm).getD (1 + 1) default).pwm : Nat) : ℚ) -
        (((([⟨30, 50⟩, ⟨50, 150⟩, ⟨70, 255⟩] : List s_temp_pwm).getD 1 default).pwm : Nat) : ℚ)) /
      (((([⟨30, 50⟩, ⟨50, 150⟩, ⟨70, 255⟩] : List s_temp_pwm).getD (1 + 1) default).temp : ℚ) -
        ((([⟨30, 50⟩, ⟨50, 150⟩, ⟨70, 255⟩] : List s_temp_pwm).getD 1 default).temp : ℚ)) +
      1 / 2 + 1 / 16384⌋ = 187 := by
    rw [Int.floor_eq_iff]
    simp
    norm_num
  rw [e1] at h1
  rw [e2] at h2
  omega

/-- C8: for a non-empty list of curve points sorted ascending by threshold and any
value of the interpolation flag, `calc_pwm` returns 0 below the first threshold
and the last duty at or above the last threshold; with interpolation off it
returns the duty of the highest point whose threshold is at most the
temperature. -/
theorem calc_pwm_boundary (data : List s_temp_pwm) (count_step : Nat)
    (interpolate temp : Int) (h1 : 1 ≤ count_step) (h2 : count_step ≤ data.length)
    (hT : (data.take count_step).Pairwise (fun a b => a.temp ≤ b.temp)) :
    (temp < (data.getD 0 default).temp → calc_pwm data count_step interpolate temp = 0) ∧
      ((data.getD (count_step - 1) default).temp ≤ temp →
        calc_pwm data count_step interpolate temp =
          (data.getD (count_step - 1) default).pwm) ∧
      (interpolate ≠ 1 → ∀ k, k < count_step → (data.getD k default).temp ≤ temp →
        (∀ i, k < i → i < count_step → temp < (data.getD i default).temp) →
        calc_pwm data count_step interpolate temp = (data.getD k default).pwm) := by
  have hs : ∀ i j, i < j → j < count_step →
      (data.getD i default).temp ≤ (data.getD j default).temp := fun i j hij hj =>
    take_pairwise_getD data count_step h2 hT i j hij hj
  obtain ⟨_, a3, _, _⟩ := calc_pwm_index data count_step temp h1
  refine ⟨?_, ?_, ?_⟩
  · intro hlt
    have hJ : (calc_pwm_loop data count_step temp 0 0).1 = 0 := by
      by_contra hne
      have := a3 0 (by omega)
      omega
    rw [calc_pwm_eq data count_step interpolate temp h1, hJ]
    simp
  · intro hge
    have hJ := calc_pwm_index_eq data count_step temp hs (count_step - 1) (by omega) hge
      (fun h => by omega)
    rw [calc_pwm_eq data count_step interpolate temp h1, hJ]
    have e : count_step - 1 + 1 = count_step := by omega
    rw [e, if_neg (by omega), if_neg (by omega)]
  · intro hi k hk hle hnext
    have hJ := calc_pwm_index_eq data count_step temp hs k hk hle
      (fun h => hnext (k + 1) (by omega) h)
    rw [calc_pwm_eq data count_step interpolate temp h1, hJ, if_neg (fun h => hi h.1),
      if_neg (by omega)]
    rfl

/-- C8, witness: the points `[(30,50),(50,150),(70,255)]` below the first
threshold, at the last threshold, and at 60 without interpolation. -/
theorem calc_pwm_boundary_witness :
    calc_pwm [⟨30, 50⟩, ⟨50, 150⟩, ⟨70, 255⟩] 3 1 29 = 0 ∧
      calc_pwm [⟨30, 50⟩, ⟨50, 150⟩, ⟨70, 255⟩] 3 1 70 = 255 ∧
      calc_pwm [⟨30, 50⟩, ⟨50, 150⟩, ⟨70, 255⟩] 3 0 60 = 150 :=
  ⟨(calc_pwm_boundary [⟨30, 50⟩, ⟨50, 150⟩, ⟨70, 255⟩] 3 1 29 (by decide) (by decide)
      (by decide)).1 (by decide),
    (calc_pwm_boundary [⟨30, 50⟩, ⟨50, 150⟩, ⟨70, 255⟩] 3 1 70 (by decide) (by decide)
      (by decide)).2.1 (by decide),
    (calc_pwm_boundary [⟨30, 50⟩, ⟨50, 150⟩, ⟨70, 255⟩] 3 0 60 (by decide) (by decide)
      (by decide)).2.2 (by decide) 1 (by decide) (by decide)
      (fun i h1 h2 => by
        have h3 : i = 2 := by omega
        subst h3
        decide)⟩

/-! ## Lemmas on the commit decision -/

theorem Two.get_set_same {α : Type} (p : Two α) (t : Kind) (v : α) :
    (p.set t v).get t = v := by
  cases t <;> rfl

theorem Two.get_set_other {α : Type} (p : Two α) (t t' : Kind) (v : α) (h : t' ≠ t) :
    (p.set t v).get t' = p.get t' := by
  cases t <;> cases t' <;> first | rfl | exact absurd rfl h

/-- The combined duty is the maximum of the two duties. -/
theorem combined_pwm_eq_max (f : s_fan) :
    combined_pwm f = max (f.pwm.get Kind.SYS) (f.pwm.get Kind.HDD) := by
  unfold combined_pwm
  split_ifs with h
  · exact (max_eq_left (le_of_lt h)).symm
  · exact (max_eq_right (not_lt.mp h)).symm

/-- The branches of `commit` that end in a `continue`, and the branches that set the
speed. -/
theorem commit_cases (now first_check : Int) (f : s_fan) (log : List Event) :
    commit now first_check f log =
      if combined_pwm f = f.actual_pwm ∧ first_check ≠ 1 then (f, log)
      else if combined_pwm f < f.actual_pwm ∧ now < f.min_decr_time then (f, log)
      else if combined_pwm f < f.actual_pwm ∧ combined_pwm f = 0 ∧
          now < f.min_stop_time then
        if f.idle_pwm ≠ 0 ∧ f.idle_pwm ≠ f.actual_pwm then
          set_fan_speed now f f.idle_pwm log
        else (f, log)
      else set_fan_speed now f (combined_pwm f) log := by
  unfold commit
  simp only []
  split_ifs <;> first | rfl | (exfalso; tauto)

/-- The decrease delay in `commit`: when the combined duty `max(pwm[SYS], pwm[HDD])`
is lower than `actual_pwm`, then inside the decrease-delay window (`now < min_decr_time`)
nothing is committed: no write, and the fan is left as it is; at or after
`min_decr_time` a non-zero combined duty is written and becomes `actual_pwm`. -/
theorem commit_decrease_delay (now first_check : Int) (f : s_fan) (log : List Event)
    (hlt : max (f.pwm.get Kind.SYS) (f.pwm.get Kind.HDD) < f.actual_pwm) :
    (now < f.min_decr_time → commit now first_check f log = (f, log)) ∧
      (f.min_decr_time ≤ now → max (f.pwm.get Kind.SYS) (f.pwm.get Kind.HDD) ≠ 0 →
        (commit now first_check f log).2 =
            Event.write f.pwm_write (max (f.pwm.get Kind.SYS) (f.pwm.get Kind.HDD)) :: log ∧
          (commit now first_check f log).1.actual_pwm =
            max (f.pwm.get Kind.SYS) (f.pwm.get Kind.HDD)) := by
  rw [← combined_pwm_eq_max] at *
  have hne : ¬ (combined_pwm f = f.actual_pwm ∧ first_check ≠ 1) := fun h => by omega
  rw [commit_cases, if_neg hne]
  constructor
  · intro hw
    rw [if_pos ⟨hlt, hw⟩]
  · intro hw h0
    rw [if_neg (fun h => by omega), if_neg (fun h => h0 h.2.1)]
    exact ⟨rfl, rfl⟩

/-- The stop delay in `commit`: when the combined duty is 0, the fan is running
(`0 < actual_pwm`), the decrease delay has passed and the stop delay has not
(`min_decr_time ≤ now < min_stop_time`), then with `idle_pwm` non-zero and
different from `actual_pwm` the value written is `idle_pwm` and `actual_pwm` becomes
`idle_pwm`; otherwise nothing is committed.  Once `min_stop_time ≤ now` the value 0
is written and becomes `actual_pwm`. -/
theorem commit_stop_delay (now first_check : Int) (f : s_fan) (log : List Event)
    (h0 : max (f.pwm.get Kind.SYS) (f.pwm.get Kind.HDD) = 0) (hrun : 0 < f.actual_pwm)
    (hd : f.min_decr_time ≤ now) :
    (now < f.min_stop_time → f.idle_pwm ≠ 0 ∧ f.idle_pwm ≠ f.actual_pwm →
        (commit now first_check f log).2 = Event.write f.pwm_write f.idle_pwm :: log ∧
          (commit now first_check f log).1.actual_pwm = f.idle_pwm) ∧
      (now < f.min_stop_time → ¬ (f.idle_pwm ≠ 0 ∧ f.idle_pwm ≠ f.actual_pwm) →
        commit now first_check f log = (f, log)) ∧
      (f.min_stop_time ≤ now →
        (commit now first_check f log).2 = Event.write f.pwm_write 0 :: log ∧
          (commit now first_check f log).1.actual_pwm = 0) := by
  rw [← combined_pwm_eq_max] at h0
  have hne : ¬ (combined_pwm f = f.actual_pwm ∧ first_check ≠ 1) := fun h => by omega
  have hlt : combined_pwm f < f.actual_pwm := by omega
  rw [commit_cases, if_neg hne, if_neg (fun h => by omega)]
  refine ⟨?_, ?_, ?_⟩
  · intro hs hi
    rw [if_pos ⟨hlt, h0, hs⟩, if_pos hi]
    exact ⟨rfl, rfl⟩
  · intro hs hi
    rw [if_pos ⟨hlt, h0, hs⟩, if_neg hi]
  · intro hs
    rw [if_neg (fun h => by omega), h0]
    exact ⟨rfl, rfl⟩

/-- What `commit` does to the event log: nothing, or one write to the fan. -/
theorem commit_log (now first_check : Int) (f : s_fan) (log : List Event) :
    (commit now first_check f log).2 = log ∨
      ∃ v, (commit now first_check f log).2 = Event.write f.pwm_write v :: log := by
  rw [commit_cases]
  split_ifs
  · exact Or.inl rfl
  · exact Or.inl rfl
  · exact Or.inr ⟨_, rfl⟩
  · exact Or.inl rfl
  · exact Or.inr ⟨_, rfl⟩

/-- The fields of a fan that `commit` leaves as they are: everything but
`actual_pwm` and the two delay windows. -/
theorem commit_frame (now first_check : Int) (f : s_fan) (log : List Event) :
    (commit now first_check f log).1.pwm = f.pwm ∧
      (commit now first_check f log).1.temp = f.temp ∧
      (commit now first_check f log).1.next_check = f.next_check ∧
      (commit now first_check f log).1.pwm_write = f.pwm_write ∧
      (commit now first_check f log).1.idle_pwm = f.idle_pwm := by
  rw [commit_cases]
  split_ifs <;> exact ⟨rfl, rfl, rfl, rfl, rfl⟩

/-! ## Lemmas on the update of the recorded temperature and duty -/

theorem update_type_frame (data : List s_temp_pwm) (now first_check : Int) (type : Kind)
    (temp : Int) (sw_error : Bool) (f : s_fan) :
    (update_type data now first_check type temp sw_error f).next_check = f.next_check ∧
      (update_type data now first_check type temp sw_error f).control = f.control ∧
      (update_type data now first_check type temp sw_error f).interval = f.interval ∧
      (update_type data now first_check type temp sw_error f).actual_pwm = f.actual_pwm ∧
      (update_type data now first_check type temp sw_error f).min_decr_time =
        f.min_decr_time ∧
      (update_type data now first_check type temp sw_error f).min_stop_time =
        f.min_stop_time := by
  unfold update_type
  split_ifs <;> exact ⟨rfl, rfl, rfl, rfl, rfl, rfl⟩

/-- The fields of a fan that `update_type` leaves as they are. -/
theorem update_type_config (data : List s_temp_pwm) (now first_check : Int) (type : Kind)
    (temp : Int) (sw_error : Bool) (f : s_fan) :
    (update_type data now first_check type temp sw_error f).pwm_write = f.pwm_write ∧
      (update_type data now first_check type temp sw_error f).idle_pwm = f.idle_pwm ∧
      (update_type data now first_check type temp sw_error f).decr_delay = f.decr_delay ∧
      (update_type data now first_check type temp sw_error f).stop_delay = f.stop_delay := by
  unfold update_type
  split_ifs <;> exact ⟨rfl, rfl, rfl, rfl⟩

/-- The update suppression in `update_type`: when the error override does not
apply, the recorded `temp[type]` and `pwm[type]` are left unchanged when the new
aggregated temperature is lower than `temp[type]` and either the drop is smaller
than `hyst[type]` or `now < min_decr_time`; they are updated to `(temp,
calc_pwm(temp))` on the first cycle, where the record is still 0 and the
aggregated temperature is not negative, and on any cycle whenever `temp` differs
from `temp[type]` and that suppression condition does not hold. -/
theorem update_type_suppression (data : List s_temp_pwm) (now first_check : Int)
    (type : Kind) (temp : Int) (sw_error : Bool) (f : s_fan)
    (hov : ¬ (sw_error = true ∧
      calc_pwm data (f.count_step.get type) (f.interpolate.get type) temp <
        f.error_pwm.get type)) :
    (temp < f.temp.get type ∧
        (f.temp.get type - temp < f.hyst.get type ∨ now < f.min_decr_time) →
      update_type data now first_check type temp sw_error f = f) ∧
    (first_check = 1 → f.temp.get type = 0 → 0 ≤ temp →
      (update_type data now first_check type temp sw_error f).temp.get type = temp ∧
        (update_type data now first_check type temp sw_error f).pwm.get type =
          calc_pwm data (f.count_step.get type) (f.interpolate.get type) temp) ∧
    (temp ≠ f.temp.get type →
      ¬ (temp < f.temp.get type ∧
        (f.temp.get type - temp < f.hyst.get type ∨ now < f.min_decr_time)) →
      (update_type data now first_check type temp sw_error f).temp.get type = temp ∧
        (update_type data now first_check type temp sw_error f).pwm.get type =
          calc_pwm data (f.count_step.get type) (f.interpolate.get type) temp) := by
  refine ⟨?_, ?_, ?_⟩
  · intro hs
    unfold update_type
    rw [if_neg hov, if_neg (fun h => h.1 ⟨hs.1, hs.2⟩)]
  · intro hf h0 ht
    unfold update_type
    rw [if_neg hov, if_pos ⟨fun h => by omega, Or.inr hf⟩]
    exact ⟨Two.get_set_same _ _ _, Two.get_set_same _ _ _⟩
  · intro hne hs
    unfold update_type
    rw [if_neg hov, if_pos ⟨fun h => hs ⟨h.1, h.2⟩, Or.inl (Ne.symm hne)⟩]
    exact ⟨Two.get_set_same _ _ _, Two.get_set_same _ _ _⟩

/-- The error override where it applies: with `sw_error` set and the curve duty of
the aggregated temperature below `error_pwm[type]`, the duty of the kind becomes
`error_pwm[type]`, and the combined duty is at least that. -/
theorem update_type_error_override (data : List s_temp_pwm) (now first_check : Int)
    (type : Kind) (temp : Int) (f : s_fan)
    (hlt : calc_pwm data (f.count_step.get type) (f.interpolate.get type) temp <
      f.error_pwm.get type) :
    (update_type data now first_check type temp true f).pwm.get type =
        f.error_pwm.get type ∧
      f.error_pwm.get type ≤
        combined_pwm (update_type data now first_check type temp true f) := by
  have h : (update_type data now first_check type temp true f).pwm.get type =
      f.error_pwm.get type := by
    unfold update_type
    rw [if_pos ⟨rfl, hlt⟩]
    exact Two.get_set_same _ _ _
  refine ⟨h, ?_⟩
  rw [combined_pwm_eq_max, ← h]
  cases type
  · exact le_max_left _ _
  · exact le_max_right _ _

/-! ## Lemmas on the `next_check` loop -/

/-- The number of additions after which the `next_check` loop ends, and the value
it ends with. -/
theorem advance_next_check_eq (interval now : Int) (hi : 1 ≤ interval) :
    ∀ (fuel : Nat) (next_check : Int), next_check ≤ now →
      ((now - next_check) / interval + 1).toNat ≤ fuel →
      advance_next_check interval now fuel next_check =
        some (next_check + ((now - next_check) / interval + 1) * interval) := by
  intro fuel
  induction fuel with
  | zero =>
    intro nc hle hf
    exfalso
    have : 0 ≤ (now - nc) / interval := Int.ediv_nonneg (by omega) (by omega)
    omega
  | succ fuel ih =>
    intro nc hle hf
    have hq0 : 0 ≤ (now - nc) / interval := Int.ediv_nonneg (by omega) (by omega)
    unfold advance_next_check
    by_cases h : nc + interval ≤ now
    · rw [if_pos h]
      have hq : (now - (nc + interval)) / interval = (now - nc) / interval - 1 := by
        have := Int.add_mul_ediv_right (now - nc) (-1) (show interval ≠ 0 by omega)
        have e : now - (nc + interval) = now - nc + -1 * interval := by ring
        rw [e, this]
        ring
      have hq1 : 0 ≤ (now - (nc + interval)) / interval :=
        Int.ediv_nonneg (by omega) (by omega)
      rw [ih (nc + interval) h (by rw [hq] at hq1 ⊢; omega), hq]
      congr 1
      ring
    · rw [if_neg h]
      have hq : (now - nc) / interval = 0 := Int.ediv_eq_zero_of_lt (by omega) (by omega)
      rw [hq]
      congr 1
      ring

/-- Arithmetic of the value the `next_check` loop ends with. -/
theorem advance_value (interval now old : Int) (hi : 1 ≤ interval) (hle : old ≤ now) :
    1 ≤ (now - old) / interval + 1 ∧
      (∀ k : Int, 1 ≤ k → now < old + k * interval → (now - old) / interval + 1 ≤ k) ∧
      now < old + ((now - old) / interval + 1) * interval ∧
      old + ((now - old) / interval + 1) * interval ≤ now + interval ∧
      old + interval ≤ old + ((now - old) / interval + 1) * interval ∧
      (old + ((now - old) / interval + 1) * interval - old) % interval = 0 := by
  have hq0 : 0 ≤ (now - old) / interval := Int.ediv_nonneg (by omega) (by omega)
  have h1 : now - old < ((now - old) / interval + 1) * interval :=
    Int.lt_ediv_add_one_mul_self (now - old) (by omega)
  have h2 : (now - old) / interval * interval ≤ now - old :=
    Int.ediv_mul_le (now - old) (by omega)
  refine ⟨by omega, ?_, by linarith, by nlinarith, by nlinarith, ?_⟩
  · intro k hk hlt
    by_contra hcon
    have hk2 : k ≤ (now - old) / interval := by omega
    have : k * interval ≤ (now - old) / interval * interval :=
      Int.mul_le_mul_of_nonneg_right hk2 (by omega)
    omega
  · have e : old + ((now - old) / interval + 1) * interval - old =
        ((now - old) / interval + 1) * interval := by ring
    rw [e]
    exact Int.mul_emod_left _ _

/-! ## Lemmas on the source loop -/

/-- The events of one physical acquisition. -/
theorem acquire_log (w : World) (type : Kind) (name : String) (log : List Event) :
    ∃ phys, (acquire w type name log).2 = phys ++ log ∧
      (phys = [] ∨ phys = [Event.sys_read name] ∨ phys = [Event.hdd_probe name] ∨
        phys = [Event.hdd_read name, Event.hdd_probe name]) := by
  unfold acquire
  cases type
  · exact ⟨[Event.sys_read name], rfl, Or.inr (Or.inl rfl)⟩
  · simp only []
    split_ifs
    · exact ⟨[Event.hdd_read name, Event.hdd_probe name], rfl, Or.inr (Or.inr (Or.inr rfl))⟩
    · exact ⟨[Event.hdd_probe name], rfl, Or.inr (Or.inr (Or.inl rfl))⟩
    · exact ⟨[], rfl, Or.inl rfl⟩

/-- The aggregated temperature of the source loop is never negative. -/
theorem scan_sources_temp_nonneg (w : World) (type : Kind) (names : List String)
    (temp_buf : List s_temp) (log : List Event) :
    0 ≤ (scan_sources w type names temp_buf log).temp := by
  unfold scan_sources
  have key : ∀ (ns : List String) (s : Scan), 0 ≤ s.temp →
      0 ≤ (ns.foldl (scan_source w type) s).temp := by
    intro ns
    induction ns with
    | nil => intro s h; exact h
    | cons n ns ih =>
      intro s h
      apply ih
      unfold scan_source
      cases buffered s.temp_buf n with
      | some v =>
        simp only []
        split_ifs <;> omega
      | none =>
        simp only []
        split_ifs <;> omega
  exact key names _ (le_refl 0)

/-- The source loop adds events to the log, none of them a write to a fan. -/
theorem scan_sources_log (w : World) (type : Kind) (names : List String)
    (temp_buf : List s_temp) (log : List Event) :
    ∃ evs, (scan_sources w type names temp_buf log).log = evs ++ log ∧
      ∀ n v, Event.write n v ∉ evs := by
  unfold scan_sources
  have key : ∀ (ns : List String) (s : Scan),
      (∃ evs, s.log = evs ++ log ∧ ∀ n v, Event.write n v ∉ evs) →
      ∃ evs, (ns.foldl (scan_source w type) s).log = evs ++ log ∧
        ∀ n v, Event.write n v ∉ evs := by
    intro ns
    induction ns with
    | nil => intro s h; exact h
    | cons name ns ih =>
      intro s h
      apply ih
      obtain ⟨evs, he, hw⟩ := h
      unfold scan_source
      cases buffered s.temp_buf name with
      | some x =>
        refine ⟨Event.sample name x true :: evs, by simp only [he]; rfl, ?_⟩
        intro n v hm
        rcases List.mem_cons.mp hm with h1 | h1
        · exact absurd h1 (by simp)
        · exact hw n v h1
      | none =>
        obtain ⟨phys, hp, hcases⟩ := acquire_log w type name s.log
        refine ⟨Event.sample name (acquire w type name s.log).1 false :: (phys ++ evs), ?_, ?_⟩
        · show Event.sample name (acquire w type name s.log).1 false ::
              (acquire w type name s.log).2 = _
          rw [hp, he]
          simp
        · intro n v hm
          rcases List.mem_cons.mp hm with h1 | h1
          · exact absurd h1 (by simp)
          · rcases List.mem_append.mp h1 with h2 | h2
            · rcases hcases with hc | hc | hc | hc <;> subst hc <;> simp at h2
            · exact hw n v h2
  exact key names _ ⟨[], rfl, fun n v hm => by simp at hm⟩

/-- A source that is read in this iteration and fails sets `sw_error`; a source
that is served from `temp_buf` leaves `sw_error` as it is, whatever its value. -/
theorem scan_source_sw_error (w : World) (type : Kind) (s : Scan) (name : String) :
    (buffered s.temp_buf name = none → (acquire w type name s.log).1 < 0 →
        (scan_source w type s name).sw_error = true) ∧
      (∀ v, buffered s.temp_buf name = some v →
        (scan_source w type s name).sw_error = s.sw_error) := by
  constructor
  · intro hb hneg
    unfold scan_source
    rw [hb]
    simp only [hneg, if_true]
  · intro v hb
    unfold scan_source
    rw [hb]

/-! ## Lemmas on the loop over the kinds -/

/-- The result of `check_type` for a source kind that is enabled and due, when the
`next_check` loop ends with `n`. -/
theorem check_type_due (w : World) (fuel : Nat) (now first_check : Int)
    (data : List s_temp_pwm) (scan : List String) (type : Kind) (f : s_fan) (c : Cycle)
    (sw : Bool) (n : Int) (hc : f.control.get type = 1)
    (hdue : f.next_check.get type ≤ now)
    (hadv : advance_next_check (f.interval.get type) now fuel (f.next_check.get type) =
      some n) :
    check_type w fuel now first_check data scan type (f, c, sw) =
      some
        ({ update_type data now first_check type
              (scan_sources w type (scan_names scan (f.count_scan.get type))
                c.temp_buf c.log).temp
              (scan_sources w type (scan_names scan (f.count_scan.get type))
                c.temp_buf c.log).sw_error f with
            next_check := f.next_check.set type n },
          { next_check := if c.next_check = 0 ∨ c.next_check > n then n else c.next_check
            temp_buf := (scan_sources w type (scan_names scan (f.count_scan.get type))
                c.temp_buf c.log).temp_buf
            log := (scan_sources w type (scan_names scan (f.count_scan.get type))
                c.temp_buf c.log).log },
          true) := by
  have hfr := update_type_frame data now first_check type
    (scan_sources w type (scan_names scan (f.count_scan.get type)) c.temp_buf c.log).temp
    (scan_sources w type (scan_names scan (f.count_scan.get type)) c.temp_buf c.log).sw_error
    f
  unfold check_type
  simp only [hc, ge_iff_le, hdue, and_self, if_true, hfr.1, hadv, hfr.2.1, Two.get_set_same,
    true_and]
  split_ifs <;> rfl

/-- The result of `check_type` for a source kind that is disabled or not yet due. -/
theorem check_type_skip (w : World) (fuel : Nat) (now first_check : Int)
    (data : List s_temp_pwm) (scan : List String) (type : Kind) (f : s_fan) (c : Cycle)
    (sw : Bool) (h : ¬ (f.control.get type = 1 ∧ f.next_check.get type ≤ now)) :
    check_type w fuel now first_check data scan type (f, c, sw) =
      some (f,
        { c with
          next_check :=
            if f.control.get type = 1 ∧
                (c.next_check = 0 ∨ c.next_check > f.next_check.get type) then
              f.next_check.get type
            else c.next_check },
        sw) := by
  unfold check_type
  simp only [ge_iff_le, h, if_false]
  split_ifs <;> rfl

/-- The result of `check_type` when the `next_check` loop does not end. -/
theorem check_type_none (w : World) (fuel : Nat) (now first_check : Int)
    (data : List s_temp_pwm) (scan : List String) (type : Kind) (f : s_fan) (c : Cycle)
    (sw : Bool) (hc : f.control.get type = 1) (hdue : f.next_check.get type ≤ now)
    (hadv : advance_next_check (f.interval.get type) now fuel (f.next_check.get type) =
      none) :
    check_type w fuel now first_check data scan type (f, c, sw) = none := by
  have hfr := update_type_frame data now first_check type
    (scan_sources w type (scan_names scan (f.count_scan.get type)) c.temp_buf c.log).temp
    (scan_sources w type (scan_names scan (f.count_scan.get type)) c.temp_buf c.log).sw_error
    f
  unfold check_type
  simp only [hc, ge_iff_le, hdue, and_self, if_true, hfr.1, hadv]

/-- The fields of a fan that `check_type` leaves as they are, and whether the kind
was checked. -/
theorem check_type_frame (w : World) (fuel : Nat) (now first_check : Int)
    (data : List s_temp_pwm) (scan : List String) (type : Kind) (f : s_fan) (c : Cycle)
    (sw : Bool) (f' : s_fan) (c' : Cycle) (sw' : Bool)
    (hres : check_type w fuel now first_check data scan type (f, c, sw) = some (f', c', sw')) :
    f'.control = f.control ∧ f'.interval = f.interval ∧ f'.actual_pwm = f.actual_pwm ∧
      f'.min_decr_time = f.min_decr_time ∧ f'.min_stop_time = f.min_stop_time ∧
      (∀ t, t ≠ type → f'.next_check.get t = f.next_check.get t) ∧
      sw' = (sw || decide (f.control.get type = 1 ∧ f.next_check.get type ≤ now)) := by
  by_cases hd : f.control.get type = 1 ∧ f.next_check.get type ≤ now
  · cases hadv : advance_next_check (f.interval.get type) now fuel (f.next_check.get type) with
    | none =>
      rw [check_type_none w fuel now first_check data scan type f c sw hd.1 hd.2 hadv] at hres
      exact absurd hres (by simp)
    | some n =>
      rw [check_type_due w fuel now first_check data scan type f c sw n hd.1 hd.2 hadv] at hres
      simp only [Option.some.injEq, Prod.mk.injEq] at hres
      obtain ⟨hf, _, hsw⟩ := hres
      have hfr := update_type_frame data now first_check type
        (scan_sources w type (scan_names scan (f.count_scan.get type)) c.temp_buf c.log).temp
        (scan_sources w type (scan_names scan (f.count_scan.get type)) c.temp_buf
          c.log).sw_error f
      subst hf
      refine ⟨hfr.2.1, hfr.2.2.1, hfr.2.2.2.1, hfr.2.2.2.2.1, hfr.2.2.2.2.2, ?_, ?_⟩
      · intro t ht
        exact Two.get_set_other _ _ _ _ ht
      · rw [← hsw]
        simp [hd]
  · rw [check_type_skip w fuel now first_check data scan type f c sw hd] at hres
    simp only [Option.some.injEq, Prod.mk.injEq] at hres
    obtain ⟨hf, _, hsw⟩ := hres
    subst hf
    refine ⟨rfl, rfl, rfl, rfl, rfl, fun _ _ => rfl, ?_⟩
    rw [← hsw]
    simp [hd]

/-- The configuration fields of a fan that `check_type` leaves as they are. -/
theorem check_type_config (w : World) (fuel : Nat) (now first_check : Int)
    (data : List s_temp_pwm) (scan : List String) (type : Kind) (f : s_fan) (c : Cycle)
    (sw : Bool) (f' : s_fan) (c' : Cycle) (sw' : Bool)
    (hres : check_type w fuel now first_check data scan type (f, c, sw) = some (f', c', sw')) :
    f'.pwm_write = f.pwm_write ∧ f'.idle_pwm = f.idle_pwm ∧
      f'.decr_delay = f.decr_delay ∧ f'.stop_delay = f.stop_delay := by
  by_cases hd : f.control.get type = 1 ∧ f.next_check.get type ≤ now
  · cases hadv : advance_next_check (f.interval.get type) now fuel (f.next_check.get type) with
    | none =>
      rw [check_type_none w fuel now first_check data scan type f c sw hd.1 hd.2 hadv] at hres
      exact absurd hres (by simp)
    | some n =>
      rw [check_type_due w fuel now first_check data scan type f c sw n hd.1 hd.2 hadv] at hres
      simp only [Option.some.injEq, Prod.mk.injEq] at hres
      obtain ⟨hf, _, _⟩ := hres
      subst hf
      exact update_type_config data now first_check type _ _ f
  · rw [check_type_skip w fuel now first_check data scan type f c sw hd] at hres
    simp only [Option.some.injEq, Prod.mk.injEq] at hres
    obtain ⟨hf, _, _⟩ := hres
    subst hf
    exact ⟨rfl, rfl, rfl, rfl⟩

/-- The loop body of one source kind adds events to the log, none of them a write
to a fan. -/
theorem check_type_log (w : World) (fuel : Nat) (now first_check : Int)
    (data : List s_temp_pwm) (scan : List String) (type : Kind) (f : s_fan) (c : Cycle)
    (sw : Bool) (f' : s_fan) (c' : Cycle) (sw' : Bool)
    (hres : check_type w fuel now first_check data scan type (f, c, sw) = some (f', c', sw')) :
    ∃ evs, c'.log = evs ++ c.log ∧ ∀ n v, Event.write n v ∉ evs := by
  by_cases hd : f.control.get type = 1 ∧ f.next_check.get type ≤ now
  · cases hadv : advance_next_check (f.interval.get type) now fuel (f.next_check.get type) with
    | none =>
      rw [check_type_none w fuel now first_check data scan type f c sw hd.1 hd.2 hadv] at hres
      exact absurd hres (by simp)
    | some n =>
      rw [check_type_due w fuel now first_check data scan type f c sw n hd.1 hd.2 hadv] at hres
      simp only [Option.some.injEq, Prod.mk.injEq] at hres
      obtain ⟨_, hc, _⟩ := hres
      subst hc
      exact scan_sources_log w type _ c.temp_buf c.log
  · rw [check_type_skip w fuel now first_check data scan type f c sw hd] at hres
    simp only [Option.some.injEq, Prod.mk.injEq] at hres
    obtain ⟨_, hc, _⟩ := hres
    subst hc
    exact ⟨[], rfl, fun n v hm => by simp at hm⟩

/-! ## Lemmas on the loop over the fans -/

/-- How `check_fan` is put together.  The fan `f2` after the loop over the kinds has
the `actual_pwm`, the delay windows and the configuration of `f`; the loop over the
kinds adds events `evs` to the log, none of them a write; and `commit` is run on `f2`
exactly when one of the kinds was enabled and due. -/
theorem check_fan_spec (w : World) (fuel : Nat) (now first_check : Int)
    (data : Two (List s_temp_pwm)) (scan_sys scan_hdd : List String) (f : s_fan)
    (c : Cycle) (f' : s_fan) (c' : Cycle)
    (hres : check_fan w fuel now first_check data scan_sys scan_hdd f c = some (f', c')) :
    ∃ (f2 : s_fan) (c2 : Cycle) (evs : List Event),
      (f2.actual_pwm = f.actual_pwm ∧ f2.min_decr_time = f.min_decr_time ∧
        f2.min_stop_time = f.min_stop_time ∧ f2.pwm_write = f.pwm_write ∧
        f2.idle_pwm = f.idle_pwm ∧ f2.decr_delay = f.decr_delay ∧
        f2.stop_delay = f.stop_delay) ∧
      (c2.log = evs ++ c.log ∧ ∀ n v, Event.write n v ∉ evs) ∧
      ((f.control.get Kind.SYS = 1 ∧ f.next_check.get Kind.SYS ≤ now) ∨
          (f.control.get Kind.HDD = 1 ∧ f.next_check.get Kind.HDD ≤ now) →
        f' = (commit now first_check f2 c2.log).1 ∧
          c' = { c2 with log := (commit now first_check f2 c2.log).2 }) ∧
      (¬ ((f.control.get Kind.SYS = 1 ∧ f.next_check.get Kind.SYS ≤ now) ∨
          (f.control.get Kind.HDD = 1 ∧ f.next_check.get Kind.HDD ≤ now)) →
        f' = f2 ∧ c' = c2) := by
  unfold check_fan at hres
  cases h1 : check_type w fuel now first_check data.sys scan_sys Kind.SYS (f, c, false) with
  | none => rw [h1] at hres; exact absurd hres (by simp)
  | some x1 =>
    obtain ⟨f1, c1, sw1⟩ := x1
    rw [h1] at hres
    simp only [] at hres
    cases h2 : check_type w fuel now first_check data.hdd scan_hdd Kind.HDD (f1, c1, sw1) with
    | none => rw [h2] at hres; exact absurd hres (by simp)
    | some x2 =>
      obtain ⟨g2, d2, sw2⟩ := x2
      rw [h2] at hres
      simp only [] at hres
      obtain ⟨a1, a2, a3, a4⟩ := check_type_config w fuel now first_check data.sys scan_sys
        Kind.SYS f c false f1 c1 sw1 h1
      obtain ⟨b1, b2, b3, b4⟩ := check_type_config w fuel now first_check data.hdd scan_hdd
        Kind.HDD f1 c1 sw1 g2 d2 sw2 h2
      obtain ⟨e1, l1, n1⟩ := check_type_log w fuel now first_check data.sys scan_sys
        Kind.SYS f c false f1 c1 sw1 h1
      obtain ⟨e2, l2, n2⟩ := check_type_log w fuel now first_check data.hdd scan_hdd
        Kind.HDD f1 c1 sw1 g2 d2 sw2 h2
      obtain ⟨q1, _, q3, q4, q5, q6, q7⟩ := check_type_frame w fuel now first_check data.sys
        scan_sys Kind.SYS f c false f1 c1 sw1 h1
      obtain ⟨_, _, r3, r4, r5, _, r7⟩ := check_type_frame w fuel now first_check data.hdd
        scan_hdd Kind.HDD f1 c1 sw1 g2 d2 sw2 h2
      have hn : f1.next_check.get Kind.HDD = f.next_check.get Kind.HDD :=
        q6 Kind.HDD (by decide)
      rw [q1, hn, q7] at r7
      refine ⟨g2, d2, e2 ++ e1,
        ⟨by rw [r3, q3], by rw [r4, q4], by rw [r5, q5], by rw [b1, a1], by rw [b2, a2],
          by rw [b3, a3], by rw [b4, a4]⟩,
        ⟨by rw [l2, l1, List.append_assoc], ?_⟩, ?_, ?_⟩
      · intro n v hm
        rcases List.mem_append.mp hm with h | h
        · exact n2 n v h
        · exact n1 n v h
      · intro hchk
        have hsw : sw2 = true := by
          rw [r7]
          rcases hchk with h | h <;> simp [h]
        rw [if_neg (by simp [hsw])] at hres
        simp only [Option.some.injEq, Prod.mk.injEq] at hres
        exact ⟨hres.1.symm, hres.2.symm⟩
      · intro hchk
        have hsw : sw2 = false := by
          rw [r7]
          simp only [not_or] at hchk
          simp [hchk.1, hchk.2]
        rw [if_pos hsw] at hres
        simp only [Option.some.injEq, Prod.mk.injEq] at hres
        exact ⟨hres.1.symm, hres.2.symm⟩

/-- The loop over the fans runs `check_fan` once on every fan, in order. -/
theorem fan_loop_check_fan (w : World) (fuel : Nat) (g : Globals) (now : Int) :
    ∀ (fans : List s_fan) (i : Nat) (c : Cycle) (fans' : List s_fan) (c' : Cycle),
      fan_loop w fuel g now i fans c = some (fans', c') →
      fans'.length = fans.length ∧
      ∀ (k : Nat) (f f' : s_fan), fans[k]? = some f → fans'[k]? = some f' →
        ∃ ck ck', check_fan w fuel now g.first_check
          ⟨g.data_pwm.sys.getD (i + k) [], g.data_pwm.hdd.getD (i + k) []⟩
          (g.scan_sys.getD (i + k) []) (g.scan_hdd.getD (i + k) []) f ck = some (f', ck') := by
  intro fans
  induction fans with
  | nil =>
    intro i c fans' c' hres
    simp only [fan_loop, Option.some.injEq, Prod.mk.injEq] at hres
    rw [← hres.1]
    exact ⟨rfl, fun k f f' hf => by simp at hf⟩
  | cons f0 fans ih =>
    intro i c fans' c' hres
    simp only [fan_loop] at hres
    cases h1 : check_fan w fuel now g.first_check
        ⟨g.data_pwm.sys.getD i [], g.data_pwm.hdd.getD i []⟩
        (g.scan_sys.getD i []) (g.scan_hdd.getD i []) f0 c with
    | none => rw [h1] at hres; exact absurd hres (by simp)
    | some x1 =>
      obtain ⟨f1, c1⟩ := x1
      rw [h1] at hres
      simp only [] at hres
      cases h2 : fan_loop w fuel g now (i + 1) fans c1 with
      | none => rw [h2] at hres; exact absurd hres (by simp)
      | some x2 =>
        obtain ⟨fans2, c2⟩ := x2
        rw [h2] at hres
        simp only [Option.some.injEq, Prod.mk.injEq] at hres
        obtain ⟨hl, hk⟩ := ih (i + 1) c1 fans2 c2 h2
        rw [← hres.1]
        refine ⟨by simp [hl], ?_⟩
        intro k f f' hf hf'
        cases k with
        | zero =>
          simp only [List.getElem?_cons_zero, Option.some.injEq] at hf hf'
          subst hf hf'
          exact ⟨c, c1, h1⟩
        | succ k =>
          simp only [List.getElem?_cons_succ] at hf hf'
          have := hk k f f' hf hf'
          rw [show i + 1 + k = i + (k + 1) by omega] at this
          exact this

/-- Every fan after `control_fan_speed` is the result of `check_fan` on the same fan
before it. -/
theorem control_fan_speed_check_fan (w : World) (fuel : Nat) (now : Int) (g g' : Globals)
    (log log' : List Event)
    (hres : control_fan_speed w fuel now g log = some (g', log')) :
    g'.fan.length = g.fan.length ∧
      ∀ (k : Nat) (f f' : s_fan), g.fan[k]? = some f → g'.fan[k]? = some f' →
        ∃ ck ck', check_fan w fuel now g.first_check
          ⟨g.data_pwm.sys.getD k [], g.data_pwm.hdd.getD k []⟩
          (g.scan_sys.getD k []) (g.scan_hdd.getD k []) f ck = some (f', ck') := by
  unfold control_fan_speed at hres
  cases h1 : fan_loop w fuel g now 0 g.fan ⟨0, [], log⟩ with
  | none => rw [h1] at hres; exact absurd hres (by simp)
  | some x =>
    obtain ⟨fans, c⟩ := x
    rw [h1] at hres
    simp only [Option.some.injEq, Prod.mk.injEq] at hres
    obtain ⟨hl, hk⟩ := fan_loop_check_fan w fuel g now g.fan 0 ⟨0, [], log⟩ fans c h1
    have hg : g'.fan = fans := by rw [← hres.1]
    rw [hg]
    refine ⟨hl, ?_⟩
    intro k f f' hf hf'
    have := hk k f f' hf hf'
    rw [Nat.zero_add] at this
    exact this

/-- The loop body of one source kind returns when its `next_check` loop ends. -/
theorem check_type_total (w : World) (fuel : Nat) (now first_check : Int)
    (data : List s_temp_pwm) (scan : List String) (type : Kind) (f : s_fan) (c : Cycle)
    (sw : Bool)
    (h : f.control.get type = 1 → f.next_check.get type ≤ now →
      1 ≤ f.interval.get type ∧
        ((now - f.next_check.get type) / f.interval.get type + 1).toNat ≤ fuel) :
    ∃ f' c' sw',
      check_type w fuel now first_check data scan type (f, c, sw) = some (f', c', sw') := by
  by_cases hd : f.control.get type = 1 ∧ f.next_check.get type ≤ now
  · obtain ⟨hi, hf⟩ := h hd.1 hd.2
    have hadv := advance_next_check_eq (f.interval.get type) now hi fuel
      (f.next_check.get type) hd.2 hf
    exact ⟨_, _, _, check_type_due w fuel now first_check data scan type f c sw _ hd.1 hd.2
      hadv⟩
  · exact ⟨_, _, _, check_type_skip w fuel now first_check data scan type f c sw hd⟩

/-- The body of the loop over the fans returns when the `next_check` loops of the
fan end. -/
theorem check_fan_total (w : World) (fuel : Nat) (now first_check : Int)
    (data : Two (List s_temp_pwm)) (scan_sys scan_hdd : List String) (f : s_fan)
    (c : Cycle) (h : loops_end fuel now f) :
    ∃ f' c', check_fan w fuel now first_check data scan_sys scan_hdd f c = some (f', c') := by
  obtain ⟨f1, c1, sw1, h1⟩ := check_type_total w fuel now first_check data.sys scan_sys
    Kind.SYS f c false (h Kind.SYS)
  obtain ⟨q1, q2, _, _, _, q6, _⟩ := check_type_frame w fuel now first_check data.sys
    scan_sys Kind.SYS f c false f1 c1 sw1 h1
  have hn : f1.next_check.get Kind.HDD = f.next_check.get Kind.HDD :=
    q6 Kind.HDD (by decide)
  obtain ⟨f2, c2, sw2, h2⟩ := check_type_total w fuel now first_check data.hdd scan_hdd
    Kind.HDD f1 c1 sw1 (by rw [q1, q2, hn]; exact h Kind.HDD)
  unfold check_fan
  rw [h1]
  simp only []
  rw [h2]
  simp only []
  split_ifs
  · exact ⟨_, _, rfl⟩
  · exact ⟨_, _, rfl⟩

/-- The loop over the fans returns when the `next_check` loops of all fans end. -/
theorem fan_loop_total (w : World) (fuel : Nat) (g : Globals) (now : Int) :
    ∀ (fans : List s_fan) (i : Nat) (c : Cycle), (∀ f ∈ fans, loops_end fuel now f) →
      ∃ fans' c', fan_loop w fuel g now i fans c = some (fans', c') := by
  intro fans
  induction fans with
  | nil => intro i c _; exact ⟨[], c, rfl⟩
  | cons f fans ih =>
    intro i c h
    obtain ⟨f1, c1, h1⟩ := check_fan_total w fuel now g.first_check
      ⟨g.data_pwm.sys.getD i [], g.data_pwm.hdd.getD i []⟩
      (g.scan_sys.getD i []) (g.scan_hdd.getD i []) f c (h f (List.mem_cons_self f fans))
    obtain ⟨fans2, c2, h2⟩ := ih (i + 1) c1 (fun x hx => h x (List.mem_cons_of_mem f hx))
    refine ⟨f1 :: fans2, c2, ?_⟩
    simp only [fan_loop]
    rw [h1]
    simp only []
    rw [h2]

/-- The function `control_fan_speed` returns when the `next_check` loops of all fans
end. -/
theorem control_fan_speed_total (w : World) (fuel : Nat) (now : Int) (g : Globals)
    (log : List Event) (h : ∀ f ∈ g.fan, loops_end fuel now f) :
    ∃ g' log', control_fan_speed w fuel now g log = some (g', log') := by
  obtain ⟨fans, c, h1⟩ := fan_loop_total w fuel g now g.fan 0 ⟨0, [], log⟩ h
  unfold control_fan_speed
  rw [h1]
  exact ⟨_, _, rfl⟩

/-! ## The decrease delay and the stop delay -/

/-- C1: a fan that is checked in a cycle (one of its kinds is enabled and due, and
the `next_check` loops end) reaches the commit decision, and the loop over the kinds
writes to no fan.  When its combined duty `max(pwm[SYS], pwm[HDD])` is then lower
than `actual_pwm`: inside the decrease-delay window (`now < min_decr_time`) nothing
is committed, no write is made and `actual_pwm`, `min_decr_time` and `min_stop_time`
are unchanged; at or after `min_decr_time` a non-zero combined duty is written to
the fan and becomes `actual_pwm`. -/
theorem check_fan_decrease_delay (w : World) (fuel : Nat) (now first_check : Int)
    (data : Two (List s_temp_pwm)) (scan_sys scan_hdd : List String) (f : s_fan)
    (c : Cycle) (hend : loops_end fuel now f)
    (hchk : (f.control.get Kind.SYS = 1 ∧ f.next_check.get Kind.SYS ≤ now) ∨
      (f.control.get Kind.HDD = 1 ∧ f.next_check.get Kind.HDD ≤ now)) :
    ∃ f' c' evs,
      check_fan w fuel now first_check data scan_sys scan_hdd f c = some (f', c') ∧
      (∀ n v, Event.write n v ∉ evs) ∧
      (max (f'.pwm.get Kind.SYS) (f'.pwm.get Kind.HDD) < f.actual_pwm →
        (now < f.min_decr_time →
          c'.log = evs ++ c.log ∧ f'.actual_pwm = f.actual_pwm ∧
            f'.min_decr_time = f.min_decr_time ∧ f'.min_stop_time = f.min_stop_time) ∧
        (f.min_decr_time ≤ now → max (f'.pwm.get Kind.SYS) (f'.pwm.get Kind.HDD) ≠ 0 →
          c'.log =
              Event.write f.pwm_write (max (f'.pwm.get Kind.SYS) (f'.pwm.get Kind.HDD)) ::
                (evs ++ c.log) ∧
            f'.actual_pwm = max (f'.pwm.get Kind.SYS) (f'.pwm.get Kind.HDD))) := by
  obtain ⟨f', c', hres⟩ := check_fan_total w fuel now first_check data scan_sys scan_hdd f c
    hend
  obtain ⟨f2, c2, evs, ⟨a1, a2, a3, a4, _, _, _⟩, ⟨hl, hnw⟩, hc, _⟩ :=
    check_fan_spec w fuel now first_check data scan_sys scan_hdd f c f' c' hres
  obtain ⟨hf, hcy⟩ := hc hchk
  have hpwm : f'.pwm = f2.pwm := by
    rw [hf]
    exact (commit_frame now first_check f2 c2.log).1
  refine ⟨f', c', evs, hres, hnw, ?_⟩
  intro hlt
  rw [hpwm, ← a1] at hlt
  obtain ⟨k1, k2⟩ := commit_decrease_delay now first_check f2 c2.log hlt
  refine ⟨?_, ?_⟩
  · intro hw
    have hk := k1 (by rw [a2]; exact hw)
    rw [hk] at hf hcy
    rw [hf, hcy]
    exact ⟨hl, a1, a2, a3⟩
  · intro hw h0
    rw [hpwm] at h0 ⊢
    obtain ⟨k3, k4⟩ := k2 (by rw [a2]; exact hw) h0
    rw [hf, hcy]
    refine ⟨?_, k4⟩
    show (commit now first_check f2 c2.log).2 = _
    rw [k3, a4, hl]

/-- C1, witness: `actual_pwm = 100`, last increase at time 0 with
`decrease_delay = 60`, combined duty 50: the cycle at time 10 writes nothing and
leaves `actual_pwm` at 100; the cycle at time 61 writes 50, which becomes
`actual_pwm`. -/
theorem check_fan_decrease_delay_witness :
    (∃ f' c', check_fan world_example 7 10 0 ⟨[⟨40, 50⟩], []⟩ ["temp1"] [] fan_decrease
          ⟨0, [], []⟩ = some (f', c') ∧
        c'.log = [Event.sample "temp1" 45 false, Event.sys_read "temp1"] ∧
        f'.actual_pwm = 100 ∧ f'.min_decr_time = 60 ∧ f'.min_stop_time = 120) ∧
      (∃ f' c', check_fan world_example 7 61 0 ⟨[⟨40, 50⟩], []⟩ ["temp1"] [] fan_decrease
          ⟨0, [], []⟩ = some (f', c') ∧
        c'.log = [Event.write "pwm1" 50, Event.sample "temp1" 45 false,
          Event.sys_read "temp1"] ∧
        f'.actual_pwm = 50) := by
  have e1 : (check_fan world_example 7 10 0 ⟨[⟨40, 50⟩], []⟩ ["temp1"] [] fan_decrease
        ⟨0, [], []⟩).map (fun r => (r.1.pwm, r.2.log)) =
      some (⟨50, 0⟩, [Event.sample "temp1" 45 false, Event.sys_read "temp1"]) := by
    simp [check_fan, check_type, fan_decrease, fan_zero, world_example, Two.get, Two.set,
      scan_sources, scan_names, scan_source, buffered, acquire, update_type, calc_pwm,
      calc_pwm_loop, advance_next_check, commit, combined_pwm, set_fan_speed, List.range,
      List.range.loop]
  have e2 : (check_fan world_example 7 61 0 ⟨[⟨40, 50⟩], []⟩ ["temp1"] [] fan_decrease
        ⟨0, [], []⟩).map (fun r => (r.1.pwm, r.2.log)) =
      some (⟨50, 0⟩, [Event.write "pwm1" 50, Event.sample "temp1" 45 false,
        Event.sys_read "temp1"]) := by
    simp [check_fan, check_type, fan_decrease, fan_zero, world_example, Two.get, Two.set,
      scan_sources, scan_names, scan_source, buffered, acquire, update_type, calc_pwm,
      calc_pwm_loop, advance_next_check, commit, combined_pwm, set_fan_speed, List.range,
      List.range.loop]
  obtain ⟨f1, c1, _, h1, _, b1⟩ := check_fan_decrease_delay world_example 7 10 0
    ⟨[⟨40, 50⟩], []⟩ ["temp1"] [] fan_decrease ⟨0, [], []⟩
    (fun type hc _ => by
      cases type
      · decide
      · exact absurd hc (by decide))
    (Or.inl (by decide))
  obtain ⟨f2, c2, _, h2, _, b2⟩ := check_fan_decrease_delay world_example 7 61 0
    ⟨[⟨40, 50⟩], []⟩ ["temp1"] [] fan_decrease ⟨0, [], []⟩
    (fun type hc _ => by
      cases type
      · decide
      · exact absurd hc (by decide))
    (Or.inl (by decide))
  rw [h1] at e1
  rw [h2] at e2
  simp only [Option.map_some', Option.some.injEq, Prod.mk.injEq] at e1 e2
  obtain ⟨p1, l1⟩ := e1
  obtain ⟨p2, l2⟩ := e2
  obtain ⟨_, q2, q3, q4⟩ := (b1 (by rw [p1]; decide)).1 (by decide)
  obtain ⟨_, r2⟩ := (b2 (by rw [p2]; decide)).2 (by decide) (by rw [p2]; decide)
  exact ⟨⟨f1, c1, h1, l1, q2, q3, q4⟩, ⟨f2, c2, h2, l2, by rw [r2, p2]; rfl⟩⟩

/-- C2: a fan that is checked in a cycle (one of its kinds is enabled and due, and
the `next_check` loops end) reaches the commit decision, and the loop over the kinds
writes to no fan.  When its combined duty is then 0 while the fan is running
(`0 < actual_pwm`) and the decrease delay has passed (`min_decr_time ≤ now`): inside
the stop-delay window (`now < min_stop_time`), if `idle_pwm` is non-zero and differs
from `actual_pwm`, the value written to the fan is `idle_pwm` and `actual_pwm` becomes
`idle_pwm`; otherwise nothing is committed and `actual_pwm` is unchanged.  Once
`min_stop_time ≤ now` the value 0 is written and becomes `actual_pwm`. -/
theorem check_fan_stop_delay (w : World) (fuel : Nat) (now first_check : Int)
    (data : Two (List s_temp_pwm)) (scan_sys scan_hdd : List String) (f : s_fan)
    (c : Cycle) (hend : loops_end fuel now f)
    (hchk : (f.control.get Kind.SYS = 1 ∧ f.next_check.get Kind.SYS ≤ now) ∨
      (f.control.get Kind.HDD = 1 ∧ f.next_check.get Kind.HDD ≤ now)) :
    ∃ f' c' evs,
      check_fan w fuel now first_check data scan_sys scan_hdd f c = some (f', c') ∧
      (∀ n v, Event.write n v ∉ evs) ∧
      (max (f'.pwm.get Kind.SYS) (f'.pwm.get Kind.HDD) = 0 → 0 < f.actual_pwm →
        f.min_decr_time ≤ now →
        (now < f.min_stop_time → f.idle_pwm ≠ 0 ∧ f.idle_pwm ≠ f.actual_pwm →
          c'.log = Event.write f.pwm_write f.idle_pwm :: (evs ++ c.log) ∧
            f'.actual_pwm = f.idle_pwm) ∧
        (now < f.min_stop_time → ¬ (f.idle_pwm ≠ 0 ∧ f.idle_pwm ≠ f.actual_pwm) →
          c'.log = evs ++ c.log ∧ f'.actual_pwm = f.actual_pwm) ∧
        (f.min_stop_time ≤ now →
          c'.log = Event.write f.pwm_write 0 :: (evs ++ c.log) ∧ f'.actual_pwm = 0)) := by
  obtain ⟨f', c', hres⟩ := check_fan_total w fuel now first_check data scan_sys scan_hdd f c
    hend
  obtain ⟨f2, c2, evs, ⟨a1, a2, a3, a4, a5, _, _⟩, ⟨hl, hnw⟩, hc, _⟩ :=
    check_fan_spec w fuel now first_check data scan_sys scan_hdd f c f' c' hres
  obtain ⟨hf, hcy⟩ := hc hchk
  have hpwm : f'.pwm = f2.pwm := by
    rw [hf]
    exact (commit_frame now first_check f2 c2.log).1
  refine ⟨f', c', evs, hres, hnw, ?_⟩
  intro h0 hrun hd
  rw [hpwm] at h0
  obtain ⟨k1, k2, k3⟩ := commit_stop_delay now first_check f2 c2.log h0
    (by rw [a1]; exact hrun) (by rw [a2]; exact hd)
  rw [a3, a5, a1] at k1 k2
  rw [a3] at k3
  refine ⟨?_, ?_, ?_⟩
  · intro hs hi
    obtain ⟨m1, m2⟩ := k1 hs hi
    rw [hf, hcy]
    refine ⟨?_, m2⟩
    show (commit now first_check f2 c2.log).2 = _
    rw [m1, a4, hl]
  · intro hs hi
    have hk := k2 hs hi
    rw [hk] at hf hcy
    rw [hf, hcy]
    exact ⟨hl, a1⟩
  · intro hs
    obtain ⟨m1, m2⟩ := k3 hs
    rw [hf, hcy]
    refine ⟨?_, m2⟩
    show (commit now first_check f2 c2.log).2 = _
    rw [m1, a4, hl]

/-- C2, witness: `actual_pwm = 80`, `idle_pwm = 30`, started at time 0 with
`stop_delay = 120`, combined duty 0: the cycle at time 10 writes the idle duty 30,
which becomes `actual_pwm`; the cycle at time 120 writes 0. -/
theorem check_fan_stop_delay_witness :
    (∃ f' c', check_fan world_example 13 10 0 ⟨[⟨50, 100⟩], []⟩ ["temp1"] [] fan_stop
          ⟨0, [], []⟩ = some (f', c') ∧
        c'.log = [Event.write "pwm1" 30, Event.sample "temp1" 45 false,
          Event.sys_read "temp1"] ∧
        f'.actual_pwm = 30) ∧
      (∃ f' c', check_fan world_example 13 120 0 ⟨[⟨50, 100⟩], []⟩ ["temp1"] [] fan_stop
          ⟨0, [], []⟩ = some (f', c') ∧
        c'.log = [Event.write "pwm1" 0, Event.sample "temp1" 45 false,
          Event.sys_read "temp1"] ∧
        f'.actual_pwm = 0) := by
  have e1 : (check_fan world_example 13 10 0 ⟨[⟨50, 100⟩], []⟩ ["temp1"] [] fan_stop
        ⟨0, [], []⟩).map (fun r => (r.1.pwm, r.2.log)) =
      some (⟨0, 0⟩, [Event.write "pwm1" 30, Event.sample "temp1" 45 false,
        Event.sys_read "temp1"]) := by
    simp [check_fan, check_type, fan_stop, fan_zero, world_example, Two.get, Two.set,
      scan_sources, scan_names, scan_source, buffered, acquire, update_type, calc_pwm,
      calc_pwm_loop, advance_next_check, commit, combined_pwm, set_fan_speed, List.range,
      List.range.loop]
  have e2 : (check_fan world_example 13 120 0 ⟨[⟨50, 100⟩], []⟩ ["temp1"] [] fan_stop
        ⟨0, [], []⟩).map (fun r => (r.1.pwm, r.2.log)) =
      some (⟨0, 0⟩, [Event.write "pwm1" 0, Event.sample "temp1" 45 false,
        Event.sys_read "temp1"]) := by
    simp [check_fan, check_type, fan_stop, fan_zero, world_example, Two.get, Two.set,
      scan_sources, scan_names, scan_source, buffered, acquire, update_type, calc_pwm,
      calc_pwm_loop, advance_next_check, commit, combined_pwm, set_fan_speed, List.range,
      List.range.loop]
  obtain ⟨f1, c1, _, h1, _, b1⟩ := check_fan_stop_delay world_example 13 10 0
    ⟨[⟨50, 100⟩], []⟩ ["temp1"] [] fan_stop ⟨0, [], []⟩
    (fun type hc _ => by
      cases type
      · decide
      · exact absurd hc (by decide))
    (Or.inl (by decide))
  obtain ⟨f2, c2, _, h2, _, b2⟩ := check_fan_stop_delay world_example 13 120 0
    ⟨[⟨50, 100⟩], []⟩ ["temp1"] [] fan_stop ⟨0, [], []⟩
    (fun type hc _ => by
      cases type
      · decide
      · exact absurd hc (by decide))
    (Or.inl (by decide))
  rw [h1] at e1
  rw [h2] at e2
  simp only [Option.map_some', Option.some.injEq, Prod.mk.injEq] at e1 e2
  obtain ⟨p1, l1⟩ := e1
  obtain ⟨p2, l2⟩ := e2
  exact ⟨⟨f1, c1, h1, l1,
      ((b1 (by rw [p1]; decide) (by decide) (by decide)).1 (by decide) (by decide)).2⟩,
    ⟨f2, c2, h2, l2,
      ((b2 (by rw [p2]; decide) (by decide) (by decide)).2.2 (by decide)).2⟩⟩

/-! ## The error override -/

/-- C3, at the failing input: two fans list the system sensor `temp1`, whose read
fails.  The first fan reads it, sees the error and gets `error_pwm = 200`; the second
fan is served the failed value from the cache, does not see the error and gets the
curve duty 120 of temperature 0, although its `error_pwm` is 200 as well. -/
theorem control_fan_speed_error_cached :
    (control_fan_speed world_sys_fails 1 0 globals_shared_sensor []).map
        (fun r => (r.1.fan.map (fun f => (f.pwm.get Kind.SYS, f.error_pwm.get Kind.SYS,
          f.actual_pwm)), r.2)) =
      some ([(200, 200, 200), (120, 200, 120)],
        [Event.write "pwm2" 120, Event.sample "temp1" (-1) true,
          Event.write "pwm1" 200, Event.sample "temp1" (-1) false,
          Event.sys_read "temp1"]) := by
  simp [control_fan_speed, fan_loop, check_fan, check_type, globals_shared_sensor,
    fan_sensor, fan_zero, world_sys_fails, Two.get, Two.set, scan_sources, scan_names,
    scan_source, buffered, acquire, update_type, calc_pwm, calc_pwm_loop,
    advance_next_check, commit, combined_pwm, set_fan_speed, List.range,
    List.range.loop]

/-! ## The update suppression -/

/-- C4, as stated, fails: on a later cycle a drop smaller than the hysteresis
margin is not accepted once the decrease-delay window has passed.  With the record
(47 degrees, duty 150), margin 5 and window end 60, the temperature 45 at time 100
leaves the record as it is. -/
theorem check_type_update_counterexample :
    ¬ (∀ (w : World) (fuel : Nat) (now first_check : Int) (data : List s_temp_pwm)
        (scan : List String) (type : Kind) (f : s_fan) (c : Cycle) (sw : Bool)
        (f' : s_fan) (c' : Cycle) (sw' : Bool) (temp : Int) (sw_error : Bool),
        check_type w fuel now first_check data scan type (f, c, sw) = some (f', c', sw') →
        f.control.get type = 1 → f.next_check.get type ≤ now →
        temp = (scan_sources w type (scan_names scan (f.count_scan.get type))
          c.temp_buf c.log).temp →
        sw_error = (scan_sources w type (scan_names scan (f.count_scan.get type))
          c.temp_buf c.log).sw_error →
        ¬ (sw_error = true ∧
          calc_pwm data (f.count_step.get type) (f.interpolate.get type) temp <
            f.error_pwm.get type) →
        first_check ≠ 1 → temp ≠ f.temp.get type →
        ¬ (temp < f.temp.get type ∧ f.temp.get type - temp < f.hyst.get type ∧
          now < f.min_decr_time) →
        f'.temp.get type = temp ∧
          f'.pwm.get type =
            calc_pwm data (f.count_step.get type) (f.interpolate.get type) temp) := by
  intro h
  have e : (check_type world_example 1 100 0 [⟨30, 50⟩, ⟨46, 150⟩, ⟨70, 255⟩] ["temp1"]
      Kind.SYS (fan_hyst, ⟨0, [], []⟩, false)).map (fun r => r.1.temp) = some ⟨47, 0⟩ := by
    simp [check_type, fan_hyst, fan_zero, world_example, Two.get, Two.set,
      scan_sources, scan_names, scan_source, buffered, acquire, update_type, calc_pwm,
      calc_pwm_loop, advance_next_check, List.range, List.range.loop]
  obtain ⟨⟨f', c', sw'⟩, h1, hp⟩ := Option.map_eq_some'.mp e
  have h2 := (h world_example 1 100 0 [⟨30, 50⟩, ⟨46, 150⟩, ⟨70, 255⟩] ["temp1"] Kind.SYS
    fan_hyst ⟨0, [], []⟩ false f' c' sw' 45 false h1 (by decide) (by decide) (by rfl)
    (by rfl) (by simp) (by decide) (by decide) (by decide)).1
  simp only [] at hp
  rw [hp] at h2
  revert h2
  decide

/-- The update suppression for a kind on which `check_type` has returned: for a
source kind that is processed in a cycle (enabled and due) and on which the error override does not apply, with `temp` the aggregated
temperature of the cycle: the recorded `temp[type]` and `pwm[type]` are left
unchanged when `temp` is lower than `temp[type]` and either the drop is smaller than
`hyst[type]` or `now < min_decr_time`; they are updated to `(temp, calc_pwm(temp))`
on the first cycle, where the record is still 0, and on any cycle whenever `temp`
differs from `temp[type]` and that suppression condition does not hold. -/
theorem check_type_update_returned (w : World) (fuel : Nat) (now first_check : Int)
    (data : List s_temp_pwm) (scan : List String) (type : Kind) (f : s_fan) (c : Cycle)
    (sw : Bool) (f' : s_fan) (c' : Cycle) (sw' : Bool) (temp : Int) (sw_error : Bool)
    (hres : check_type w fuel now first_check data scan type (f, c, sw) = some (f', c', sw'))
    (hc : f.control.get type = 1) (hdue : f.next_check.get type ≤ now)
    (htemp : temp = (scan_sources w type (scan_names scan (f.count_scan.get type))
      c.temp_buf c.log).temp)
    (herr : sw_error = (scan_sources w type (scan_names scan (f.count_scan.get type))
      c.temp_buf c.log).sw_error)
    (hov : ¬ (sw_error = true ∧
      calc_pwm data (f.count_step.get type) (f.interpolate.get type) temp <
        f.error_pwm.get type)) :
    (temp < f.temp.get type ∧
        (f.temp.get type - temp < f.hyst.get type ∨ now < f.min_decr_time) →
      f'.temp.get type = f.temp.get type ∧ f'.pwm.get type = f.pwm.get type) ∧
    (first_check = 1 → f.temp.get type = 0 →
      f'.temp.get type = temp ∧
        f'.pwm.get type =
          calc_pwm data (f.count_step.get type) (f.interpolate.get type) temp) ∧
    (temp ≠ f.temp.get type →
      ¬ (temp < f.temp.get type ∧
        (f.temp.get type - temp < f.hyst.get type ∨ now < f.min_decr_time)) →
      f'.temp.get type = temp ∧
        f'.pwm.get type =
          calc_pwm data (f.count_step.get type) (f.interpolate.get type) temp) := by
  have h0 : 0 ≤ temp := by
    rw [htemp]
    exact scan_sources_temp_nonneg w type _ c.temp_buf c.log
  cases hadv : advance_next_check (f.interval.get type) now fuel (f.next_check.get type) with
  | none =>
    rw [check_type_none w fuel now first_check data scan type f c sw hc hdue hadv] at hres
    exact absurd hres (by simp)
  | some n =>
    rw [check_type_due w fuel now first_check data scan type f c sw n hc hdue hadv] at hres
    simp only [Option.some.injEq, Prod.mk.injEq] at hres
    obtain ⟨hf, _, _⟩ := hres
    rw [← htemp, ← herr] at hf
    have ht : f'.temp = (update_type data now first_check type temp sw_error f).temp := by
      rw [← hf]
    have hp : f'.pwm = (update_type data now first_check type temp sw_error f).pwm := by
      rw [← hf]
    rw [ht, hp]
    obtain ⟨u1, u2, u3⟩ := update_type_suppression data now first_check type temp sw_error f
      hov
    refine ⟨?_, ?_, u3⟩
    · intro hs
      rw [u1 hs]
      exact ⟨rfl, rfl⟩
    · intro hf1 hz
      exact u2 hf1 hz h0

/-- C4 (amended): a source kind that is processed in a cycle (enabled and due, with
an interval of at least 1 and fuel for its `next_check` loop) gets through the loop
body.  When the error override does not apply, with `temp` the aggregated
temperature of the cycle: the recorded `temp[type]` and `pwm[type]` are left
unchanged when `temp` is lower than `temp[type]` and either the drop is smaller than
`hyst[type]` or `now < min_decr_time`; they are updated to `(temp, calc_pwm(temp))`
on the first cycle, where the record is still 0, and on any cycle whenever `temp`
differs from `temp[type]` and that suppression condition does not hold. -/
theorem check_type_update (w : World) (fuel : Nat) (now first_check : Int)
    (data : List s_temp_pwm) (scan : List String) (type : Kind) (f : s_fan) (c : Cycle)
    (sw : Bool) (temp : Int) (sw_error : Bool)
    (hc : f.control.get type = 1) (hdue : f.next_check.get type ≤ now)
    (hi : 1 ≤ f.interval.get type)
    (hfuel : ((now - f.next_check.get type) / f.interval.get type + 1).toNat ≤ fuel)
    (htemp : temp = (scan_sources w type (scan_names scan (f.count_scan.get type))
      c.temp_buf c.log).temp)
    (herr : sw_error = (scan_sources w type (scan_names scan (f.count_scan.get type))
      c.temp_buf c.log).sw_error)
    (hov : ¬ (sw_error = true ∧
      calc_pwm data (f.count_step.get type) (f.interpolate.get type) temp <
        f.error_pwm.get type)) :
    ∃ f' c' sw',
      check_type w fuel now first_check data scan type (f, c, sw) = some (f', c', sw') ∧
      (temp < f.temp.get type ∧
          (f.temp.get type - temp < f.hyst.get type ∨ now < f.min_decr_time) →
        f'.temp.get type = f.temp.get type ∧ f'.pwm.get type = f.pwm.get type) ∧
      (first_check = 1 → f.temp.get type = 0 →
        f'.temp.get type = temp ∧
          f'.pwm.get type =
            calc_pwm data (f.count_step.get type) (f.interpolate.get type) temp) ∧
      (temp ≠ f.temp.get type →
        ¬ (temp < f.temp.get type ∧
          (f.temp.get type - temp < f.hyst.get type ∨ now < f.min_decr_time)) →
        f'.temp.get type = temp ∧
          f'.pwm.get type =
            calc_pwm data (f.count_step.get type) (f.interpolate.get type) temp) := by
  obtain ⟨f', c', sw', hres⟩ := check_type_total w fuel now first_check data scan type f c sw
    (fun _ _ => ⟨hi, hfuel⟩)
  exact ⟨f', c', sw', hres, check_type_update_returned w fuel now first_check data scan type
    f c sw f' c' sw' temp sw_error hres hc hdue htemp herr hov⟩

/-- C4 (amended), witness: with the record (47 degrees, duty 150), margin 5 and
window end 60, the temperature 45 at time 100 is suppressed; with the record at 52
degrees it is accepted and the duty becomes 50; on the first cycle it is
recorded. -/
theorem check_type_update_witness :
    (∃ f' c' sw', check_type world_example 1 100 0 [⟨30, 50⟩, ⟨46, 150⟩, ⟨70, 255⟩]
          ["temp1"] Kind.SYS (fan_hyst, ⟨0, [], []⟩, false) = some (f', c', sw') ∧
        f'.temp.get Kind.SYS = 47 ∧ f'.pwm.get Kind.SYS = 150) ∧
      (∃ f' c' sw', check_type world_example 1 100 0 [⟨30, 50⟩, ⟨46, 150⟩, ⟨70, 255⟩]
          ["temp1"] Kind.SYS ({ fan_hyst with temp := ⟨52, 0⟩ }, ⟨0, [], []⟩, false) =
            some (f', c', sw') ∧
        f'.temp.get Kind.SYS = 45 ∧
        f'.pwm.get Kind.SYS = calc_pwm [⟨30, 50⟩, ⟨46, 150⟩, ⟨70, 255⟩] 3 0 45) ∧
      (∃ f' c' sw', check_type world_example 1 0 1 [⟨30, 50⟩, ⟨46, 150⟩, ⟨70, 255⟩]
          ["temp1"] Kind.SYS (fan_sensor, ⟨0, [], []⟩, false) = some (f', c', sw') ∧
        f'.temp.get Kind.SYS = 45 ∧
        f'.pwm.get Kind.SYS = calc_pwm [⟨30, 50⟩, ⟨46, 150⟩, ⟨70, 255⟩] 1 0 45) := by
  obtain ⟨f1, c1, s1, h1, b1, _, _⟩ := check_type_update world_example 1 100 0
    [⟨30, 50⟩, ⟨46, 150⟩, ⟨70, 255⟩] ["temp1"] Kind.SYS fan_hyst ⟨0, [], []⟩ false 45 false
    (by decide) (by decide) (by decide) (by decide) (by rfl) (by rfl) (by simp)
  obtain ⟨f2, c2, s2, h2, _, _, b2⟩ := check_type_update world_example 1 100 0
    [⟨30, 50⟩, ⟨46, 150⟩, ⟨70, 255⟩] ["temp1"] Kind.SYS { fan_hyst with temp := ⟨52, 0⟩ }
    ⟨0, [], []⟩ false 45 false
    (by decide) (by decide) (by decide) (by decide) (by rfl) (by rfl) (by simp)
  obtain ⟨f3, c3, s3, h3, _, b3, _⟩ := check_type_update world_example 1 0 1
    [⟨30, 50⟩, ⟨46, 150⟩, ⟨70, 255⟩] ["temp1"] Kind.SYS fan_sensor ⟨0, [], []⟩ false 45 false
    (by decide) (by decide) (by decide) (by decide) (by rfl) (by rfl) (by simp)
  exact ⟨⟨f1, c1, s1, h1, b1 (by decide)⟩, ⟨f2, c2, s2, h2, b2 (by decide) (by decide)⟩,
    ⟨f3, c3, s3, h3, b3 (by decide) (by decide)⟩⟩

/-! ## The scheduler -/

/-- C9: when `control_fan_speed` processes an enabled source kind that is due
(`next_check ≤ now`) and whose interval is at least 1, the `next_check` loop ends
(given fuel for its additions) and the new `next_check` is `old + k * interval` for
the least `k ≥ 1` with `old + k * interval > now`: it is greater than `now`, at most
`now + interval`, at least `old + interval`, and congruent to `old` modulo the
interval. -/
theorem check_type_next_check (w : World) (fuel : Nat) (now first_check : Int)
    (data : List s_temp_pwm) (scan : List String) (type : Kind) (f : s_fan) (c : Cycle)
    (sw : Bool) (hc : f.control.get type = 1) (hdue : f.next_check.get type ≤ now)
    (hi : 1 ≤ f.interval.get type)
    (hfuel : ((now - f.next_check.get type) / f.interval.get type + 1).toNat ≤ fuel) :
    ∃ (f' : s_fan) (c' : Cycle) (k : Int),
      check_type w fuel now first_check data scan type (f, c, sw) = some (f', c', true) ∧
      f'.next_check.get type = f.next_check.get type + k * f.interval.get type ∧
      1 ≤ k ∧
      (∀ k' : Int, 1 ≤ k' → now < f.next_check.get type + k' * f.interval.get type →
        k ≤ k') ∧
      now < f'.next_check.get type ∧
      f'.next_check.get type ≤ now + f.interval.get type ∧
      f.next_check.get type + f.interval.get type ≤ f'.next_check.get type ∧
      (f'.next_check.get type - f.next_check.get type) % f.interval.get type = 0 := by
  have hadv := advance_next_check_eq (f.interval.get type) now hi fuel
    (f.next_check.get type) hdue hfuel
  have hv := advance_value (f.interval.get type) now (f.next_check.get type) hi hdue
  refine ⟨_, _, (now - f.next_check.get type) / f.interval.get type + 1,
    check_type_due w fuel now first_check data scan type f c sw _ hc hdue hadv, ?_⟩
  rw [Two.get_set_same]
  exact ⟨rfl, hv⟩

/-- C9, witness: a check that was due at time 100 with interval 10 is run at
time 135; the new `next_check` is 140, not 145. -/
theorem check_type_next_check_witness :
    ∃ (f' : s_fan) (c' : Cycle),
      check_type world_example 4 135 0 [⟨40, 100⟩] ["temp1"] Kind.SYS
          (fan_due, ⟨0, [], []⟩, false) = some (f', c', true) ∧
        f'.next_check.get Kind.SYS = 140 := by
  obtain ⟨f', c', k, h1, h2, h3, h4, h5, h6, h7, h8⟩ :=
    check_type_next_check world_example 4 135 0 [⟨40, 100⟩] ["temp1"] Kind.SYS fan_due
      ⟨0, [], []⟩ false (by decide) (by decide) (by decide) (by decide)
  refine ⟨f', c', h1, ?_⟩
  have e1 : fan_due.next_check.get Kind.SYS = 100 := rfl
  have e2 : fan_due.interval.get Kind.SYS = 10 := rfl
  rw [e1, e2] at h8
  rw [e2] at h6
  omega

/-! ## The sensor cache -/

theorem buffered_append (tb : List s_temp) (n : String) (v : Int) (name : String) :
    buffered (tb ++ [⟨n, v⟩]) name =
      match buffered tb name with
      | some x => some x
      | none => if n = name then some v else none := by
  induction tb with
  | nil => simp [buffered]
  | cons e es ih =>
    simp only [List.cons_append, buffered]
    by_cases h : e.name = name
    · simp [h]
    · simp only [h, if_false]
      exact ih

theorem CacheInv_nil : CacheInv [] [] := by
  refine ⟨?_, ?_, ?_, ?_⟩
  · intro name v; simp [buffered]
  · intro name _; simp
  · intro name; simp
  · intro l1 l2 name v h
    simp at h

theorem CacheInv_write (tb : List s_temp) (evs : List Event) (n : String) (v : Nat)
    (h : CacheInv tb evs) : CacheInv tb (Event.write n v :: evs) := by
  obtain ⟨h1, h2, h3, h4⟩ := h
  refine ⟨?_, ?_, ?_, ?_⟩
  · intro name x
    rw [h1]
    simp
  · intro name hb
    have := h2 name hb
    simpa using this
  · intro name
    have := h3 name
    simpa using this
  · intro l1 l2 name x hs
    rcases l1 with _ | ⟨e, l1⟩
    · simp at hs
    · simp only [List.cons_append, List.cons.injEq] at hs
      exact h4 l1 l2 name x hs.2

theorem CacheInv_buffered (tb : List s_temp) (evs : List Event) (n : String) (v : Int)
    (hb : buffered tb n = some v) (h : CacheInv tb evs) :
    CacheInv tb (Event.sample n v true :: evs) := by
  obtain ⟨h1, h2, h3, h4⟩ := h
  refine ⟨?_, ?_, ?_, ?_⟩
  · intro name x
    rw [h1]
    simp
  · intro name hb
    have := h2 name hb
    simpa using this
  · intro name
    have := h3 name
    simpa using this
  · intro l1 l2 name x hs
    rcases l1 with _ | ⟨e, l1⟩
    · simp only [List.nil_append, List.cons.injEq, Event.sample.injEq, and_true] at hs
      obtain ⟨⟨e1, e2⟩, e3⟩ := hs
      subst e1 e2 e3
      exact (h1 n v).mp hb
    · simp only [List.cons_append, List.cons.injEq] at hs
      exact h4 l1 l2 name x hs.2

theorem CacheInv_acquired (tb : List s_temp) (evs phys : List Event) (n : String) (v : Int)
    (hb : buffered tb n = none)
    (hp : phys = [] ∨ phys = [Event.sys_read n] ∨ phys = [Event.hdd_probe n] ∨
        phys = [Event.hdd_read n, Event.hdd_probe n])
    (h : CacheInv tb evs) :
    CacheInv (tb ++ [⟨n, v⟩]) (Event.sample n v false :: (phys ++ evs)) := by
  obtain ⟨h1, h2, h3, h4⟩ := h
  have hphys : ∀ name x b, Event.sample name x b ∉ phys := by
    intro name x b hm
    rcases hp with hp | hp | hp | hp <;> subst hp <;> simp at hm
  refine ⟨?_, ?_, ?_, ?_⟩
  · intro name x
    rw [buffered_append]
    simp only [List.mem_cons, Event.sample.injEq, and_true, List.mem_append, hphys, false_or]
    cases hbn : buffered tb name with
    | some y =>
      simp only []
      have hy := (h1 name y).mp hbn
      constructor
      · intro hx
        have : y = x := by simpa using hx
        subst this
        exact Or.inr hy
      · rintro (⟨e1, e2⟩ | hx)
        · subst e1
          rw [hb] at hbn
          exact absurd hbn (by simp)
        · have := (h1 name x).mpr hx
          rw [hbn] at this
          exact this
    | none =>
      simp only []
      constructor
      · intro hx
        split_ifs at hx with hn
        · left
          have : v = x := by simpa using hx
          exact ⟨hn.symm, this.symm⟩
      · rintro (⟨e1, e2⟩ | hx)
        · subst e1 e2
          simp
        · have := (h1 name x).mpr hx
          rw [hbn] at this
          exact absurd this (by simp)
  · intro name hbn
    rw [buffered_append] at hbn
    cases hbn' : buffered tb name with
    | some y => rw [hbn'] at hbn; simp at hbn
    | none =>
      rw [hbn'] at hbn
      simp only [] at hbn
      have hne : n ≠ name := by
        intro he
        rw [if_pos he] at hbn
        simp at hbn
      have := h2 name hbn'
      have hne' : name ≠ n := Ne.symm hne
      rcases hp with hp | hp | hp | hp <;> subst hp <;>
        simp [List.count_cons, hne, hne', this]
  · intro name
    have h3n := h3 name
    by_cases hne : n = name
    · subst hne
      have h2n := h2 n hb
      have hr : List.count (Event.hdd_read n) evs = 0 := by omega
      rcases hp with hp | hp | hp | hp <;> subst hp <;> simp [List.count_cons, h2n, hr]
    · have hne' : name ≠ n := Ne.symm hne
      rcases hp with hp | hp | hp | hp <;> subst hp <;>
        simpa [List.count_cons, hne, hne'] using h3n
  · intro l1 l2 name x hs
    rcases l1 with _ | ⟨e, l1⟩
    · simp at hs
    · simp only [List.cons_append, List.cons.injEq] at hs
      obtain ⟨_, hs⟩ := hs
      -- the buffered sample lies in `evs`, since `phys` holds no sample
      have key : ∀ (p : List Event), (∀ name x b, Event.sample name x b ∉ p) →
          ∀ l1, p ++ evs = l1 ++ Event.sample name x true :: l2 →
          Event.sample name x false ∈ l2 := by
        intro p
        induction p with
        | nil =>
          intro _ l1 hh
          exact h4 l1 l2 name x (by simpa using hh)
        | cons q p ih =>
          intro hq l1 hh
          rcases l1 with _ | ⟨e', l1⟩
          · simp only [List.cons_append, List.nil_append, List.cons.injEq] at hh
            exact absurd (hh.1 ▸ List.mem_cons_self q p) (hq name x true)
          · simp only [List.cons_append, List.cons.injEq] at hh
            exact ih (fun a b c hm => hq a b c (List.mem_cons_of_mem _ hm)) l1 hh.2
      exact key phys hphys l1 hs

theorem scan_source_inv (w : World) (type : Kind) (s : Scan) (name : String)
    (log0 : List Event) (h : CacheOK log0 s.temp_buf s.log) :
    CacheOK log0 (scan_source w type s name).temp_buf (scan_source w type s name).log := by
  obtain ⟨evs, he, hinv⟩ := h
  unfold scan_source
  cases hb : buffered s.temp_buf name with
  | some v =>
    simp only []
    exact ⟨Event.sample name v true :: evs, by rw [he]; rfl,
      CacheInv_buffered _ _ _ _ hb hinv⟩
  | none =>
    simp only []
    obtain ⟨phys, hp, hcases⟩ := acquire_log w type name s.log
    refine ⟨Event.sample name (acquire w type name s.log).1 false :: (phys ++ evs), ?_,
      CacheInv_acquired _ _ _ _ _ hb hcases hinv⟩
    rw [hp, he]
    simp

theorem scan_sources_inv (w : World) (type : Kind) (names : List String)
    (log0 : List Event) :
    ∀ (s : Scan), CacheOK log0 s.temp_buf s.log →
      CacheOK log0 (names.foldl (scan_source w type) s).temp_buf
        (names.foldl (scan_source w type) s).log := by
  induction names with
  | nil => intro s h; exact h
  | cons n ns ih =>
    intro s h
    exact ih _ (scan_source_inv w type s n log0 h)

theorem check_type_inv (w : World) (fuel : Nat) (now first_check : Int)
    (data : List s_temp_pwm) (scan : List String) (type : Kind) (f : s_fan) (c : Cycle)
    (sw : Bool) (f' : s_fan) (c' : Cycle) (sw' : Bool) (log0 : List Event)
    (hres : check_type w fuel now first_check data scan type (f, c, sw) = some (f', c', sw'))
    (h : CacheOK log0 c.temp_buf c.log) : CacheOK log0 c'.temp_buf c'.log := by
  by_cases hd : f.control.get type = 1 ∧ f.next_check.get type ≤ now
  · cases hadv : advance_next_check (f.interval.get type) now fuel (f.next_check.get type) with
    | none =>
      rw [check_type_none w fuel now first_check data scan type f c sw hd.1 hd.2 hadv] at hres
      exact absurd hres (by simp)
    | some n =>
      rw [check_type_due w fuel now first_check data scan type f c sw n hd.1 hd.2 hadv] at hres
      simp only [Option.some.injEq, Prod.mk.injEq] at hres
      obtain ⟨_, hc, _⟩ := hres
      subst hc
      exact scan_sources_inv w type _ log0 ⟨0, false, c.temp_buf, c.log⟩ h
  · rw [check_type_skip w fuel now first_check data scan type f c sw hd] at hres
    simp only [Option.some.injEq, Prod.mk.injEq] at hres
    obtain ⟨_, hc, _⟩ := hres
    subst hc
    exact h

theorem check_fan_inv (w : World) (fuel : Nat) (now first_check : Int)
    (data : Two (List s_temp_pwm)) (scan_sys scan_hdd : List String) (f : s_fan)
    (c : Cycle) (f' : s_fan) (c' : Cycle) (log0 : List Event)
    (hres : check_fan w fuel now first_check data scan_sys scan_hdd f c = some (f', c'))
    (h : CacheOK log0 c.temp_buf c.log) : CacheOK log0 c'.temp_buf c'.log := by
  unfold check_fan at hres
  cases h1 : check_type w fuel now first_check data.sys scan_sys Kind.SYS (f, c, false) with
  | none => rw [h1] at hres; exact absurd hres (by simp)
  | some x1 =>
    obtain ⟨f1, c1, sw1⟩ := x1
    rw [h1] at hres
    simp only [] at hres
    cases h2 : check_type w fuel now first_check data.hdd scan_hdd Kind.HDD (f1, c1, sw1) with
    | none => rw [h2] at hres; exact absurd hres (by simp)
    | some x2 =>
      obtain ⟨f2, c2, sw2⟩ := x2
      rw [h2] at hres
      simp only [] at hres
      have i1 := check_type_inv w fuel now first_check data.sys scan_sys Kind.SYS f c false
        f1 c1 sw1 log0 h1 h
      have i2 := check_type_inv w fuel now first_check data.hdd scan_hdd Kind.HDD f1 c1 sw1
        f2 c2 sw2 log0 h2 i1
      split_ifs at hres with hsw
      · simp only [Option.some.injEq, Prod.mk.injEq] at hres
        rw [← hres.2]
        exact i2
      · simp only [Option.some.injEq, Prod.mk.injEq] at hres
        rw [← hres.2]
        obtain ⟨evs, he, hinv⟩ := i2
        rcases commit_log now first_check f2 c2.log with hl | ⟨v, hl⟩
        · exact ⟨evs, by simp only [hl]; exact he, hinv⟩
        · refine ⟨Event.write f2.pwm_write v :: evs, ?_, CacheInv_write _ _ _ _ hinv⟩
          show (commit now first_check f2 c2.log).2 = _
          rw [hl, he]
          rfl

theorem fan_loop_inv (w : World) (fuel : Nat) (g : Globals) (now : Int)
    (log0 : List Event) :
    ∀ (fans : List s_fan) (i : Nat) (c : Cycle) (fans' : List s_fan) (c' : Cycle),
      fan_loop w fuel g now i fans c = some (fans', c') →
      CacheOK log0 c.temp_buf c.log → CacheOK log0 c'.temp_buf c'.log := by
  intro fans
  induction fans with
  | nil =>
    intro i c fans' c' hres h
    simp only [fan_loop, Option.some.injEq, Prod.mk.injEq] at hres
    rw [← hres.2]
    exact h
  | cons f fans ih =>
    intro i c fans' c' hres h
    simp only [fan_loop] at hres
    cases h1 : check_fan w fuel now g.first_check
        ⟨g.data_pwm.sys.getD i [], g.data_pwm.hdd.getD i []⟩
        (g.scan_sys.getD i []) (g.scan_hdd.getD i []) f c with
    | none => rw [h1] at hres; exact absurd hres (by simp)
    | some x1 =>
      obtain ⟨f1, c1⟩ := x1
      rw [h1] at hres
      simp only [] at hres
      cases h2 : fan_loop w fuel g now (i + 1) fans c1 with
      | none => rw [h2] at hres; exact absurd hres (by simp)
      | some x2 =>
        obtain ⟨fans2, c2⟩ := x2
        rw [h2] at hres
        simp only [Option.some.injEq, Prod.mk.injEq] at hres
        rw [← hres.2]
        exact ih (i + 1) c1 fans2 c2 h2
          (check_fan_inv w fuel now g.first_check _ _ _ f c f1 c1 log0 h1 h)

/-- C10: within one call of `control_fan_speed` every source identifier is
acquired at most once (at most one call of `get_sys_temp` or `get_hdd_status` for it,
and `get_hdd_temp` only after a probe), all samples of one identifier in the cycle
have the same value, and every sample served from the cache repeats the value of an
earlier acquisition of the same cycle: the cache starts empty. -/
theorem control_fan_speed_cache (w : World) (fuel : Nat) (now : Int) (g g' : Globals)
    (log log' : List Event)
    (hres : control_fan_speed w fuel now g log = some (g', log')) :
    ∃ evs, log' = evs ++ log ∧
      (∀ name, evs.count (Event.sys_read name) + evs.count (Event.hdd_probe name) ≤ 1 ∧
        evs.count (Event.hdd_read name) ≤ evs.count (Event.hdd_probe name)) ∧
      (∀ name v v' b b', Event.sample name v b ∈ evs → Event.sample name v' b' ∈ evs →
        v = v') ∧
      (∀ l1 l2 name v, evs = l1 ++ Event.sample name v true :: l2 →
        Event.sample name v false ∈ l2) := by
  unfold control_fan_speed at hres
  cases h1 : fan_loop w fuel g now 0 g.fan ⟨0, [], log⟩ with
  | none => rw [h1] at hres; exact absurd hres (by simp)
  | some x =>
    obtain ⟨fans, c⟩ := x
    rw [h1] at hres
    simp only [Option.some.injEq, Prod.mk.injEq] at hres
    obtain ⟨evs, he, i1, _, i3, i4⟩ := fan_loop_inv w fuel g now log g.fan 0 ⟨0, [], log⟩ fans c h1
      ⟨[], rfl, CacheInv_nil⟩
    refine ⟨evs, by rw [← hres.2]; exact he, i3, ?_, i4⟩
    -- every sample of a source has the value of its unbuffered sample
    have hun : ∀ name v b, Event.sample name v b ∈ evs →
        Event.sample name v false ∈ evs := by
      intro name v b hm
      cases b
      · exact hm
      · obtain ⟨l1, l2, hsplit⟩ := List.append_of_mem hm
        have := i4 l1 l2 name v hsplit
        rw [hsplit]
        exact List.mem_append_right _ (List.mem_cons_of_mem _ this)
    intro name v v' b b' hv hv'
    have e1 := (i1 name v).mpr (hun name v b hv)
    have e2 := (i1 name v').mpr (hun name v' b' hv')
    rw [e1] at e2
    exact Option.some.inj e2

/-- C10, witness: two fans list the drive `/dev/sda`; one cycle probes and reads
the drive once, and the second fan is served from the cache. -/
theorem control_fan_speed_cache_witness :
    ∃ g', control_fan_speed world_example 1 0 globals_shared_drive [] =
        some (g', [Event.write "pwm2" 100, Event.sample "/dev/sda" 40 true,
          Event.write "pwm1" 100, Event.sample "/dev/sda" 40 false,
          Event.hdd_read "/dev/sda", Event.hdd_probe "/dev/sda"]) ∧
      ∃ evs, [Event.write "pwm2" 100, Event.sample "/dev/sda" 40 true,
          Event.write "pwm1" 100, Event.sample "/dev/sda" 40 false,
          Event.hdd_read "/dev/sda", Event.hdd_probe "/dev/sda"] = evs ++ [] ∧
        (∀ name, evs.count (Event.sys_read name) + evs.count (Event.hdd_probe name) ≤ 1 ∧
          evs.count (Event.hdd_read name) ≤ evs.count (Event.hdd_probe name)) ∧
        (∀ name v v' b b', Event.sample name v b ∈ evs → Event.sample name v' b' ∈ evs →
          v = v') ∧
        (∀ l1 l2 name v, evs = l1 ++ Event.sample name v true :: l2 →
          Event.sample name v false ∈ l2) := by
  have h : ∃ g', control_fan_speed world_example 1 0 globals_shared_drive [] =
      some (g', [Event.write "pwm2" 100, Event.sample "/dev/sda" 40 true,
        Event.write "pwm1" 100, Event.sample "/dev/sda" 40 false,
        Event.hdd_read "/dev/sda", Event.hdd_probe "/dev/sda"]) := by
    simp [control_fan_speed, fan_loop, check_fan, check_type, globals_shared_drive,
      fan_drive, fan_zero, world_example, Two.get, Two.set, scan_sources, scan_names,
      scan_source, buffered, acquire, update_type, calc_pwm, calc_pwm_loop,
      advance_next_check, commit, combined_pwm, set_fan_speed, List.range,
      List.range.loop]
  obtain ⟨g', h⟩ := h
  exact ⟨g', h, control_fan_speed_cache world_example 1 0 globals_shared_drive g' [] _ h⟩

/-! ## The interpolation divisor -/

/-- C19: whenever `calc_pwm` takes the interpolation branch (`interpolate = 1` and
`0 < j < count_step` for the index `j` at which its loop stopped), the loop has
established `data[j-1].temp ≤ temp < data[j].temp`: the divisor
`data[j].temp - data[j-1].temp` is at least 1 and the interpolation fraction lies in
`[0, 1)`.  This holds for every list of curve points, sorted or not. -/
theorem calc_pwm_divisor (data : List s_temp_pwm) (count_step : Nat)
    (interpolate temp : Int)
    (hbranch : interpolate = 1 ∧ (calc_pwm_loop data count_step temp 0 0).1 > 0 ∧
      (calc_pwm_loop data count_step temp 0 0).1 < count_step) :
    (data.getD ((calc_pwm_loop data count_step temp 0 0).1 - 1) default).temp ≤ temp ∧
      temp < (data.getD (calc_pwm_loop data count_step temp 0 0).1 default).temp ∧
      1 ≤ (data.getD (calc_pwm_loop data count_step temp 0 0).1 default).temp -
        (data.getD ((calc_pwm_loop data count_step temp 0 0).1 - 1) default).temp ∧
      (0 : ℚ) ≤
        ((temp - (data.getD ((calc_pwm_loop data count_step temp 0 0).1 - 1)
            default).temp : Int) : ℚ) /
          (((data.getD (calc_pwm_loop data count_step temp 0 0).1 default).temp -
            (data.getD ((calc_pwm_loop data count_step temp 0 0).1 - 1)
              default).temp : Int) : ℚ) ∧
      ((temp - (data.getD ((calc_pwm_loop data count_step temp 0 0).1 - 1)
            default).temp : Int) : ℚ) /
          (((data.getD (calc_pwm_loop data count_step temp 0 0).1 default).temp -
            (data.getD ((calc_pwm_loop data count_step temp 0 0).1 - 1)
              default).temp : Int) : ℚ) < 1 ∧
      calc_pwm data count_step interpolate temp =
        to_uchar (interpolation data (calc_pwm_loop data count_step temp 0 0).1 temp) := by
  obtain ⟨h1, h2, h3⟩ := hbranch
  obtain ⟨_, a3, a4, _⟩ := calc_pwm_index data count_step temp (by omega)
  have lo := a3 ((calc_pwm_loop data count_step temp 0 0).1 - 1) (by omega)
  have hi := a4 h3
  obtain ⟨f0, f1⟩ := fraction_bounds _ _ _ lo hi
  refine ⟨lo, hi, by omega, f0, f1, ?_⟩
  unfold calc_pwm
  simp only []
  rw [if_pos ⟨h1, h2, h3⟩]

/-- C19, witness: the unsorted points `[(50,10),(50,20),(70,5),(60,9)]` with
interpolation on at temperature 55: the loop stops at index 2, between the
thresholds 50 and 70. -/
theorem calc_pwm_divisor_witness :
    (50 : Int) ≤ 55 ∧ (55 : Int) < 70 ∧
      (calc_pwm_loop [⟨50, 10⟩, ⟨50, 20⟩, ⟨70, 5⟩, ⟨60, 9⟩] 4 55 0 0).1 = 2 := by
  have e : (calc_pwm_loop [⟨50, 10⟩, ⟨50, 20⟩, ⟨70, 5⟩, ⟨60, 9⟩] 4 55 0 0).1 = 2 := by
    simp [calc_pwm_loop]
  have h := calc_pwm_divisor [⟨50, 10⟩, ⟨50, 20⟩, ⟨70, 5⟩, ⟨60, 9⟩] 4 1 55
    ⟨rfl, by rw [e]; decide, by rw [e]; decide⟩
  rw [e] at h
  exact ⟨h.1, h.2.1, e⟩

/-! ## Termination of the `next_check` loop -/

/-- With an interval of 0 or less the `next_check` loop of a due kind does not end,
however many additions it is given. -/
theorem advance_next_check_nonpos (interval now : Int) (hi : interval ≤ 0) :
    ∀ (fuel : Nat) (next_check : Int), next_check ≤ now →
      advance_next_check interval now fuel next_check = none := by
  intro fuel
  induction fuel with
  | zero => intro nc _; rfl
  | succ fuel ih =>
    intro nc hle
    unfold advance_next_check
    rw [if_pos (by omega)]
    exact ih (nc + interval) (by omega)

/-- With an interval of at least 1 the `next_check` loop of a due kind does not end
before it has made `(now - next_check) / interval + 1` additions. -/
theorem advance_next_check_short (interval now : Int) (hi : 1 ≤ interval) :
    ∀ (fuel : Nat) (next_check : Int), next_check ≤ now →
      fuel < ((now - next_check) / interval + 1).toNat →
      advance_next_check interval now fuel next_check = none := by
  intro fuel
  induction fuel with
  | zero => intro nc _ _; rfl
  | succ fuel ih =>
    intro nc hle hf
    have hq0 : 0 ≤ (now - nc) / interval := Int.ediv_nonneg (by omega) (by omega)
    unfold advance_next_check
    by_cases h : nc + interval ≤ now
    · rw [if_pos h]
      have hq : (now - (nc + interval)) / interval = (now - nc) / interval - 1 := by
        have := Int.add_mul_ediv_right (now - nc) (-1) (show interval ≠ 0 by omega)
        have e : now - (nc + interval) = now - nc + -1 * interval := by ring
        rw [e, this]
        ring
      exact ih (nc + interval) h (by rw [hq]; omega)
    · exfalso
      have hq : (now - nc) / interval = 0 := Int.ediv_eq_zero_of_lt (by omega) (by omega)
      rw [hq] at hf
      simp at hf

/-- A fan with a kind that is enabled, due and has an interval of 0 or less never
gets through `check_fan`. -/
theorem check_fan_none (w : World) (fuel : Nat) (now first_check : Int)
    (data : Two (List s_temp_pwm)) (scan_sys scan_hdd : List String) (f : s_fan)
    (c : Cycle) (type : Kind) (hc : f.control.get type = 1)
    (hdue : f.next_check.get type ≤ now) (hi : f.interval.get type ≤ 0) :
    check_fan w fuel now first_check data scan_sys scan_hdd f c = none := by
  unfold check_fan
  cases type
  · rw [check_type_none w fuel now first_check data.sys scan_sys Kind.SYS f c false hc hdue
      (advance_next_check_nonpos _ now hi fuel _ hdue)]
  · cases h1 : check_type w fuel now first_check data.sys scan_sys Kind.SYS (f, c, false) with
    | none => rfl
    | some x1 =>
      obtain ⟨f1, c1, sw1⟩ := x1
      obtain ⟨q1, q2, _, _, _, q6, _⟩ := check_type_frame w fuel now first_check data.sys
        scan_sys Kind.SYS f c false f1 c1 sw1 h1
      have hn : f1.next_check.get Kind.HDD = f.next_check.get Kind.HDD :=
        q6 Kind.HDD (by decide)
      simp only []
      rw [check_type_none w fuel now first_check data.hdd scan_hdd Kind.HDD f1 c1 sw1
        (by rw [q1]; exact hc) (by rw [hn]; exact hdue)
        (advance_next_check_nonpos _ now (by rw [q2]; exact hi) fuel _
          (by rw [hn]; exact hdue))]

/-- A cycle over fans of which one has a kind that is enabled, due and has an
interval of 0 or less never completes. -/
theorem control_fan_speed_none (w : World) (fuel : Nat) (now : Int) (g : Globals)
    (log : List Event) (f : s_fan) (type : Kind) (hf : f ∈ g.fan)
    (hc : f.control.get type = 1) (hdue : f.next_check.get type ≤ now)
    (hi : f.interval.get type ≤ 0) :
    control_fan_speed w fuel now g log = none := by
  cases h : control_fan_speed w fuel now g log with
  | none => rfl
  | some x =>
    exfalso
    obtain ⟨g', log'⟩ := x
    obtain ⟨hl, hk⟩ := control_fan_speed_check_fan w fuel now g g' log log' h
    obtain ⟨k, hklt, hkf⟩ := List.getElem_of_mem hf
    have h1 : g.fan[k]? = some f := by
      rw [List.getElem?_eq_getElem hklt, hkf]
    have hk' : k < g'.fan.length := by rw [hl]; exact hklt
    have h2 : g'.fan[k]? = some (g'.fan[k]) := List.getElem?_eq_getElem hk'
    obtain ⟨ck, ck', hcf⟩ := hk k f _ h1 h2
    rw [check_fan_none w fuel now g.first_check _ _ _ f ck type hc hdue hi] at hcf
    exact absurd hcf (by simp)

/-- C20: for a source kind that is due (`next_check ≤ now`) the loop
`while ((next_check += interval) <= now);` ends if and only if `interval ≥ 1`, and
then after exactly `(now - next_check) / interval + 1` additions (less fuel gives
no result, that much fuel gives the result).  With `interval ≤ 0` no number of
additions makes `next_check` exceed `now`, and a cycle over fans of which one has
such a kind enabled never completes.  An enabled kind has the interval 0 when the
configuration gives a `control_by_` line and no `interval_` line for it. -/
theorem next_check_loop_terminates (interval now next_check : Int)
    (hdue : next_check ≤ now) :
    ((∃ fuel v, advance_next_check interval now fuel next_check = some v) ↔
        1 ≤ interval) ∧
      (1 ≤ interval → ∀ fuel,
        (fuel < ((now - next_check) / interval + 1).toNat →
          advance_next_check interval now fuel next_check = none) ∧
        (((now - next_check) / interval + 1).toNat ≤ fuel →
          advance_next_check interval now fuel next_check =
            some (next_check + ((now - next_check) / interval + 1) * interval))) ∧
      (interval ≤ 0 →
        (∀ n : Nat, next_check + n * interval ≤ now) ∧
        ∀ (w : World) (fuel : Nat) (g : Globals) (log : List Event) (f : s_fan)
          (type : Kind), f ∈ g.fan → f.control.get type = 1 →
          f.next_check.get type = next_check → f.interval.get type = interval →
          control_fan_speed w fuel now g log = none) ∧
      (∀ (t : Kind) (value : Int),
        (read_control_by now t value fan_zero).interval.get t = 0 ∧
        (read_control_by now t value fan_zero).control.get t = to_char value ∧
        (read_control_by now t value fan_zero).next_check.get t = now) := by
  refine ⟨⟨?_, ?_⟩, ?_, ?_, ?_⟩
  · rintro ⟨fuel, v, hv⟩
    by_contra hcon
    rw [advance_next_check_nonpos interval now (by omega) fuel next_check hdue] at hv
    exact absurd hv (by simp)
  · intro hi
    exact ⟨_, _, advance_next_check_eq interval now hi _ next_check hdue (le_refl _)⟩
  · intro hi fuel
    exact ⟨advance_next_check_short interval now hi fuel next_check hdue,
      advance_next_check_eq interval now hi fuel next_check hdue⟩
  · intro hi
    refine ⟨?_, ?_⟩
    · intro n
      have : (n : Int) * interval ≤ 0 :=
        Int.mul_nonpos_of_nonneg_of_nonpos (Int.ofNat_nonneg n) hi
      omega
    · intro w fuel g log f type hf hc hn hint
      exact control_fan_speed_none w fuel now g log f type hf hc (by rw [hn]; exact hdue)
        (by rw [hint]; exact hi)
  · intro t value
    cases t <;> exact ⟨rfl, rfl, rfl⟩

/-- C20, witness: a check due at time 100 with interval 10, run at time 135, ends
after exactly 4 additions at 140; with the single configuration line
`control_by_sys=1` the interval is 0 and the first cycle does not complete. -/
theorem next_check_loop_terminates_witness :
    advance_next_check 10 135 3 100 = none ∧
      advance_next_check 10 135 4 100 = some 140 ∧
      control_fan_speed world_example 1000 0 globals_no_interval [] = none :=
  ⟨((next_check_loop_terminates 10 135 100 (by decide)).2.1 (by decide) 3).1 (by decide),
    ((next_check_loop_terminates 10 135 100 (by decide)).2.1 (by decide) 4).2 (by decide),
    ((next_check_loop_terminates 0 0 0 (by decide)).2.2.1 (by decide)).2 world_example 1000
      globals_no_interval [] (read_control_by 0 Kind.SYS 1 fan_zero) Kind.SYS
      (List.mem_singleton.mpr rfl) (by decide) (by decide) (by decide)⟩

/-! ## First-cycle forcing -/

/-- On the first cycle a combined duty equal to `actual_pwm` is written all the
same, and the fan is left as it is. -/
theorem commit_first_check (now : Int) (f : s_fan) (log : List Event)
    (heq : combined_pwm f = f.actual_pwm) :
    commit now 1 f log = (f, Event.write f.pwm_write f.actual_pwm :: log) := by
  rw [commit_cases, if_neg (fun h => h.2 rfl), if_neg (fun h => by omega),
    if_neg (fun h => by omega), heq]
  unfold set_fan_speed
  simp

/-- On a later cycle a combined duty equal to `actual_pwm` is not committed. -/
theorem commit_same (now first_check : Int) (f : s_fan) (log : List Event)
    (hfc : first_check ≠ 1) (heq : combined_pwm f = f.actual_pwm) :
    commit now first_check f log = (f, log) := by
  rw [commit_cases, if_pos ⟨heq, hfc⟩]

/-- The two steps of `check_fan`: the loop over the kinds, which ends with the fan
`f2`, the variables `c2` and `sw_checked`, and the commit decision, taken exactly
when one of the kinds was enabled and due. -/
theorem check_fan_kinds (w : World) (fuel : Nat) (now first_check : Int)
    (data : Two (List s_temp_pwm)) (scan_sys scan_hdd : List String) (f : s_fan)
    (c : Cycle) (f' : s_fan) (c' : Cycle)
    (hres : check_fan w fuel now first_check data scan_sys scan_hdd f c = some (f', c')) :
    ∃ f1 c1 sw1 f2 c2 sw2,
      check_type w fuel now first_check data.sys scan_sys Kind.SYS (f, c, false) =
        some (f1, c1, sw1) ∧
      check_type w fuel now first_check data.hdd scan_hdd Kind.HDD (f1, c1, sw1) =
        some (f2, c2, sw2) ∧
      sw2 = (decide (f.control.get Kind.SYS = 1 ∧ f.next_check.get Kind.SYS ≤ now) ||
        decide (f.control.get Kind.HDD = 1 ∧ f.next_check.get Kind.HDD ≤ now)) ∧
      (sw2 = false → f' = f2 ∧ c' = c2) ∧
      (sw2 = true → f' = (commit now first_check f2 c2.log).1 ∧
        c' = { c2 with log := (commit now first_check f2 c2.log).2 }) := by
  unfold check_fan at hres
  cases h1 : check_type w fuel now first_check data.sys scan_sys Kind.SYS (f, c, false) with
  | none => rw [h1] at hres; exact absurd hres (by simp)
  | some x1 =>
    obtain ⟨f1, c1, sw1⟩ := x1
    rw [h1] at hres
    simp only [] at hres
    cases h2 : check_type w fuel now first_check data.hdd scan_hdd Kind.HDD (f1, c1, sw1) with
    | none => rw [h2] at hres; exact absurd hres (by simp)
    | some x2 =>
      obtain ⟨f2, c2, sw2⟩ := x2
      rw [h2] at hres
      simp only [] at hres
      obtain ⟨q1, _, _, _, _, q6, q7⟩ := check_type_frame w fuel now first_check data.sys
        scan_sys Kind.SYS f c false f1 c1 sw1 h1
      obtain ⟨_, _, _, _, _, _, r7⟩ := check_type_frame w fuel now first_check data.hdd
        scan_hdd Kind.HDD f1 c1 sw1 f2 c2 sw2 h2
      have hn : f1.next_check.get Kind.HDD = f.next_check.get Kind.HDD :=
        q6 Kind.HDD (by decide)
      rw [q1, hn, q7] at r7
      refine ⟨f1, c1, sw1, f2, c2, sw2, rfl, h2, by rw [r7]; simp, ?_, ?_⟩
      · intro hsw
        rw [if_pos hsw] at hres
        simp only [Option.some.injEq, Prod.mk.injEq] at hres
        exact ⟨hres.1.symm, hres.2.symm⟩
      · intro hsw
        rw [if_neg (by simp [hsw])] at hres
        simp only [Option.some.injEq, Prod.mk.injEq] at hres
        exact ⟨hres.1.symm, hres.2.symm⟩

/-- C11: a fan that is checked in a cycle (one of its kinds is enabled and due, and
the `next_check` loops end) reaches the commit decision, and the loop over the kinds
writes to no fan.  On the first cycle (`first_check = 1`) a combined duty equal to
`actual_pwm` is still written to the fan.  On a later cycle (`first_check ≠ 1`) a
combined duty equal to `actual_pwm` causes no write and no change: the fan and the
variables of the cycle are as the loop over the kinds left them.  After a cycle
that started with `first_check` 1 or 0, `first_check` is 0. -/
theorem check_fan_first_check (w : World) (fuel : Nat) (now : Int)
    (data : Two (List s_temp_pwm)) (scan_sys scan_hdd : List String) (f : s_fan)
    (c : Cycle) (hend : loops_end fuel now f)
    (hchk : (f.control.get Kind.SYS = 1 ∧ f.next_check.get Kind.SYS ≤ now) ∨
      (f.control.get Kind.HDD = 1 ∧ f.next_check.get Kind.HDD ≤ now)) :
    (∃ f' c' evs,
      check_fan w fuel now 1 data scan_sys scan_hdd f c = some (f', c') ∧
      (∀ n v, Event.write n v ∉ evs) ∧
      (max (f'.pwm.get Kind.SYS) (f'.pwm.get Kind.HDD) = f.actual_pwm →
        c'.log = Event.write f.pwm_write f.actual_pwm :: (evs ++ c.log) ∧
          f'.actual_pwm = f.actual_pwm ∧ f'.min_decr_time = f.min_decr_time ∧
          f'.min_stop_time = f.min_stop_time)) ∧
    (∀ first_check : Int, first_check ≠ 1 →
      ∃ f' c' evs,
        check_fan w fuel now first_check data scan_sys scan_hdd f c = some (f', c') ∧
        (∀ n v, Event.write n v ∉ evs) ∧
        (max (f'.pwm.get Kind.SYS) (f'.pwm.get Kind.HDD) = f.actual_pwm →
          c'.log = evs ++ c.log ∧ f'.actual_pwm = f.actual_pwm ∧
            f'.min_decr_time = f.min_decr_time ∧ f'.min_stop_time = f.min_stop_time ∧
            ∃ f1 c1 sw1,
              check_type w fuel now first_check data.sys scan_sys Kind.SYS (f, c, false) =
                some (f1, c1, sw1) ∧
              check_type w fuel now first_check data.hdd scan_hdd Kind.HDD (f1, c1, sw1) =
                some (f', c', true))) ∧
    (∀ (g g' : Globals) (log log' : List Event),
      control_fan_speed w fuel now g log = some (g', log') →
      g.first_check = 1 ∨ g.first_check = 0 → g'.first_check = 0) := by
  have key : ∀ first_check : Int, ∃ f' c' evs f1 c1 sw1 f2 c2,
      check_fan w fuel now first_check data scan_sys scan_hdd f c = some (f', c') ∧
      (∀ n v, Event.write n v ∉ evs) ∧
      check_type w fuel now first_check data.sys scan_sys Kind.SYS (f, c, false) =
        some (f1, c1, sw1) ∧
      check_type w fuel now first_check data.hdd scan_hdd Kind.HDD (f1, c1, sw1) =
        some (f2, c2, true) ∧
      c2.log = evs ++ c.log ∧ f2.actual_pwm = f.actual_pwm ∧
      f2.min_decr_time = f.min_decr_time ∧ f2.min_stop_time = f.min_stop_time ∧
      f2.pwm_write = f.pwm_write ∧
      f' = (commit now first_check f2 c2.log).1 ∧
      c' = { c2 with log := (commit now first_check f2 c2.log).2 } := by
    intro first_check
    obtain ⟨f', c', hres⟩ := check_fan_total w fuel now first_check data scan_sys scan_hdd
      f c hend
    obtain ⟨f1, c1, sw1, f2, c2, sw2, h1, h2, hsw, _, hcm⟩ := check_fan_kinds w fuel now
      first_check data scan_sys scan_hdd f c f' c' hres
    have hsw2 : sw2 = true := by
      rw [hsw]
      rcases hchk with h | h <;> simp [h]
    subst hsw2
    obtain ⟨a1, _, _, _⟩ := check_type_config w fuel now first_check data.sys scan_sys
      Kind.SYS f c false f1 c1 sw1 h1
    obtain ⟨b1, _, _, _⟩ := check_type_config w fuel now first_check data.hdd scan_hdd
      Kind.HDD f1 c1 sw1 f2 c2 true h2
    obtain ⟨e1, l1, n1⟩ := check_type_log w fuel now first_check data.sys scan_sys
      Kind.SYS f c false f1 c1 sw1 h1
    obtain ⟨e2, l2, n2⟩ := check_type_log w fuel now first_check data.hdd scan_hdd
      Kind.HDD f1 c1 sw1 f2 c2 true h2
    obtain ⟨_, _, q3, q4, q5, _, _⟩ := check_type_frame w fuel now first_check data.sys
      scan_sys Kind.SYS f c false f1 c1 sw1 h1
    obtain ⟨_, _, r3, r4, r5, _, _⟩ := check_type_frame w fuel now first_check data.hdd
      scan_hdd Kind.HDD f1 c1 sw1 f2 c2 true h2
    obtain ⟨hf, hc⟩ := hcm rfl
    refine ⟨f', c', e2 ++ e1, f1, c1, sw1, f2, c2, hres, ?_, h1, h2,
      by rw [l2, l1, List.append_assoc], by rw [r3, q3], by rw [r4, q4], by rw [r5, q5],
      by rw [b1, a1], hf, hc⟩
    intro n v hm
    rcases List.mem_append.mp hm with h | h
    · exact n2 n v h
    · exact n1 n v h
  refine ⟨?_, ?_, ?_⟩
  · obtain ⟨f', c', evs, f1, c1, sw1, f2, c2, hres, hnw, _, _, hl, a1, a2, a3, a4, hf, hc⟩ :=
      key 1
    refine ⟨f', c', evs, hres, hnw, ?_⟩
    intro heq
    have hpwm : f'.pwm = f2.pwm := by
      rw [hf]
      exact (commit_frame now 1 f2 c2.log).1
    rw [hpwm, ← combined_pwm_eq_max, ← a1] at heq
    have hk := commit_first_check now f2 c2.log heq
    rw [hk] at hf hc
    rw [hf, hc]
    refine ⟨?_, a1, a2, a3⟩
    show Event.write f2.pwm_write f2.actual_pwm :: c2.log = _
    rw [a4, a1, hl]
  · intro first_check hfc
    obtain ⟨f', c', evs, f1, c1, sw1, f2, c2, hres, hnw, h1, h2, hl, a1, a2, a3, _, hf, hc⟩ :=
      key first_check
    refine ⟨f', c', evs, hres, hnw, ?_⟩
    intro heq
    have hpwm : f'.pwm = f2.pwm := by
      rw [hf]
      exact (commit_frame now first_check f2 c2.log).1
    rw [hpwm, ← combined_pwm_eq_max, ← a1] at heq
    have hk := commit_same now first_check f2 c2.log hfc heq
    rw [hk] at hf hc
    have hc' : c' = c2 := hc
    rw [hf, hc']
    exact ⟨hl, a1, a2, a3, f1, c1, sw1, h1, h2⟩
  · intro g g' log log' hres hfc
    unfold control_fan_speed at hres
    cases h1 : fan_loop w fuel g now 0 g.fan ⟨0, [], log⟩ with
    | none => rw [h1] at hres; exact absurd hres (by simp)
    | some x =>
      obtain ⟨fans, cc⟩ := x
      rw [h1] at hres
      simp only [Option.some.injEq, Prod.mk.injEq] at hres
      rw [← hres.1]
      rcases hfc with h | h
      · simp [h]
      · simp [h]

/-- C11, witness: the fan starts with `actual_pwm = 0` and its combined duty is
0.  The first cycle, at time 0, writes 0 all the same; a cycle with
`first_check = 0`, at time 10, writes nothing; after the first cycle `first_check`
is 0. -/
theorem check_fan_first_check_witness :
    (∃ f' c', check_fan world_example 2 0 1 ⟨[⟨50, 100⟩], []⟩ ["temp1"] [] fan_first
          ⟨0, [], []⟩ = some (f', c') ∧
        c'.log = [Event.write "pwm1" 0, Event.sample "temp1" 45 false,
          Event.sys_read "temp1"] ∧
        f'.actual_pwm = 0) ∧
      (∃ f' c', check_fan world_example 2 10 0 ⟨[⟨50, 100⟩], []⟩ ["temp1"] [] fan_first
          ⟨0, [], []⟩ = some (f', c') ∧
        c'.log = [Event.sample "temp1" 45 false, Event.sys_read "temp1"] ∧
        f'.actual_pwm = 0) ∧
      (∃ g' log', control_fan_speed world_example 2 0 globals_first [] = some (g', log') ∧
        g'.first_check = 0) := by
  have hend0 : loops_end 2 0 fan_first := fun type hc _ => by
    cases type
    · decide
    · exact absurd hc (by decide)
  have hend10 : loops_end 2 10 fan_first := fun type hc _ => by
    cases type
    · decide
    · exact absurd hc (by decide)
  have e1 : (check_fan world_example 2 0 1 ⟨[⟨50, 100⟩], []⟩ ["temp1"] [] fan_first
        ⟨0, [], []⟩).map (fun r => (r.1.pwm, r.2.log)) =
      some (⟨0, 0⟩, [Event.write "pwm1" 0, Event.sample "temp1" 45 false,
        Event.sys_read "temp1"]) := by
    simp [check_fan, check_type, fan_first, fan_zero, world_example, Two.get, Two.set,
      scan_sources, scan_names, scan_source, buffered, acquire, update_type, calc_pwm,
      calc_pwm_loop, advance_next_check, commit, combined_pwm, set_fan_speed, List.range,
      List.range.loop]
  have e2 : (check_fan world_example 2 10 0 ⟨[⟨50, 100⟩], []⟩ ["temp1"] [] fan_first
        ⟨0, [], []⟩).map (fun r => (r.1.pwm, r.2.log)) =
      some (⟨0, 0⟩, [Event.sample "temp1" 45 false, Event.sys_read "temp1"]) := by
    simp [check_fan, check_type, fan_first, fan_zero, world_example, Two.get, Two.set,
      scan_sources, scan_names, scan_source, buffered, acquire, update_type, calc_pwm,
      calc_pwm_loop, advance_next_check, commit, combined_pwm, set_fan_speed, List.range,
      List.range.loop]
  obtain ⟨⟨f1, c1, _, h1, _, b1⟩, _, _⟩ := check_fan_first_check world_example 2 0
    ⟨[⟨50, 100⟩], []⟩ ["temp1"] [] fan_first ⟨0, [], []⟩ hend0 (Or.inl (by decide))
  obtain ⟨_, hb, hg⟩ := check_fan_first_check world_example 2 10
    ⟨[⟨50, 100⟩], []⟩ ["temp1"] [] fan_first ⟨0, [], []⟩ hend10 (Or.inl (by decide))
  obtain ⟨f2, c2, _, h2, _, b2⟩ := hb 0 (by decide)
  rw [h1] at e1
  rw [h2] at e2
  simp only [Option.map_some', Option.some.injEq, Prod.mk.injEq] at e1 e2
  obtain ⟨p1, l1⟩ := e1
  obtain ⟨p2, l2⟩ := e2
  obtain ⟨g', log', hcf⟩ := control_fan_speed_total world_example 2 0 globals_first []
    (fun f hf => by
      have : f = fan_first := List.mem_singleton.mp hf
      rw [this]
      exact hend0)
  have hg0 := (check_fan_first_check world_example 2 0 ⟨[⟨50, 100⟩], []⟩ ["temp1"] []
    fan_first ⟨0, [], []⟩ hend0 (Or.inl (by decide))).2.2 globals_first g' [] log' hcf
    (Or.inl rfl)
  exact ⟨⟨f1, c1, h1, l1, (b1 (by rw [p1]; decide)).2.1⟩,
    ⟨f2, c2, h2, l2, (b2 (by rw [p2]; decide)).2.1⟩, ⟨g', log', hcf, hg0⟩⟩

/-! ## The commit -/

/-- What `commit` does: nothing, or it commits a value `v` that is the combined
duty or the idle duty: `v` is written to the fan, `actual_pwm` becomes `v`, the two
delay windows are armed under their conditions, and no other field changes. -/
theorem commit_effects (now first_check : Int) (f : s_fan) (log : List Event) :
    commit now first_check f log = (f, log) ∨
      ∃ v, (v = combined_pwm f ∨ v = f.idle_pwm) ∧
        commit now first_check f log =
          ({ f with
              min_decr_time :=
                if f.actual_pwm < v then now + f.decr_delay else f.min_decr_time
              min_stop_time :=
                if f.actual_pwm = 0 ∧ v ≠ 0 then now + f.stop_delay else f.min_stop_time
              actual_pwm := v },
            Event.write f.pwm_write v :: log) := by
  rw [commit_cases]
  split_ifs
  · exact Or.inl rfl
  · exact Or.inl rfl
  · exact Or.inr ⟨f.idle_pwm, Or.inr rfl, rfl⟩
  · exact Or.inl rfl
  · exact Or.inr ⟨combined_pwm f, Or.inl rfl, rfl⟩

/-- C15: the loop over the fans, at the fan `f` with the fans `fans` still to come.
After the loop over the kinds has left the fan `f2` and the variables `c2`, either
nothing is committed, or a value `v` (the combined duty or the idle duty) is: then
`v` is written to the fan's `pwm_write`, `actual_pwm` becomes `v`, `min_decr_time`
becomes `now + decr_delay` if the old `actual_pwm` is below `v` and is otherwise
unchanged, `min_stop_time` becomes `now + stop_delay` if the old `actual_pwm` is 0 and
`v` is not, and is otherwise unchanged; `temp`, `pwm` and every other field of the
fan, the sensor cache and the global `next_check` are as before the commit, and the
loop goes on with the other fans `fans` as they were. -/
theorem fan_loop_commit (w : World) (fuel : Nat) (g : Globals) (now : Int) (i : Nat)
    (f : s_fan) (fans : List s_fan) (c : Cycle) (fans' : List s_fan) (c' : Cycle)
    (hres : fan_loop w fuel g now i (f :: fans) c = some (fans', c')) :
    ∃ f1 c1 sw1 f2 c2 sw2 f' cf rest,
      check_type w fuel now g.first_check (g.data_pwm.sys.getD i [])
          (g.scan_sys.getD i []) Kind.SYS (f, c, false) = some (f1, c1, sw1) ∧
      check_type w fuel now g.first_check (g.data_pwm.hdd.getD i [])
          (g.scan_hdd.getD i []) Kind.HDD (f1, c1, sw1) = some (f2, c2, sw2) ∧
      fans' = f' :: rest ∧
      fan_loop w fuel g now (i + 1) fans cf = some (rest, c') ∧
      ((f' = f2 ∧ cf = c2) ∨
        ∃ v, (v = combined_pwm f2 ∨ v = f2.idle_pwm) ∧
          cf = { c2 with log := Event.write f2.pwm_write v :: c2.log } ∧
          f' = { f2 with
              min_decr_time :=
                if f2.actual_pwm < v then now + f2.decr_delay else f2.min_decr_time
              min_stop_time :=
                if f2.actual_pwm = 0 ∧ v ≠ 0 then now + f2.stop_delay
                else f2.min_stop_time
              actual_pwm := v } ∧
          f'.temp = f2.temp ∧ f'.pwm = f2.pwm ∧ f'.next_check = f2.next_check) := by
  simp only [fan_loop] at hres
  cases h1 : check_fan w fuel now g.first_check
      ⟨g.data_pwm.sys.getD i [], g.data_pwm.hdd.getD i []⟩
      (g.scan_sys.getD i []) (g.scan_hdd.getD i []) f c with
  | none => rw [h1] at hres; exact absurd hres (by simp)
  | some x1 =>
    obtain ⟨f', cf⟩ := x1
    rw [h1] at hres
    simp only [] at hres
    cases h2 : fan_loop w fuel g now (i + 1) fans cf with
    | none => rw [h2] at hres; exact absurd hres (by simp)
    | some x2 =>
      obtain ⟨rest, c2'⟩ := x2
      rw [h2] at hres
      simp only [Option.some.injEq, Prod.mk.injEq] at hres
      obtain ⟨hfa, hcc⟩ := hres
      subst hcc
      obtain ⟨f1, c1, sw1, f2, c2, sw2, k1, k2, _, kf, kt⟩ := check_fan_kinds w fuel now
        g.first_check _ _ _ f c f' cf h1
      refine ⟨f1, c1, sw1, f2, c2, sw2, f', cf, rest, k1, k2, hfa.symm, h2, ?_⟩
      cases sw2 with
      | false => exact Or.inl (kf rfl)
      | true =>
        obtain ⟨hf, hc⟩ := kt rfl
        rcases commit_effects now g.first_check f2 c2.log with he | ⟨v, hv, he⟩
        · rw [he] at hf hc
          exact Or.inl ⟨hf, hc⟩
        · rw [he] at hf hc
          refine Or.inr ⟨v, hv, hc, hf, ?_, ?_, ?_⟩ <;> rw [hf]

/-- C15, witness: the two fans of `globals_shared_drive` in the first cycle, at
time 0: both start with `actual_pwm = 0`, and for both the duty 100 of the drive
at 40 degrees is committed. -/
theorem fan_loop_commit_witness :
    ∃ fans' c' f' cf rest,
      fan_loop world_example 1 globals_shared_drive 0 0 globals_shared_drive.fan
        ⟨0, [], []⟩ = some (fans', c') ∧
      fans' = f' :: rest ∧
      fan_loop world_example 1 globals_shared_drive 0 1
        [{ fan_drive with name := "fan2", pwm_write := "pwm2" }] cf = some (rest, c') ∧
      fans'.map (fun f => f.actual_pwm) = [100, 100] := by
  obtain ⟨fans', c', h⟩ := fan_loop_total world_example 1 globals_shared_drive 0
    globals_shared_drive.fan 0 ⟨0, [], []⟩ (fun f hf => by
      intro type hc _
      have hf' : f = fan_drive ∨ f = { fan_drive with name := "fan2", pwm_write := "pwm2" } := by
        simpa [globals_shared_drive] using hf
      rcases hf' with e | e <;> subst e <;> cases type
      · exact absurd hc (by decide)
      · decide
      · exact absurd hc (by decide)
      · decide)
  have e : (fan_loop world_example 1 globals_shared_drive 0 0 globals_shared_drive.fan
      ⟨0, [], []⟩).map (fun r => r.1.map (fun f => f.actual_pwm)) = some [100, 100] := by
    simp [fan_loop, check_fan, check_type, globals_shared_drive, fan_drive, fan_zero,
      world_example, Two.get, Two.set, scan_sources, scan_names, scan_source, buffered,
      acquire, update_type, calc_pwm, calc_pwm_loop, advance_next_check, commit,
      combined_pwm, set_fan_speed, List.range, List.range.loop]
  obtain ⟨_, _, _, _, _, _, f', cf, rest, _, _, e1, e2, _⟩ := fan_loop_commit world_example
    1 globals_shared_drive 0 0 fan_drive
    [{ fan_drive with name := "fan2", pwm_write := "pwm2" }] ⟨0, [], []⟩ fans' c' h
  rw [h] at e
  simp only [Option.map_some', Option.some.injEq] at e
  exact ⟨fans', c', f', cf, rest, h, e1, e2, e⟩

/-! ## The next wake -/

/-- The `next_check` loop ends with a value later than `now`. -/
theorem advance_next_check_gt (interval now : Int) :
    ∀ (fuel : Nat) (next_check n : Int),
      advance_next_check interval now fuel next_check = some n → now < n := by
  intro fuel
  induction fuel with
  | zero => intro nc n h; simp [advance_next_check] at h
  | succ fuel ih =>
    intro nc n h
    unfold advance_next_check at h
    by_cases hle : nc + interval ≤ now
    · rw [if_pos hle] at h
      exact ih _ _ h
    · rw [if_neg hle] at h
      simp only [Option.some.injEq] at h
      omega

/-- Lines 497-499 keep the invariant when the kind is enabled and its `next_check`
value `v` is later than `now`. -/
theorem WakeInv_step (now m v : Int) (P : Int → Prop) (h0 : 0 ≤ now)
    (hinv : WakeInv now m P) (hv : now < v) :
    WakeInv now (if m = 0 ∨ m > v then v else m) (fun s => P s ∨ s = v) := by
  obtain ⟨h1, h2, h3⟩ := hinv
  refine ⟨?_, ?_, ?_⟩
  · intro s hs
    rcases hs with hs | hs
    · exact h1 s hs
    · rw [hs]; exact hv
  · by_cases hc : m = 0 ∨ m > v
    · rw [if_pos hc]; exact Or.inr (Or.inr rfl)
    · rw [if_neg hc]
      rcases h2 with h2 | h2
      · exact absurd (Or.inl h2) hc
      · exact Or.inr (Or.inl h2)
  · intro s hs
    by_cases hc : m = 0 ∨ m > v
    · rw [if_pos hc]
      refine ⟨by omega, ?_⟩
      rcases hs with hs | hs
      · have := h3 s hs
        rcases hc with hc | hc
        · exact absurd hc this.1
        · omega
      · omega
    · rw [if_neg hc]
      have hm : m ≠ 0 ∧ m ≤ v := by
        constructor
        · intro e; exact hc (Or.inl e)
        · by_contra hgt; exact hc (Or.inr (by omega))
      rcases hs with hs | hs
      · exact h3 s hs
      · rw [hs]; exact hm

/-- The invariant depends only on which values `P` holds of. -/
theorem WakeInv_congr (now m : Int) (P Q : Int → Prop) (h : ∀ s, P s ↔ Q s)
    (hinv : WakeInv now m P) : WakeInv now m Q := by
  obtain ⟨h1, h2, h3⟩ := hinv
  refine ⟨fun s hs => h1 s ((h s).mpr hs), ?_, fun s hs => h3 s ((h s).mpr hs)⟩
  rcases h2 with h2 | h2
  · exact Or.inl h2
  · exact Or.inr ((h m).mp h2)

/-- The loop body of one source kind keeps the invariant of the global
`next_check`, adding the `next_check` value of the kind if it is enabled. -/
theorem check_type_wake (w : World) (fuel : Nat) (now first_check : Int)
    (data : List s_temp_pwm) (scan : List String) (type : Kind) (f : s_fan) (c : Cycle)
    (sw : Bool) (f' : s_fan) (c' : Cycle) (sw' : Bool) (P : Int → Prop) (h0 : 0 ≤ now)
    (hinv : WakeInv now c.next_check P)
    (hres : check_type w fuel now first_check data scan type (f, c, sw) = some (f', c', sw')) :
    WakeInv now c'.next_check
      (fun s => P s ∨ (f'.control.get type = 1 ∧ s = f'.next_check.get type)) := by
  by_cases hd : f.control.get type = 1 ∧ f.next_check.get type ≤ now
  · cases hadv : advance_next_check (f.interval.get type) now fuel (f.next_check.get type) with
    | none =>
      rw [check_type_none w fuel now first_check data scan type f c sw hd.1 hd.2 hadv] at hres
      exact absurd hres (by simp)
    | some n =>
      have hfr := check_type_frame w fuel now first_check data scan type f c sw f' c' sw' hres
      rw [check_type_due w fuel now first_check data scan type f c sw n hd.1 hd.2 hadv] at hres
      simp only [Option.some.injEq, Prod.mk.injEq] at hres
      obtain ⟨hf, hc, _⟩ := hres
      have hn : f'.next_check.get type = n := by
        rw [← hf]; exact Two.get_set_same _ _ _
      have hctl : f'.control.get type = 1 := by rw [hfr.1]; exact hd.1
      have hgt := advance_next_check_gt _ _ _ _ _ hadv
      have hcn : c'.next_check = if c.next_check = 0 ∨ c.next_check > n then n
          else c.next_check := by rw [← hc]
      rw [hcn]
      refine WakeInv_congr _ _ _ _ ?_ (WakeInv_step now c.next_check n P h0 hinv hgt)
      intro s
      rw [hn]
      simp only [hctl, true_and]
  · rw [check_type_skip w fuel now first_check data scan type f c sw hd] at hres
    simp only [Option.some.injEq, Prod.mk.injEq] at hres
    obtain ⟨hf, hc, _⟩ := hres
    subst hf
    by_cases hctl : f.control.get type = 1
    · have hlt : now < f.next_check.get type := by
        by_contra hcon
        exact hd ⟨hctl, by omega⟩
      have hcn : c'.next_check =
          if c.next_check = 0 ∨ c.next_check > f.next_check.get type then
            f.next_check.get type else c.next_check := by
        rw [← hc]
        simp only [hctl, true_and]
      rw [hcn]
      refine WakeInv_congr _ _ _ _ ?_
        (WakeInv_step now c.next_check (f.next_check.get type) P h0 hinv hlt)
      intro s
      simp only [hctl, true_and]
    · have hcn : c'.next_check = c.next_check := by
        rw [← hc]
        simp only [hctl, false_and, if_false]
      rw [hcn]
      refine WakeInv_congr _ _ _ _ ?_ hinv
      intro s
      simp only [hctl, false_and, or_false]

/-- The commit leaves `control` and `next_check` of the fan as they are. -/
theorem commit_control (now first_check : Int) (f : s_fan) (log : List Event) :
    (commit now first_check f log).1.control = f.control ∧
      (commit now first_check f log).1.next_check = f.next_check := by
  rcases commit_effects now first_check f log with he | ⟨v, _, he⟩ <;> rw [he] <;>
    exact ⟨rfl, rfl⟩

/-- The body of the loop over the fans keeps the invariant of the global
`next_check`, adding the `next_check` values of the enabled kinds of the fan, and
leaves `control` as it is. -/
theorem check_fan_wake (w : World) (fuel : Nat) (now first_check : Int)
    (data : Two (List s_temp_pwm)) (scan_sys scan_hdd : List String) (f : s_fan)
    (c : Cycle) (f' : s_fan) (c' : Cycle) (P : Int → Prop) (h0 : 0 ≤ now)
    (hinv : WakeInv now c.next_check P)
    (hres : check_fan w fuel now first_check data scan_sys scan_hdd f c = some (f', c')) :
    WakeInv now c'.next_check
        (fun s => P s ∨ ∃ type, f'.control.get type = 1 ∧ s = f'.next_check.get type) ∧
      f'.control = f.control := by
  obtain ⟨f1, c1, sw1, f2, c2, sw2, k1, k2, _, kf, kt⟩ := check_fan_kinds w fuel now
    first_check data scan_sys scan_hdd f c f' c' hres
  have i1 := check_type_wake w fuel now first_check data.sys scan_sys Kind.SYS f c false
    f1 c1 sw1 P h0 hinv k1
  have i2 := check_type_wake w fuel now first_check data.hdd scan_hdd Kind.HDD f1 c1 sw1
    f2 c2 sw2 _ h0 i1 k2
  obtain ⟨q1, _, _, _, _, _, _⟩ := check_type_frame w fuel now first_check data.sys
    scan_sys Kind.SYS f c false f1 c1 sw1 k1
  obtain ⟨r1, _, _, _, _, r6, _⟩ := check_type_frame w fuel now first_check data.hdd
    scan_hdd Kind.HDD f1 c1 sw1 f2 c2 sw2 k2
  have hs : f2.next_check.get Kind.SYS = f1.next_check.get Kind.SYS :=
    r6 Kind.SYS (by decide)
  have hfc : f'.control = f2.control ∧ f'.next_check = f2.next_check ∧
      c'.next_check = c2.next_check := by
    cases sw2 with
    | false =>
      obtain ⟨e1, e2⟩ := kf rfl
      rw [e1, e2]
      exact ⟨rfl, rfl, rfl⟩
    | true =>
      obtain ⟨e1, e2⟩ := kt rfl
      have := commit_control now first_check f2 c2.log
      rw [e1, e2]
      exact ⟨this.1, this.2, rfl⟩
  obtain ⟨a1, a2, a3⟩ := hfc
  refine ⟨?_, by rw [a1, r1, q1]⟩
  rw [a3]
  refine WakeInv_congr _ _ _ _ ?_ i2
  intro s
  rw [a1, a2, ← r1, ← hs]
  constructor
  · rintro ((hp | hsys) | hhdd)
    · exact Or.inl hp
    · exact Or.inr ⟨Kind.SYS, hsys⟩
    · exact Or.inr ⟨Kind.HDD, hhdd⟩
  · rintro (hp | ⟨type, ht⟩)
    · exact Or.inl (Or.inl hp)
    · cases type
      · exact Or.inl (Or.inr ht)
      · exact Or.inr ht

/-- The loop over the fans keeps the invariant of the global `next_check`, adding
the `next_check` values of the enabled kinds of the fans it visits. -/
theorem fan_loop_wake (w : World) (fuel : Nat) (g : Globals) (now : Int) (h0 : 0 ≤ now) :
    ∀ (fans : List s_fan) (i : Nat) (c : Cycle) (fans' : List s_fan) (c' : Cycle)
      (P : Int → Prop), WakeInv now c.next_check P →
      fan_loop w fuel g now i fans c = some (fans', c') →
      WakeInv now c'.next_check
        (fun s => P s ∨
          ∃ f ∈ fans', ∃ type, f.control.get type = 1 ∧ s = f.next_check.get type) := by
  intro fans
  induction fans with
  | nil =>
    intro i c fans' c' P hinv hres
    simp only [fan_loop, Option.some.injEq, Prod.mk.injEq] at hres
    rw [← hres.1, ← hres.2]
    refine WakeInv_congr _ _ _ _ ?_ hinv
    intro s
    simp
  | cons f0 fans ih =>
    intro i c fans' c' P hinv hres
    simp only [fan_loop] at hres
    cases h1 : check_fan w fuel now g.first_check
        ⟨g.data_pwm.sys.getD i [], g.data_pwm.hdd.getD i []⟩
        (g.scan_sys.getD i []) (g.scan_hdd.getD i []) f0 c with
    | none => rw [h1] at hres; exact absurd hres (by simp)
    | some x1 =>
      obtain ⟨f1, c1⟩ := x1
      rw [h1] at hres
      simp only [] at hres
      cases h2 : fan_loop w fuel g now (i + 1) fans c1 with
      | none => rw [h2] at hres; exact absurd hres (by simp)
      | some x2 =>
        obtain ⟨fans2, c2⟩ := x2
        rw [h2] at hres
        simp only [Option.some.injEq, Prod.mk.injEq] at hres
        have i1 := (check_fan_wake w fuel now g.first_check _ _ _ f0 c f1 c1 P h0 hinv h1).1
        have i2 := ih (i + 1) c1 fans2 c2 _ i1 h2
        rw [← hres.1, ← hres.2]
        refine WakeInv_congr _ _ _ _ ?_ i2
        intro s
        simp only [List.mem_cons, exists_eq_or_imp, or_assoc]

/-- The body of the loop over the fans leaves `control` as it is. -/
theorem check_fan_control (w : World) (fuel : Nat) (now first_check : Int)
    (data : Two (List s_temp_pwm)) (scan_sys scan_hdd : List String) (f : s_fan)
    (c : Cycle) (f' : s_fan) (c' : Cycle)
    (hres : check_fan w fuel now first_check data scan_sys scan_hdd f c = some (f', c')) :
    f'.control = f.control := by
  obtain ⟨f1, c1, sw1, f2, c2, sw2, k1, k2, _, kf, kt⟩ := check_fan_kinds w fuel now
    first_check data scan_sys scan_hdd f c f' c' hres
  obtain ⟨q1, _⟩ := check_type_frame w fuel now first_check data.sys
    scan_sys Kind.SYS f c false f1 c1 sw1 k1
  obtain ⟨r1, _⟩ := check_type_frame w fuel now first_check data.hdd
    scan_hdd Kind.HDD f1 c1 sw1 f2 c2 sw2 k2
  cases sw2 with
  | false => rw [(kf rfl).1, r1, q1]
  | true => rw [(kt rfl).1, (commit_control now first_check f2 c2.log).1, r1, q1]

/-- C12: a call of `control_fan_speed` at the time `now = time(NULL)`, which counts
the seconds since the Epoch and is taken to be at least 0, on fans of which one has
an enabled kind, and whose `next_check` loops end (every enabled kind that is due
has an interval of at least 1).  The call returns, and the global `next_check` it
leaves is the minimum of `fan[i].next_check[type]` over the enabled kinds of all
fans: it is the value of one of them and at most the value of each.  It is later
than `now`, so the sleep `next_check - now` of `main` is positive.  The source
uses the value 0 of the global as the mark for "not yet set", which no
`next_check` value of an enabled kind can be after a cycle at a time `now ≥ 0`. -/
theorem control_fan_speed_next_wake (w : World) (fuel : Nat) (now : Int) (g : Globals)
    (log : List Event) (h0 : 0 ≤ now) (hend : ∀ f ∈ g.fan, loops_end fuel now f)
    (hen : ∃ f ∈ g.fan, ∃ type, f.control.get type = 1) :
    ∃ g' log', control_fan_speed w fuel now g log = some (g', log') ∧
      (∃ f ∈ g'.fan, ∃ type, f.control.get type = 1 ∧
        g'.next_check = f.next_check.get type) ∧
      (∀ f ∈ g'.fan, ∀ type, f.control.get type = 1 →
        g'.next_check ≤ f.next_check.get type) ∧
      now < g'.next_check ∧ g'.now = now ∧ 0 < g'.next_check - g'.now := by
  obtain ⟨g', log', hres⟩ := control_fan_speed_total w fuel now g log hend
  obtain ⟨hl, hk⟩ := control_fan_speed_check_fan w fuel now g g' log log' hres
  refine ⟨g', log', hres, ?_⟩
  unfold control_fan_speed at hres
  cases h1 : fan_loop w fuel g now 0 g.fan ⟨0, [], log⟩ with
  | none => rw [h1] at hres; exact absurd hres (by simp)
  | some x =>
    obtain ⟨fans, c⟩ := x
    rw [h1] at hres
    simp only [Option.some.injEq, Prod.mk.injEq] at hres
    have hfan : g'.fan = fans := by rw [← hres.1]
    have hnc : g'.next_check = c.next_check := by rw [← hres.1]
    have hnow : g'.now = now := by rw [← hres.1]
    have hinv := fan_loop_wake w fuel g now h0 g.fan 0 ⟨0, [], log⟩ fans c
      (fun _ => False) ⟨fun _ hs => hs.elim, Or.inl rfl, fun _ hs => hs.elim⟩ h1
    obtain ⟨i1, i2, i3⟩ := hinv
    -- an enabled kind is still enabled after the cycle
    obtain ⟨f, hf, t0, hc⟩ := hen
    obtain ⟨k, hklt, hkf⟩ := List.getElem_of_mem hf
    have hk' : k < g'.fan.length := by rw [hl]; exact hklt
    have e1 : g.fan[k]? = some f := by rw [List.getElem?_eq_getElem hklt, hkf]
    have e2 : g'.fan[k]? = some (g'.fan[k]) := List.getElem?_eq_getElem hk'
    obtain ⟨ck, ck', hcf⟩ := hk k f (g'.fan[k]) e1 e2
    have hctl := check_fan_control w fuel now g.first_check _ _ _ f ck _ ck' hcf
    have hmem : g'.fan[k] ∈ fans := by rw [← hfan]; exact List.getElem_mem _
    have hP : ∃ f ∈ fans, ∃ type, f.control.get type = 1 ∧
        (g'.fan[k]).next_check.get t0 = f.next_check.get type :=
      ⟨_, hmem, t0, by rw [hctl]; exact hc, rfl⟩
    have hm := i3 _ (Or.inr hP)
    have hatt : ∃ f ∈ fans, ∃ type, f.control.get type = 1 ∧
        c.next_check = f.next_check.get type := by
      rcases i2 with i2 | i2 | i2
      · exact absurd i2 hm.1
      · exact i2.elim
      · exact i2
    have hgt : now < c.next_check := i1 _ (Or.inr hatt)
    rw [hfan, hnc, hnow]
    refine ⟨hatt, ?_, hgt, rfl, by omega⟩
    intro f' hf' type' hc'
    exact (i3 _ (Or.inr ⟨f', hf', type', hc', rfl⟩)).2

/-- C12, witness: the first cycle, at time 0, of a fan with the intervals 10 for
the system sensor and 4 for the drive leaves the global `next_check = 4`. -/
theorem control_fan_speed_next_wake_witness :
    ∃ g' log', control_fan_speed world_example 2 0 globals_both [] = some (g', log') ∧
      g'.next_check = 4 ∧ g'.now = 0 ∧ 0 < g'.next_check - g'.now := by
  have hend : ∀ f ∈ globals_both.fan, loops_end 2 0 f := fun f hf => by
    have : f = fan_both := List.mem_singleton.mp hf
    rw [this]
    intro type _ _
    cases type <;> decide
  have e : (control_fan_speed world_example 2 0 globals_both []).map
      (fun r => r.1.next_check) = some 4 := by
    simp [control_fan_speed, fan_loop, check_fan, check_type, globals_both, fan_both,
      fan_zero, world_example, Two.get, Two.set, scan_sources, scan_names, scan_source,
      buffered, acquire, update_type, calc_pwm, calc_pwm_loop, advance_next_check, commit,
      combined_pwm, set_fan_speed, List.range, List.range.loop]
  obtain ⟨g', log', hres, _, _, _, hnow, hpos⟩ := control_fan_speed_next_wake world_example
    2 0 globals_both [] (by decide) hend
    ⟨fan_both, List.mem_singleton.mpr rfl, Kind.SYS, by decide⟩
  rw [hres] at e
  simp only [Option.map_some', Option.some.injEq] at e
  exact ⟨g', log', hres, e, hnow, hpos⟩

/-- The mark 0 of the global `next_check` at a time before the Epoch: at the time
`-1` a system kind with interval 1 that is due gets `next_check = 0`, which the
global then holds as "not yet set", so that the drive kind, not due until 9, sets
the global to 9. -/
theorem next_wake_before_epoch :
    (control_fan_speed world_example 2 (-1)
        { globals_both with
          fan := [{ fan_both with interval := ⟨1, 10⟩, next_check := ⟨-1, 9⟩ }] } []).map
      (fun r => (r.1.next_check, r.1.fan.map (fun f => f.next_check))) =
      some (9, [⟨0, 9⟩]) := by
  simp [control_fan_speed, fan_loop, check_fan, check_type, globals_both, fan_both,
    fan_zero, world_example, Two.get, Two.set, scan_sources, scan_names, scan_source,
    buffered, acquire, update_type, calc_pwm, calc_pwm_loop, advance_next_check, commit,
    combined_pwm, set_fan_speed, List.range, List.range.loop]

/-! ## Reading the temperature of a drive -/

/-- Reduction modulo a power of two distributes over the bitwise or. -/
theorem or_mod_two_pow (a b n : Nat) : (a ||| b) % 2 ^ n = a % 2 ^ n ||| b % 2 ^ n := by
  apply Nat.eq_of_testBit_eq
  intro i
  simp only [Nat.testBit_mod_two_pow, Nat.testBit_or]
  cases decide (i < n) <;> simp

/-- The low eight bits of the raw value are the byte at offset `i + 5`. -/
theorem smart_raw_low (buffer : List Nat) (i : Nat) (h : buffer.getD (i + 5) 0 < 256) :
    smart_raw buffer i &&& 0xFF = buffer.getD (i + 5) 0 := by
  have e : smart_raw buffer i &&& 0xFF = smart_raw buffer i % 2 ^ 8 :=
    Nat.and_pow_two_sub_one_eq_mod _ 8
  rw [e]
  unfold smart_raw
  simp only [Nat.shiftLeft_eq]
  have key : ∀ x a b : Nat,
      ((if x % 2 ^ 32 < 2 ^ 31 then x % 2 ^ 32 else x % 2 ^ 32 + (2 ^ 64 - 2 ^ 32)) |||
        a * 2 ^ 32 % 2 ^ 64 ||| b * 2 ^ 40 % 2 ^ 64) % 2 ^ 8 = x % 2 ^ 8 := by
    intro x a b
    rw [or_mod_two_pow, or_mod_two_pow]
    have h1 : a * 2 ^ 32 % 2 ^ 64 % 2 ^ 8 = 0 := by omega
    have h2 : b * 2 ^ 40 % 2 ^ 64 % 2 ^ 8 = 0 := by omega
    have h3 : (if x % 2 ^ 32 < 2 ^ 31 then x % 2 ^ 32
        else x % 2 ^ 32 + (2 ^ 64 - 2 ^ 32)) % 2 ^ 8 = x % 2 ^ 8 := by
      split_ifs <;> omega
    rw [h1, h2, h3]
    simp only [Nat.or_zero]
  rw [key]
  simp only [or_mod_two_pow]
  have h4 : ∀ x : Nat, x * 2 ^ 8 % 2 ^ 8 = 0 := fun x => by omega
  have h5 : ∀ x : Nat, x * 2 ^ 16 % 2 ^ 8 = 0 := fun x => by omega
  have h6 : ∀ x : Nat, x * 2 ^ 24 % 2 ^ 8 = 0 := fun x => by omega
  rw [h4, h5, h6]
  simp only [Nat.or_zero]
  exact Nat.mod_eq_of_lt h

/-- A byte is unchanged by the conversion to `short`. -/
theorem to_short_byte (b : Nat) (h : b < 256) : to_short (b : Int) = b := by
  unfold to_short
  omega

/-- The loop of `get_hdd_temp` entered at a scanned record at or before the first
record with the identifier 194. -/
theorem get_hdd_temp_loop_found (buffer : List Nat) (hdd_temp : Int) (k : Nat)
    (hk : k < 30) (hid : buffer.getD (2 + 12 * k) 0 = 194)
    (hfirst : ∀ j, j < k → buffer.getD (2 + 12 * j) 0 ≠ 194) :
    ∀ (d j : Nat), j + d = k →
      get_hdd_temp_loop buffer hdd_temp (2 + 12 * j) =
        to_short ((smart_raw buffer (2 + 12 * k) &&& 0xFF : Nat) : Int) := by
  intro d
  induction d with
  | zero =>
    intro j hj
    have : j = k := by omega
    subst this
    rw [get_hdd_temp_loop, if_pos (by omega), if_pos hid]
  | succ d ih =>
    intro j hj
    rw [get_hdd_temp_loop, if_pos (by omega), if_neg (hfirst j (by omega))]
    have := ih (j + 1) (by omega)
    rw [show 2 + 12 * (j + 1) = 2 + 12 * j + 12 by ring] at this
    exact this

/-- The loop of `get_hdd_temp` over records of which none has the identifier 194
leaves `hdd_temp` as it was. -/
theorem get_hdd_temp_loop_not_found (buffer : List Nat) (hdd_temp : Int)
    (hno : ∀ j, j < 30 → buffer.getD (2 + 12 * j) 0 ≠ 194) :
    ∀ (d j : Nat), j + d = 30 →
      get_hdd_temp_loop buffer hdd_temp (2 + 12 * j) = hdd_temp := by
  intro d
  induction d with
  | zero =>
    intro j hj
    rw [get_hdd_temp_loop, if_neg (by omega)]
  | succ d ih =>
    intro j hj
    rw [get_hdd_temp_loop, if_pos (by omega), if_neg (hno j (by omega))]
    have := ih (j + 1) (by omega)
    rw [show 2 + 12 * (j + 1) = 2 + 12 * j + 12 by ring] at this
    exact this

/-- C14: for a log of 512 bytes in which the record `k` (id byte at offset
`2 + 12 * k`, `k < 30`) is the first scanned record with the identifier 194, after
a successful `open` and `ioctl`, `get_hdd_temp` returns the little-endian number
held in the bytes at the offsets `+5 .. +10` of that record reduced to its low 8
bits, which is the byte at offset `+5`; the result is in `0 .. 255` and is not the
error value `-1`, whatever the local variable held. -/
theorem get_hdd_temp_decode (buffer : List Nat) (hdd_temp : Int) (k : Nat)
    (hlen : buffer.length = 512) (hbytes : ∀ b ∈ buffer, b < 256) (hk : k < 30)
    (hid : buffer.getD (2 + 12 * k) 0 = 194)
    (hfirst : ∀ j, j < k → buffer.getD (2 + 12 * j) 0 ≠ 194) :
    get_hdd_temp true true buffer hdd_temp =
        (((buffer.getD (2 + 12 * k + 5) 0 + buffer.getD (2 + 12 * k + 6) 0 * 2 ^ 8 +
          buffer.getD (2 + 12 * k + 7) 0 * 2 ^ 16 + buffer.getD (2 + 12 * k + 8) 0 * 2 ^ 24 +
          buffer.getD (2 + 12 * k + 9) 0 * 2 ^ 32 +
          buffer.getD (2 + 12 * k + 10) 0 * 2 ^ 40) % 2 ^ 8 : Nat) : Int) ∧
      get_hdd_temp true true buffer hdd_temp = (buffer.getD (2 + 12 * k + 5) 0 : Int) ∧
      0 ≤ get_hdd_temp true true buffer hdd_temp ∧
      get_hdd_temp true true buffer hdd_temp ≤ 255 ∧
      get_hdd_temp true true buffer hdd_temp ≠ -1 := by
  have hb : buffer.getD (2 + 12 * k + 5) 0 < 256 := by
    have hlt : 2 + 12 * k + 5 < buffer.length := by omega
    rw [List.getD_eq_getElem _ _ hlt]
    exact hbytes _ (List.getElem_mem _)
  have hres : get_hdd_temp true true buffer hdd_temp =
      (buffer.getD (2 + 12 * k + 5) 0 : Int) := by
    unfold get_hdd_temp
    simp only [Bool.true_eq_false, if_false]
    have := get_hdd_temp_loop_found buffer hdd_temp k hk hid hfirst k 0 (by omega)
    simp only [Nat.mul_zero, Nat.add_zero] at this
    rw [this, smart_raw_low buffer (2 + 12 * k) hb, to_short_byte _ hb]
  refine ⟨?_, hres, ?_, ?_, ?_⟩
  · rw [hres]
    congr 1
    omega
  · rw [hres]; omega
  · rw [hres]; omega
  · rw [hres]; omega

/-- C14, witness: in `smart_log_example` the raw bytes of the record at offset 14
are `40, 1, 2, 128, 3, 4`, and `get_hdd_temp` returns 40, whatever the local
variable held (here 7). -/
theorem get_hdd_temp_decode_witness :
    get_hdd_temp true true smart_log_example 7 = 40 := by
  have h := (get_hdd_temp_decode smart_log_example 7 1
    (by rw [smart_log_example, List.length_append, List.length_replicate]; rfl)
    (by
      intro b hb
      simp only [smart_log_example, List.mem_append, List.mem_cons, List.mem_replicate,
        List.mem_singleton, List.not_mem_nil, or_false] at hb
      omega)
    (by decide)
    (by rw [smart_log_example, List.getD_append _ _ _ _ (by decide)]; rfl)
    (by
      intro j hj
      have : j = 0 := by omega
      subst this
      rw [smart_log_example, List.getD_append _ _ _ _ (by decide)]
      decide)).2.1
  rw [h, smart_log_example, List.getD_append _ _ _ _ (by decide)]
  rfl

/-- C13: a log of 512 zero bytes, in which no scanned record has the identifier
194, after a successful `open` and `ioctl`.  The function `get_hdd_temp` returns
whatever the uninitialised local variable `hdd_temp` held, not the error value
`-1`; when that is 0, the source loop takes the drive as one at 0 degrees and does
not set `sw_error`. -/
theorem get_hdd_temp_attribute_missing :
    (∀ hdd_temp : Int,
        get_hdd_temp true true (List.replicate 512 0) hdd_temp = hdd_temp) ∧
      get_hdd_temp true true (List.replicate 512 0) 0 ≠ -1 ∧
      (scan_source world_no_attribute Kind.HDD ⟨0, false, [], []⟩ "/dev/sda").sw_error =
        false ∧
      (scan_source world_no_attribute Kind.HDD ⟨0, false, [], []⟩ "/dev/sda").temp_buf =
        [⟨"/dev/sda", 0⟩] := by
  have hno : ∀ j, j < 30 → (List.replicate 512 0).getD (2 + 12 * j) 0 ≠ 194 := by
    intro j hj
    rw [List.getD_eq_getElem _ _ (by rw [List.length_replicate]; omega),
      List.getElem_replicate]
    decide
  have h : ∀ hdd_temp : Int,
      get_hdd_temp true true (List.replicate 512 0) hdd_temp = hdd_temp := by
    intro u
    unfold get_hdd_temp
    simp only [Bool.true_eq_false, if_false]
    exact get_hdd_temp_loop_not_found (List.replicate 512 0) u hno 30 0 (by omega)
  have e1 : world_no_attribute.stat_blk = fun _ _ => true := rfl
  have e2 : world_no_attribute.get_hdd_status = fun _ _ => 1 := rfl
  have e3 : world_no_attribute.get_hdd_temp = fun _ _ => 0 := by
    funext a b
    exact h 0
  refine ⟨h, by rw [h 0]; decide, ?_, ?_⟩
  · simp [scan_source, buffered, acquire, e1, e2, e3]
  · simp [scan_source, buffered, acquire, e1, e2, e3]

/-! ## Probing the power state of a drive -/

/-- The opcodes that `get_hdd_status` sends: the primary one, and the legacy one
exactly when the primary one failed. -/
theorem get_hdd_status_sent (dev : Nat → SgReply) (state : Nat) :
    (get_hdd_status true dev state).sent =
      if (sgio_send dev ATA_OP_CHECKPOWERMODE1 state).1 = 0 then [ATA_OP_CHECKPOWERMODE1]
      else [ATA_OP_CHECKPOWERMODE1, ATA_OP_CHECKPOWERMODE2] := by
  unfold get_hdd_status
  simp only [Bool.true_eq_false, if_false]
  split_ifs <;> first | rfl | contradiction

/-- The result of `get_hdd_status` when both commands fail: it depends only on the
byte that the variable `state` holds at the end. -/
theorem get_hdd_status_failed (dev : Nat → SgReply) (state : Nat)
    (h1 : (sgio_send dev ATA_OP_CHECKPOWERMODE1 state).1 ≠ 0)
    (h2 : (sgio_send dev ATA_OP_CHECKPOWERMODE2
      (sgio_send dev ATA_OP_CHECKPOWERMODE1 state).2).1 ≠ 0) :
    get_hdd_status true dev state =
      { result :=
          if (sgio_send dev ATA_OP_CHECKPOWERMODE2
            (sgio_send dev ATA_OP_CHECKPOWERMODE1 state).2).2 = 0 then 0 else 1
        ret := some 0
        sent := [ATA_OP_CHECKPOWERMODE1, ATA_OP_CHECKPOWERMODE2] } := by
  unfold get_hdd_status
  simp only [Bool.true_eq_false, if_false, h1, h2, ne_eq, not_false_eq_true, if_true]

/-- C16: a drive that aborts both power-mode commands with `ERR` set in the ATA
status, leaving `0xff` in the byte `desc[5]`.  The function `get_hdd_status` sends
the primary and then the legacy opcode, both calls of `sgio_send` return -1, the
local variable `ret` is set to 0, and the function returns 1 ("running") all the
same, since it returns by `state` and not by `ret`; `control_fan_speed` then calls
`get_hdd_temp` for the drive.  The same happens on a drive on which both `ioctl`
calls fail, when the uninitialised variable `state` holds a value other than 0. -/
theorem get_hdd_status_probe_failed :
    (sgio_send drive_aborts ATA_OP_CHECKPOWERMODE1 0).1 = -1 ∧
      (sgio_send drive_aborts ATA_OP_CHECKPOWERMODE2 0xff).1 = -1 ∧
      get_hdd_status true drive_aborts 0 =
        { result := 1, ret := some 0, sent := [0xe5, 0x98] } ∧
      acquire world_probe_fails Kind.HDD "/dev/sda" [] =
        (40, [Event.hdd_read "/dev/sda", Event.hdd_probe "/dev/sda"]) ∧
      get_hdd_status true drive_no_ioctl 0xff =
        { result := 1, ret := some 0, sent := [0xe5, 0x98] } := by
  refine ⟨by decide, by decide, by decide, ?_, by decide⟩
  have e : (get_hdd_status true drive_aborts 0).result = 1 := by decide
  simp [acquire, e, world_probe_fails, world_example]

/-! ## The number of curve points -/

/-- The value of `j` after the loop over a line of `ps.length` pairs: the number of
pairs if the line fits, and `MAX_STEP + 1` otherwise. -/
theorem read_temp_pwm_loop_count :
    ∀ (ps : List (Int × Int)) (j : Nat) (data : List s_temp_pwm), j ≤ MAX_STEP →
      ∃ data1, read_temp_pwm_loop (pair_tokens ps) j data =
          some (if j + ps.length ≤ MAX_STEP then j + ps.length else MAX_STEP + 1, data1) ∧
        data1.length = data.length := by
  intro ps
  induction ps with
  | nil =>
    intro j data hj
    refine ⟨data, ?_, rfl⟩
    simp only [pair_tokens, read_temp_pwm_loop, List.length_nil, Nat.add_zero, if_pos hj]
  | cons p ps ih =>
    intro j data hj
    obtain ⟨a, b⟩ := p
    simp only [pair_tokens, read_temp_pwm_loop, List.length_cons]
    by_cases h : j + 1 ≤ MAX_STEP
    · rw [if_pos h]
      obtain ⟨data1, h1, h2⟩ := ih (j + 1) (data.set j ⟨to_short a, int_to_uchar b⟩) h
      refine ⟨data1, ?_, by rw [h2, List.length_set]⟩
      rw [h1]
      have e : j + (ps.length + 1) = j + 1 + ps.length := by omega
      rw [e]
    · rw [if_neg h]
      refine ⟨data, ?_, rfl⟩
      have hj2 : j = MAX_STEP := by omega
      rw [if_neg (by omega), hj2]

/-- C17: the line `temp_pwm_sys=0,0,10,10,...,100,100` with eleven pairs, read
into a curve array of `MAX_STEP` zeroed points.  The array still holds `MAX_STEP`
points, the first ten pairs, but `count_step` is set to 11, which is
`MAX_STEP + 1` and not `min 11 MAX_STEP`; `calc_pwm` with that `count_step` at 200
degrees then takes its result from position 10, past the end of the array (shown
with a point `(0, 77)` lying there). -/
theorem read_temp_pwm_count_step :
    (read_temp_pwm Kind.SYS tokens_eleven fan_zero (List.replicate MAX_STEP ⟨0, 0⟩)).map
        (fun r => (r.1.count_step.get Kind.SYS, r.2)) =
      some (11, [⟨0, 0⟩, ⟨10, 10⟩, ⟨20, 20⟩, ⟨30, 30⟩, ⟨40, 40⟩, ⟨50, 50⟩, ⟨60, 60⟩,
        ⟨70, 70⟩, ⟨80, 80⟩, ⟨90, 90⟩]) ∧
      min 11 MAX_STEP = 10 ∧
      (calc_pwm_loop ([⟨0, 0⟩, ⟨10, 10⟩, ⟨20, 20⟩, ⟨30, 30⟩, ⟨40, 40⟩, ⟨50, 50⟩, ⟨60, 60⟩,
        ⟨70, 70⟩, ⟨80, 80⟩, ⟨90, 90⟩] ++ [⟨0, 77⟩]) 11 200 0 0).1 = 11 ∧
      calc_pwm ([⟨0, 0⟩, ⟨10, 10⟩, ⟨20, 20⟩, ⟨30, 30⟩, ⟨40, 40⟩, ⟨50, 50⟩, ⟨60, 60⟩,
        ⟨70, 70⟩, ⟨80, 80⟩, ⟨90, 90⟩] ++ [⟨0, 77⟩]) 11 0 200 = 77 := by
  refine ⟨by decide, by decide, ?_, ?_⟩
  · simp [calc_pwm_loop]
  · simp [calc_pwm, calc_pwm_loop]

/-! ## The capacity of the sensor cache -/

/-- C18: a configuration of two fans, the first with `scan_hdd=/dev/sda` and the
second with `scan_hdd=sda`, and no `sys_input` line.  The two names differ, but
`read_mem_conf` finds `sda,` inside `/dev/sda,` and counts one drive, so that
`count_total[SYS] + count_total[HDD]` is 1; the first cycle of
`control_fan_speed` puts two entries into the sensor cache. -/
theorem read_mem_conf_count_substring :
    "/dev/sda" ≠ "sda" ∧
      strstr "/dev/sda,".toList "sda,".toList = true ∧
      read_mem_conf_count [] + read_mem_conf_count ["/dev/sda", "sda"] = 1 ∧
      (fan_loop world_one_drive 1 globals_two_names 0 0 globals_two_names.fan
          ⟨0, [], []⟩).map (fun r => r.2.temp_buf) =
        some [⟨"/dev/sda", 40⟩, ⟨"sda", 0⟩] := by
  refine ⟨by decide, by decide, by decide, ?_⟩
  simp [fan_loop, check_fan, check_type, globals_two_names, fan_drive,
    fan_zero, world_one_drive, Two.get, Two.set, scan_sources, scan_names, scan_source,
    buffered, acquire, update_type, calc_pwm, calc_pwm_loop, advance_next_check, commit,
    combined_pwm, set_fan_speed, List.range, List.range.loop]

end Fwcontrol
